import Mathlib

/-!
# avs2bdnxml: image primitives, event splitting and the frame segmenter

A shallow embedding of `src/avs2bdnxml.c`.

* An RGBA buffer is a list of 4-byte pixels; the pointer walks of the C code
  (`im`, `im_old` running up to `max`) become recursion over that list or over
  a pixel index.
* C `int` values are mathematical integers (`Int`): the development is about
  runs in which no `int` computation overflows.
* Functions that write through a pointer return the new buffer.
* Code that can call `exit`, return from `main` or loop forever has a result
  of type `Run`.
* Of `main`, the part from `/* Get frame number */` on is embedded, for options
  that have been parsed.  The calls of `write_sup` and `write_png` are recorded
  by their arguments; palettes, pixel output and the progress indicator are
  left out.
-/

namespace Avs2bdnxml

set_option maxRecDepth 20000

/-! ## Data model -/

/-- One byte of an image buffer. -/
abbrev Byte := Fin 256

/-- One 32-bit pixel of a buffer: the bytes `im[0]`, `im[1]`, `im[2]`, `im[3]`.
`b3` is the alpha byte. -/
structure Pixel where
  b0 : Byte
  b1 : Byte
  b2 : Byte
  b3 : Byte
deriving DecidableEq

/-- The pixel stored by the 32-bit write `*im = 0`. -/
def Pixel.zero : Pixel := ⟨0, 0, 0, 0⟩

/-- The struct `stream_info_t`. -/
structure stream_info_t where
  i_width : Int
  i_height : Int
  i_fps_den : Int
  i_fps_num : Int

/-- Number of pixels between `img` and `max = img + i_width * i_height * 4`
(none when the product is negative: `im < max` is false at once). -/
def stream_info_t.pixels (s_info : stream_info_t) : Nat :=
  (s_info.i_width * s_info.i_height).toNat

/-! ## Image primitives (scalar C versions) -/

/-- The loop of `is_empty_c` over the pixels from `im` up to `max`:
`if (im[3]) return 0; im += 4;`, and `return 1` once `im` reaches `max`. -/
def is_empty_loop : List Pixel → Int
  | [] => 1
  | p :: im => if p.b3 ≠ 0 then 0 else is_empty_loop im

/-- The function `is_empty_c (s_info, img)`. -/
def is_empty_c (s_info : stream_info_t) (img : List Pixel) : Int :=
  is_empty_loop (img.take s_info.pixels)

/-- The loop of `is_identical_c` over the pixels of `img` from `im` up to `max`
and the pixels of `img_old` from `im_old` on.  Each round first executes
`if (!((char *)im)[3]) *im = 0;`, then compares the pixel just normalised with
`*im_old` and returns 0 at the first difference.  The result is the return
value together with the pixels of `img` as the loop leaves them.  A reference
buffer that is too short reads as zero. -/
def is_identical_loop : List Pixel → List Pixel → Int × List Pixel
  | [], _ => (1, [])
  | p :: im, im_old =>
    let p1 := if p.b3 = 0 then Pixel.zero else p
    if p1 ≠ im_old.headD Pixel.zero then (0, p1 :: im)
    else
      let r := is_identical_loop im im_old.tail
      (r.1, p1 :: r.2)

/-- The function `is_identical_c (s_info, img, img_old)`: the return value and
the contents of `img` afterwards (`img_old` is only read). -/
def is_identical_c (s_info : stream_info_t) (img img_old : List Pixel) :
    Int × List Pixel :=
  let r := is_identical_loop (img.take s_info.pixels) img_old
  (r.1, r.2 ++ img.drop s_info.pixels)

/-- The loop of `zero_transparent_c`, with `k` pixels left before `max` and
`im` the index of the current pixel: `if (!im[3]) *(uint32_t *)img = 0; im += 4;`.
The write goes through `img`, the start of the buffer, so it lands on pixel 0.
A read past the end of the list reads as zero. -/
def zero_transparent_loop : Nat → Nat → List Pixel → List Pixel
  | 0, _, img => img
  | k + 1, im, img =>
    zero_transparent_loop k (im + 1)
      (if (img.getD im Pixel.zero).b3 = 0 then img.set 0 Pixel.zero else img)

/-- The function `zero_transparent_c (s_info, img)`: the contents of `img`
afterwards. -/
def zero_transparent_c (s_info : stream_info_t) (img : List Pixel) : List Pixel :=
  zero_transparent_loop s_info.pixels 0 img

/-- What the specification calls normalisation of one pixel: a pixel whose
alpha byte is 0 becomes four zero bytes, any other pixel is kept. -/
def normalize_pixel (p : Pixel) : Pixel :=
  if p.b3 = 0 then Pixel.zero else p

/-- The loop of `swap_rb_c`: `out[0] = img[2]; out[1] = img[1]; out[2] = img[0];
out[3] = img[3];` for every pixel. -/
def swap_rb_loop : List Pixel → List Pixel
  | [] => []
  | p :: img => ⟨p.b2, p.b1, p.b0, p.b3⟩ :: swap_rb_loop img

/-- The function `swap_rb_c (s_info, img, out)`: the pixels written to `out`. -/
def swap_rb_c (s_info : stream_info_t) (img : List Pixel) : List Pixel :=
  swap_rb_loop (img.take s_info.pixels)

/-- The four image primitives `is_identical`, `is_empty`, `zero_transparent`
and `swap_rb`, which dispatch on `detect_sse2 ()` between the assembler
versions (not part of the sources) and the C versions. -/
structure primitives where
  is_identical : stream_info_t → List Pixel → List Pixel → Int × List Pixel
  is_empty : stream_info_t → List Pixel → Int
  zero_transparent : stream_info_t → List Pixel → List Pixel
  swap_rb : stream_info_t → List Pixel → List Pixel

/-- The primitives selected when `detect_sse2 ()` returns 0. -/
def scalar_primitives : primitives :=
  ⟨is_identical_c, is_empty_c, zero_transparent_c, swap_rb_c⟩

/-! ## Results of running code that may exit -/

/-- Outcome of a piece of code that can call `exit` (or `return` from `main`)
or loop forever. -/
inductive Run (α : Type) where
  | ok (a : α)
  | exit (code : Int)
  | hang
deriving DecidableEq

/-- Sequencing of two pieces of code. -/
def Run.bind {α β : Type} (r : Run α) (f : α → Run β) : Run β :=
  match r with
  | .ok a => f a
  | .exit code => .exit code
  | .hang => .hang

/-! ## Timecodes -/

/-- The characters printed by `printf ("%02d", n)`. -/
def fmt_02d (n : Int) : List Char :=
  if n < 0 then '-' :: Nat.toDigits 10 n.natAbs
  else if n < 10 then '0' :: Nat.toDigits 10 n.toNat
  else Nat.toDigits 10 n.toNat

/-- The function `mk_timecode (frame, fps, buf)`: the string left in `buf`, or
`exit (1)`.  `/` and `%` are the truncating C operators. -/
def mk_timecode (frame fps : Int) : Run String :=
  let tc := frame
  let frames := Int.tmod tc fps
  let tc := Int.tdiv tc fps
  let s := Int.tmod tc 60
  let tc := Int.tdiv tc 60
  let m := Int.tmod tc 60
  let tc := Int.tdiv tc 60
  let h := tc
  if h > 99 then .exit 1
  else
    let out := fmt_02d h ++ ':' :: fmt_02d m ++ ':' :: fmt_02d s ++ ':' :: fmt_02d frames
    if out.length ≠ 11 then .exit 1 else .ok (String.mk out)

/-! ## Events and splitting -/

/-- Modelled from the spec: `crop_t` is declared in `auto_split.h`, which is
not part of the sources; a crop rectangle is `(x, y, w, h)`. -/
structure crop_t where
  x : Int
  y : Int
  w : Int
  h : Int
deriving DecidableEq

/-- The struct `event_t`; `c0` and `c1` are `c[0]` and `c[1]`. -/
structure event_t where
  image_number : Int
  start_frame : Int
  end_frame : Int
  graphics : Int
  forced : Int
  c0 : crop_t
  c1 : crop_t
deriving DecidableEq

/-- Modelled from the spec: the list type generated by `STATIC_LIST (event, event_t)`
comes from `abstract_lists.h`, which is not part of the sources; it is an
ordered sequence of event records to which events are appended and which is
read front to back. -/
abbrev event_list_t := List event_t

/-- Modelled from the spec: `event_list_insert_after` (from `abstract_lists.h`)
appends the record to the list. -/
def event_list_insert_after (events : event_list_t) (new : event_t) : event_list_t :=
  events ++ [new]

/-- The function `add_event_xml_real`. -/
def add_event_xml_real (events : event_list_t) (image start end_ graphics : Int)
    (crops : crop_t × crop_t) (forced : Int) : event_list_t :=
  event_list_insert_after events
    { image_number := image, start_frame := start, end_frame := end_,
      graphics := graphics, forced := forced, c0 := crops.1, c1 := crops.2 }

/-- The loop `while (d >= split_at + min_split)` of `add_event_xml`, run for at
most `fuel` rounds: the list, `d` and `start` when the loop is left, or `none`
when the condition still holds after `fuel` rounds. -/
def add_event_xml_loop (image split_at min_split graphics : Int)
    (crops : crop_t × crop_t) (forced : Int) :
    Nat → event_list_t → Int → Int → Option (event_list_t × Int × Int)
  | 0, events, d, start =>
    if d ≥ split_at + min_split then none else some (events, d, start)
  | fuel + 1, events, d, start =>
    if d ≥ split_at + min_split then
      add_event_xml_loop image split_at min_split graphics crops forced fuel
        (add_event_xml_real events image start (start + split_at) graphics crops forced)
        (d - split_at) (start + split_at)
    else some (events, d, start)

/-- Number of rounds after which the splitting loop has ended if it ends at
all: with `split_at ≥ 1` every round lowers `d` by at least 1, and with
`split_at < 0` the condition, once true, stays true. -/
def split_rounds (split_at min_split d : Int) : Nat :=
  (d - (split_at + min_split)).toNat + 1

/-- The function `add_event_xml`: the event list afterwards, or `hang` when the
splitting loop does not end. -/
def add_event_xml (events : event_list_t) (split_at min_split start end_ graphics : Int)
    (crops : crop_t × crop_t) (forced : Int) : Run event_list_t :=
  let image := start
  let d := end_ - start
  if split_at = 0 then
    .ok (add_event_xml_real events image start end_ graphics crops forced)
  else
    match add_event_xml_loop image split_at min_split graphics crops forced
        (split_rounds split_at min_split d) events d start with
    | none => .hang
    | some (events, d, start) =>
      if d ≠ 0 then
        .ok (add_event_xml_real events image start (start + d) graphics crops forced)
      else .ok events

/-- Arguments of one call of `write_sup` (declared in `sup.h`, not part of the
sources); the image and palette arguments are left out. -/
structure sup_call where
  num_crop : Int
  crops : crop_t × crop_t
  start : Int
  end_ : Int
  stricter : Int
  forced : Int
deriving DecidableEq

/-- The loop `while (d >= split_at + min_split)` of `write_sup_wrapper`, run for
at most `fuel` rounds; `calls` are the calls of `write_sup` made so far. -/
def write_sup_wrapper_loop (num_crop : Int) (crops : crop_t × crop_t)
    (split_at min_split stricter forced : Int) :
    Nat → List sup_call → Int → Int → Option (List sup_call × Int × Int)
  | 0, calls, d, start =>
    if d ≥ split_at + min_split then none else some (calls, d, start)
  | fuel + 1, calls, d, start =>
    if d ≥ split_at + min_split then
      write_sup_wrapper_loop num_crop crops split_at min_split stricter forced fuel
        (calls ++ [⟨num_crop, crops, start, start + split_at, stricter, forced⟩])
        (d - split_at) (start + split_at)
    else some (calls, d, start)

/-- The function `write_sup_wrapper`: the calls of `write_sup` made so far,
extended by the calls it makes, or `hang` when its loop does not end. -/
def write_sup_wrapper (calls : List sup_call) (num_crop : Int) (crops : crop_t × crop_t)
    (start end_ split_at min_split stricter forced : Int) : Run (List sup_call) :=
  let d := end_ - start
  if split_at = 0 then
    .ok (calls ++ [⟨num_crop, crops, start, end_, stricter, forced⟩])
  else
    match write_sup_wrapper_loop num_crop crops split_at min_split stricter forced
        (split_rounds split_at min_split d) calls d start with
    | none => .hang
    | some (calls, d, start) =>
      if d ≠ 0 then
        .ok (calls ++ [⟨num_crop, crops, start, start + d, stricter, forced⟩])
      else .ok calls

/-! ## The frame loop of `main` -/

/-- Values of the option variables of `main` once the command line has been
parsed (`t_offset` is the variable `to`, `init_frame` and `count_frames` are
the values of `--seek` and `--count`). -/
structure options_t where
  split_at : Int
  min_split : Int
  t_offset : Int
  fps : Int
  init_frame : Int
  count_frames : Int
  sup_output : Int
  xml_output : Int
  allow_empty : Int
  buffer_opt : Int
  autocrop : Int
  even_y : Int
  ugly : Int
  pal_png : Int
  stricter : Int
  mark_forced : Int
  xo : Int
  yo : Int

/-- Modelled from the spec: the frame source behind `avis_input_t` is an
external collaborator that reports dimensions and yields one RGBA buffer per
frame index; here it is the list of its frames. -/
structure avis_input_t where
  width : Int
  height : Int
  frames : List (List Pixel)

/-- The function `get_frame_total_avis`. -/
def get_frame_total_avis (handle : avis_input_t) : Int :=
  handle.frames.length

/-- The function `read_frame_avis`: the buffer read for frame `i_frame`, or
`none` when the read fails (there is no such frame). -/
def read_frame_avis (handle : avis_input_t) (i_frame : Int) : Option (List Pixel) :=
  if i_frame < 0 then none else handle.frames.get? i_frame.toNat

/-- Modelled from the spec: `pic_t` is declared in `auto_split.h`, which is not
part of the sources; `main` fills its fields `b`, `w`, `h` and `s`. -/
structure pic_t where
  b : List Pixel
  w : Int
  h : Int
  s : Int

/-- The cropping functions `auto_split`, `auto_crop` and `enforce_even_y`
(declared in `auto_split.h`, not part of the sources), as parameters of the
frame loop, and the indeterminate initial value of the local `crops[1]`. -/
structure externals where
  auto_split : pic_t → crop_t × crop_t → Int → Int → Int × (crop_t × crop_t)
  auto_crop : pic_t → crop_t × crop_t → crop_t × crop_t
  enforce_even_y : crop_t × crop_t → Int → crop_t × crop_t
  crops1 : crop_t

/-- The local variables of `main` that live across rounds of the frame loop,
with the outputs produced so far: the event list, the calls of `write_sup`
and the `(file_id, graphic)` pairs passed to `write_png`.  `in_img` is not
part of it, since every round starts by reading a frame into it. -/
structure main_state where
  old_img : List Pixel
  out_buf : List Pixel
  have_line : Int
  must_zero : Int
  start_frame : Int
  end_frame : Int
  first_frame : Int
  num_of_events : Int
  n_crop : Int
  crops : crop_t × crop_t
  events : event_list_t
  sup_calls : List sup_call
  pngs : List (Int × Int)

/-- The locals of `main` when the frame loop is entered: the buffers come
from `calloc`, `crops[0]` is the whole picture. -/
def main_init (ext : externals) (s_info : stream_info_t) : main_state :=
  { old_img := List.replicate s_info.pixels Pixel.zero
    out_buf := List.replicate s_info.pixels Pixel.zero
    have_line := 0
    must_zero := 0
    start_frame := -1
    end_frame := -1
    first_frame := -1
    num_of_events := 0
    n_crop := 1
    crops := (⟨0, 0, s_info.i_width, s_info.i_height⟩, ext.crops1)
    events := []
    sup_calls := []
    pngs := [] }

/-- The two output calls made when a line ends at `end_`:
`if (sup_output) write_sup_wrapper (..., start_frame + to, end_, ...)` and
`if (xml_output) add_event_xml (..., start_frame + to, end_, ...)`. -/
def close_line (o : options_t) (st : main_state) (end_ : Int) : Run main_state :=
  (if o.sup_output ≠ 0 then
      write_sup_wrapper st.sup_calls st.n_crop st.crops (st.start_frame + o.t_offset) end_
        o.split_at o.min_split o.stricter o.mark_forced
    else .ok st.sup_calls).bind fun calls =>
  (if o.xml_output ≠ 0 then
      add_event_xml st.events o.split_at o.min_split (st.start_frame + o.t_offset) end_
        st.n_crop st.crops o.mark_forced
    else .ok st.events).bind fun events =>
  .ok { st with sup_calls := calls, events := events }

/-- The end of a round of the frame loop, from `have_line = 1;` to the swap of
`in_img` and `old_img`: a line starts at frame `i` with image `in_img`. -/
def start_line (o : options_t) (ext : externals) (prims : primitives)
    (s_info : stream_info_t) (st : main_state) (i : Int) (in_img : List Pixel) :
    main_state :=
  let start_frame := i
  let out_buf := prims.swap_rb s_info in_img
  let pic : pic_t := ⟨out_buf, s_info.i_width, s_info.i_height, s_info.i_width⟩
  let nc : Int × (crop_t × crop_t) :=
    if o.buffer_opt ≠ 0 then ext.auto_split pic st.crops o.ugly o.even_y
    else if o.autocrop ≠ 0 then
      (st.n_crop, ext.auto_crop pic (⟨0, 0, pic.w, pic.h⟩, st.crops.2))
    else (st.n_crop, st.crops)
  let n_crop := nc.1
  let crops :=
    if (o.buffer_opt ≠ 0 ∨ o.autocrop ≠ 0) ∧ o.even_y ≠ 0 then ext.enforce_even_y nc.2 n_crop
    else nc.2
  let pngs :=
    if o.xml_output ≠ 0 then
      st.pngs ++ (List.range n_crop.toNat).map fun j => (start_frame, (j : Int))
    else st.pngs
  { st with
    have_line := 1
    must_zero := 0
    start_frame := start_frame
    out_buf := out_buf
    n_crop := n_crop
    crops := crops
    pngs := pngs
    num_of_events := st.num_of_events + 1
    first_frame := if st.first_frame = -1 then i else st.first_frame
    old_img := in_img }

/-- One round of the loop `for (i = init_frame; i < last_frame; i++)` of `main`.
A `continue` is a return of the state for the next round. -/
def frame_step (o : options_t) (ext : externals) (prims : primitives)
    (s_info : stream_info_t) (avis_hnd : avis_input_t) (st : main_state) (i : Int) :
    Run main_state :=
  match read_frame_avis avis_hnd i with
  | none => .exit 1
  | some in_img =>
    -- If we are outside any lines, check for empty frames first
    if st.have_line = 0 ∧ prims.is_empty s_info in_img ≠ 0 then .ok st
    else
      let checked_empty : Int := if st.have_line = 0 then 1 else 0
      -- Check for duplicate, unless first frame
      let cmp : Int × List Pixel :=
        if i ≠ o.init_frame ∧ st.have_line ≠ 0 then
          prims.is_identical s_info in_img st.old_img
        else (0, in_img)
      if cmp.1 ≠ 0 then .ok st
      else
        let in_img := cmp.2
        let must_zero : Int := if ¬ (i ≠ 0 ∧ st.have_line ≠ 0) then 1 else st.must_zero
        -- Not a dup, write end-of-line, if we had a line before
        (if st.have_line ≠ 0 then
            (close_line o st (i + o.t_offset)).bind fun st1 =>
              .ok { st1 with end_frame := i, have_line := 0 }
          else .ok st).bind fun st2 =>
        -- Check for empty frame, if we didn't before
        if checked_empty = 0 ∧ prims.is_empty s_info in_img ≠ 0 then
          .ok { st2 with must_zero := must_zero }
        else
          -- Zero transparent pixels, if needed
          let in_img := if must_zero ≠ 0 then prims.zero_transparent s_info in_img else in_img
          -- Not an empty frame, start line
          .ok (start_line o ext prims s_info st2 i in_img)

/-- The loop `for (i = init_frame; i < last_frame; i++)`, with `k` rounds left
and `i` the current frame index. -/
def process_frames (o : options_t) (ext : externals) (prims : primitives)
    (s_info : stream_info_t) (avis_hnd : avis_input_t) :
    Nat → Int → main_state → Run main_state
  | 0, _, st => .ok st
  | k + 1, i, st =>
    (frame_step o ext prims s_info avis_hnd st i).bind fun st1 =>
      process_frames o ext prims s_info avis_hnd k (i + 1) st1

/-! ## The XML output of `main` -/

/-- One `Graphic` element: its size and position attributes and the two
numbers printed into its text `%08d_%d.png`. -/
structure xml_graphic where
  width : Int
  height : Int
  x : Int
  y : Int
  file_id : Int
  graphic : Int
deriving DecidableEq

/-- One `Event` element. -/
structure xml_event where
  forced : String
  in_tc : String
  out_tc : String
  graphics : List xml_graphic
deriving DecidableEq

/-- The timing attributes of the `Events` header element and the `Event`
elements of a complete XML file. -/
structure xml_doc where
  last_event_out_tc : String
  first_event_in_tc : String
  content_in_tc : String
  content_out_tc : String
  number_of_events : Int
  events : List xml_event
deriving DecidableEq

/-- The body of the `do ... while` loop that writes one `Event` element. -/
def write_xml_event (o : options_t) (frames auto_cut : Int) (event : event_t) :
    Run xml_event :=
  (mk_timecode event.start_frame o.fps).bind fun intc_buf =>
  (mk_timecode event.end_frame o.fps).bind fun outtc_buf =>
  (if auto_cut ≠ 0 ∧ event.end_frame = frames - 1 then
      mk_timecode (event.end_frame + 1) o.fps
    else .ok outtc_buf).bind fun outtc_buf =>
  .ok { forced := if event.forced ≠ 0 then "True" else "False"
        in_tc := intc_buf
        out_tc := outtc_buf
        graphics := (List.range event.graphics.toNat).map fun i =>
          let c := if i = 0 then event.c0 else event.c1
          ⟨c.w, c.h, o.xo + c.x, o.yo + c.y, event.image_number - o.t_offset, i⟩ }

/-- The loop over the event list that writes the `Event` elements. -/
def write_xml_events (o : options_t) (frames auto_cut : Int) :
    event_list_t → Run (List xml_event)
  | [] => .ok []
  | event :: events =>
    (write_xml_event o frames auto_cut event).bind fun e =>
    (write_xml_events o frames auto_cut events).bind fun es =>
    .ok (e :: es)

/-- What `main` has produced when it returns 0 after the frame loop.  `xml` is
the XML file when one has been written. -/
structure main_result where
  events : event_list_t
  sup_calls : List sup_call
  pngs : List (Int × Int)
  num_of_events : Int
  first_frame : Int
  end_frame : Int
  auto_cut : Int
  xml : Option xml_doc

/-- The part `if (xml_output) { ... }` of `main` after the frame loop: the XML
file written, `none` after `No events detected`, or `exit 1` from
`mk_timecode`.  Opening the output file is taken to succeed. -/
def write_xml (o : options_t) (frames auto_cut : Int) (st : main_state) :
    Run (Option xml_doc) :=
  -- Check if we actually have any events
  if st.first_frame = -1 ∧ o.allow_empty = 0 then .ok none
  else
    let first_frame := if st.first_frame = -1 then 0 else st.first_frame
    let end_frame := if st.first_frame = -1 then 0 else st.end_frame
    -- Write XML header
    (mk_timecode (first_frame + o.t_offset) o.fps).bind fun first_in =>
    (mk_timecode (end_frame + o.t_offset + auto_cut) o.fps).bind fun last_out =>
    (mk_timecode 0 o.fps).bind fun content_in =>
    (mk_timecode (frames + o.t_offset) o.fps).bind fun content_out =>
    -- Write XML events
    (write_xml_events o frames auto_cut st.events).bind fun es =>
    .ok (some { last_event_out_tc := last_out
                first_event_in_tc := first_in
                content_in_tc := content_in
                content_out_tc := content_out
                number_of_events := st.num_of_events
                events := es })

/-- The value of `count_frames` after
`if (count_frames + init_frame > frames) count_frames = frames - init_frame;`. -/
def clipped_count_frames (o : options_t) (frames : Int) : Int :=
  if o.count_frames + o.init_frame > frames then frames - o.init_frame else o.count_frames

/-- The block `/* Add last event, if available */` after the frame loop, where
`i` is the value the loop leaves in its counter: the state afterwards and the
value of `auto_cut`. -/
def add_last_event (o : options_t) (i : Int) (st : main_state) : Run (main_state × Int) :=
  if st.have_line ≠ 0 then
    (close_line o st (i - 1 + o.t_offset)).bind fun st1 =>
      .ok ({ st1 with end_frame := i - 1 }, 1)
  else .ok (st, 0)

/-- The function `main` from `/* Get frame number */` up to and including
`/* Add last event, if available */`, for parsed options and an opened frame
source: the locals and the value of `auto_cut` at that point, or `exit 0` at
`No frames found`, or `exit 1` after a failed read. -/
def main_lines (o : options_t) (ext : externals) (prims : primitives)
    (s_info : stream_info_t) (avis_hnd : avis_input_t) : Run (main_state × Int) :=
  let frames := get_frame_total_avis avis_hnd
  let count_frames := clipped_count_frames o frames
  let last_frame := count_frames + o.init_frame
  -- No frames mean nothing to do
  if count_frames < 1 then .exit 0
  else
    -- Process frames
    (process_frames o ext prims s_info avis_hnd (last_frame - o.init_frame).toNat
        o.init_frame (main_init ext s_info)).bind fun st =>
    add_last_event o last_frame st

/-- The function `main` from `/* Get frame number */` to its end: `ok r` when
it gets to the final `return 0` or to the `return 0` of the XML part,
`exit code` when it returns or exits before. -/
def main_frames (o : options_t) (ext : externals) (prims : primitives)
    (s_info : stream_info_t) (avis_hnd : avis_input_t) : Run main_result :=
  (main_lines o ext prims s_info avis_hnd).bind fun sa =>
  let st := sa.1
  let auto_cut := sa.2
  (if o.xml_output ≠ 0 then
      write_xml o (get_frame_total_avis avis_hnd) auto_cut st
    else .ok none).bind fun xml =>
  .ok { events := st.events
        sup_calls := st.sup_calls
        pngs := st.pngs
        num_of_events := st.num_of_events
        first_frame := st.first_frame
        end_frame := st.end_frame
        auto_cut := auto_cut
        xml := xml }

/-! ## Concrete runs -/

/-- The option values of a run with the defaults of `main` (no splitting, no
offset, no seek, `count` 2147483647, palette on) except for `--autocrop 0`,
with timecode base 24 for `--fps 23.976` and both an XML and a SUP output
file.  With these options none of the cropping functions is called. -/
def plain_options : options_t :=
  { split_at := 0, min_split := 3, t_offset := 0, fps := 24, init_frame := 0,
    count_frames := 2147483647, sup_output := 1, xml_output := 1, allow_empty := 0,
    buffer_opt := 0, autocrop := 0, even_y := 0, ugly := 0, pal_png := 1, stricter := 0,
    mark_forced := 0, xo := 0, yo := 0 }

/-- Cropping functions that leave the crops as they are, with `crops[1]`
starting as zero; a stand-in for runs in which they are not called. -/
def idle_externals : externals :=
  { auto_split := fun _ crops _ _ => (1, crops)
    auto_crop := fun _ crops => crops
    enforce_even_y := fun crops _ => crops
    crops1 := ⟨0, 0, 0, 0⟩ }

/-- The stream information of an 8x8 source at 24000/1001 frames per second. -/
def s_info8 : stream_info_t := ⟨8, 8, 1001, 24000⟩

/-- An 8x8 frame given by its first two pixels, the other 62 being zero. -/
def frame8 (p0 p1 : Pixel) : List Pixel :=
  p0 :: p1 :: List.replicate 62 Pixel.zero

/-- The `(start_frame, end_frame)` pairs of an event list. -/
def event_intervals (events : event_list_t) : List (Int × Int) :=
  events.map fun e => (e.start_frame, e.end_frame)

/-- The `(start, end)` pairs of a list of `write_sup` calls. -/
def sup_intervals (calls : List sup_call) : List (Int × Int) :=
  calls.map fun c => (c.start, c.end_)

/-- The `(InTC, OutTC)` pairs of the `Event` elements of the XML file, if one
has been written. -/
def xml_timecodes (xml : Option xml_doc) : Option (List (String × String)) :=
  xml.map fun d => d.events.map fun e => (e.in_tc, e.out_tc)

/-- Sixteen 8x8 frames: frames 0..4 empty, frames 5..14 all equal to the frame
whose pixel 0 is opaque white and whose other pixels are zero, frame 15 empty. -/
def single_event_stream : avis_input_t :=
  ⟨8, 8, List.replicate 5 (frame8 Pixel.zero Pixel.zero) ++
    List.replicate 10 (frame8 ⟨255, 255, 255, 255⟩ Pixel.zero) ++
    [frame8 Pixel.zero Pixel.zero]⟩

/-- Three 8x8 frames: frame 0 has pixel 0 opaque white and pixel 1 opaque
`(9, 9, 9)`, frame 1 differs from it in pixel 0 only, which is zero, and
frame 2 is empty. -/
def one_pixel_change_stream : avis_input_t :=
  ⟨8, 8, [frame8 ⟨255, 255, 255, 255⟩ ⟨9, 9, 9, 255⟩, frame8 Pixel.zero ⟨9, 9, 9, 255⟩,
    frame8 Pixel.zero Pixel.zero]⟩

/-- Three equal 8x8 frames in which every pixel is opaque white. -/
def open_end_stream : avis_input_t :=
  ⟨8, 8, List.replicate 3 (List.replicate 64 ⟨255, 255, 255, 255⟩)⟩

/-- Twenty-four empty 8x8 frames. -/
def empty_stream : avis_input_t :=
  ⟨8, 8, List.replicate 24 (frame8 Pixel.zero Pixel.zero)⟩

/-! ## Notions used to state the properties -/

/-- Two images of the same dimensions that differ only in the RGB bytes of
pixels whose alpha is 0: pixel by pixel the alpha bytes agree, and where the
alpha byte is nonzero the whole pixels agree. -/
def differ_only_under_alpha_zero (A B : List Pixel) : Prop :=
  List.Forall₂ (fun a b => a.b3 = b.b3 ∧ (a.b3 ≠ 0 → a = b)) A B

/-- The `k` full segments of length `split_at` appended by the splitting loop,
the first starting at `start`. -/
def full_segments (image split_at graphics : Int) (crops : crop_t × crop_t) (forced : Int) :
    Nat → Int → List event_t
  | 0, _ => []
  | k + 1, start =>
    { image_number := image, start_frame := start, end_frame := start + split_at,
      graphics := graphics, forced := forced, c0 := crops.1, c1 := crops.2 } ::
      full_segments image split_at graphics crops forced k (start + split_at)

/-- The arguments with which `write_sup` is called for the segment that
`add_event_xml_real` records as `e`. -/
def sup_call_of_event (stricter : Int) (e : event_t) : sup_call :=
  ⟨e.graphics, (e.c0, e.c1), e.start_frame, e.end_frame, stricter, e.forced⟩

/-- The locals of `main` after the frame loop has run over the three frames of
`open_end_stream`: the line opened at frame 0 is still open. -/
def open_end_state : main_state :=
  { old_img := List.replicate 64 ⟨255, 255, 255, 255⟩
    out_buf := List.replicate 64 ⟨255, 255, 255, 255⟩
    have_line := 1
    must_zero := 0
    start_frame := 0
    end_frame := -1
    first_frame := 0
    num_of_events := 1
    n_crop := 1
    crops := (⟨0, 0, 8, 8⟩, ⟨0, 0, 0, 0⟩)
    events := []
    sup_calls := []
    pngs := [(0, 0)] }

/-- The in-place normalisation that the specification asks of
`zero_transparent`: every pixel of alpha 0 among the `i_width * i_height`
pixels becomes four zero bytes.  It follows the specification, not the code. -/
def zero_transparent_spec (s_info : stream_info_t) (img : List Pixel) : List Pixel :=
  (img.take s_info.pixels).map normalize_pixel ++ img.drop s_info.pixels

/-- The scalar primitives with `zero_transparent_c` replaced by the
normalisation of the specification. -/
def spec_primitives : primitives :=
  { scalar_primitives with zero_transparent := zero_transparent_spec }

/-! ## `debug/pgsparse.c`: frame rate ids -/

/-- The struct `fps_id_t`. -/
structure fps_id_t where
  num : Int
  den : Int
  id : Int
deriving DecidableEq

/-- The table `ids` of `get_fps`, with its terminating entry. -/
def get_fps_ids : List fps_id_t :=
  [⟨24000, 1001, 16⟩, ⟨24, 1, 32⟩, ⟨25, 1, 48⟩, ⟨30000, 1001, 64⟩, ⟨50, 1, 96⟩,
   ⟨60000, 1001, 112⟩, ⟨0, 0, 0⟩]

/-- The loop `while (ids[i].id)` of `get_fps` over the entries from `ids[i]`
on: the return value and the contents of `*fps_num` and `*fps_den`
afterwards.  Running off the table reads as the terminating entry. -/
def get_fps_loop (id fps_num fps_den : Int) : List fps_id_t → Int × Int × Int
  | [] => (0, fps_num, fps_den)
  | e :: ids =>
    if e.id ≠ 0 then
      if e.id = id then (1, e.num, e.den)
      else get_fps_loop id fps_num fps_den ids
    else (0, fps_num, fps_den)

/-- The function `get_fps (id, fps_num, fps_den)`: the return value and the
contents of `*fps_num` and `*fps_den` afterwards, given their contents
before. -/
def get_fps (id fps_num fps_den : Int) : Int × Int × Int :=
  get_fps_loop id fps_num fps_den get_fps_ids

/-! ## Notions used to state the timecode properties -/

/-- The two decimal digits of a value from 0 to 99, tens first. -/
def two_digits (n : Int) : List Char :=
  [Nat.digitChar (n.toNat / 10), Nat.digitChar (n.toNat % 10)]

/-- The test of the pattern `^[0-9]{2}:[0-9]{2}:[0-9]{2}:[0-9]{2}$` on a
string. -/
def timecode_pattern (s : String) : Bool :=
  match s.data with
  | [a, b, c1, c, d, c2, e, f, c3, g, h] =>
    a.isDigit && b.isDigit && c1 == ':' && c.isDigit && d.isDigit && c2 == ':' &&
      e.isDigit && f.isDigit && c3 == ':' && g.isDigit && h.isDigit
  | _ => false

/-! ## The frame range of `main` with 32-bit `int` arithmetic -/

/-- The value of an `int` computation whose mathematical result is `x`, with
`int` arithmetic taken modulo `2^32`. -/
def wrap_int32 (x : Int) : Int :=
  (x + 2147483648) % 4294967296 - 2147483648

/-- The value of `count_frames` after
`if (count_frames + init_frame > frames) count_frames = frames - init_frame;`
with `int` arithmetic modulo `2^32`. -/
def clipped_count_frames32 (init_frame count_frames frames : Int) : Int :=
  if wrap_int32 (count_frames + init_frame) > frames then wrap_int32 (frames - init_frame)
  else count_frames

/-- The values that `i` takes in the body of
`for (i = init_frame; i < last_frame; i++)`, with `k` rounds left and `i` the
current value. -/
def frame_loop_indices : Nat → Int → List Int
  | 0, _ => []
  | k + 1, i => i :: frame_loop_indices k (wrap_int32 (i + 1))

/-- The frame indices that the frame loop of `main` visits, in the order of
the visits, for `--seek init_frame`, `--count count_frames` and a source of
`frames` frames, with `int` arithmetic modulo `2^32`: the clip of
`count_frames`, `last_frame = count_frames + init_frame`, the return at
`No frames found`, and the loop. -/
def visited_frames32 (init_frame count_frames frames : Int) : List Int :=
  let count_frames := clipped_count_frames32 init_frame count_frames frames
  let last_frame := wrap_int32 (count_frames + init_frame)
  if count_frames < 1 then []
  else frame_loop_indices (last_frame - init_frame).toNat init_frame

/-- The frame indices `f` with `seek ≤ f < min (seek + count) N`, in
increasing order. -/
def frames_from_seek (seek count N : Int) : List Int :=
  (List.range (min (seek + count) N - seek).toNat).map (fun (k : Nat) => seek + (k : Int))

/-! ## Parsing of integers and timecodes -/

/-- The C library predicate `isspace` in the C locale. -/
def c_isspace (c : Char) : Bool :=
  c.toNat = 32 || (9 ≤ c.toNat && c.toNat ≤ 13)

/-- The C library predicate `isdigit`. -/
def c_isdigit (c : Char) : Bool :=
  48 ≤ c.toNat && c.toNat ≤ 57

/-- The number written by a sequence of decimal digits. -/
def digits_value (ds : List Char) : Int :=
  ds.foldl (fun acc c => acc * 10 + ((c.toNat : Int) - 48)) 0

/-- The subject sequence that `strtol (s, &end, 10)` finds in `s`: white space
is skipped, then comes an optional sign, then the longest run of decimal
digits.  The result is the number written and the offset of `end`; without
any digit no conversion is done and `end` is `s` itself. -/
def scan_integer (s : List Char) : Int × Nat :=
  let s1 := s.dropWhile c_isspace
  let s2 := if s1.head? = some '-' ∨ s1.head? = some '+' then s1.tail else s1
  let ds := s2.takeWhile c_isdigit
  if ds = [] then (0, 0)
  else (if s1.head? = some '-' then - digits_value ds else digits_value ds,
        s.length - (s2.length - ds.length))

/-- The C library function `strtol (s, &end, 10)` for a `long` of `long_bits`
bits: the value returned, the offset of `end`, and whether `errno` is set (to
`ERANGE`, when the number is outside the range of `long`). -/
def strtol10 (long_bits : Nat) (s : List Char) : Int × Nat × Bool :=
  let r := scan_integer s
  if r.1 > 2 ^ (long_bits - 1) - 1 then (2 ^ (long_bits - 1) - 1, r.2, true)
  else if r.1 < - 2 ^ (long_bits - 1) then (- 2 ^ (long_bits - 1), r.2, true)
  else (r.1, r.2, false)

/-- The function `parse_int (in, name, error)` for a `long` of `long_bits`
bits: the value returned and the value stored in `*error`, or `exit (1)`.
`name` is `none` for a `NULL` name.  The assignment `r = strtol (...)` keeps
the low 32 bits. -/
def parse_int (long_bits : Nat) (in_ : List Char) (name : Option String) :
    Run (Int × Int) :=
  let res := strtol10 long_bits in_
  let r := wrap_int32 res.1
  if res.2.2 = true ∨ res.2.1 = 0 ∨ res.2.1 ≠ in_.length then
    match name with
    | some _ => .exit 1
    | none => .ok (r, 1)
  else .ok (r, 0)

/-- The function `parse_tc (in, fps)` for a `long` of `long_bits` bits: the
value returned, or `exit (1)`. -/
def parse_tc (long_bits : Nat) (in_ : List Char) (fps : Int) : Run Int :=
  -- Test for raw frame number.
  (parse_int long_bits in_ none).bind fun re =>
  if re.2 = 0 then .ok re.1
  else if in_.length ≠ 2 * 4 + 3 ∨ in_.get? 2 ≠ some ':' ∨ in_.get? 5 ≠ some ':' ∨
      in_.get? 8 ≠ some ':' then .exit 1
  else
    -- in[2] = 0; in[5] = 0; in[8] = 0;
    (parse_int long_bits (in_.take 2) (some "t-offset hours")).bind fun h =>
    (parse_int long_bits ((in_.drop 3).take 2) (some "t-offset minutes")).bind fun m =>
    (parse_int long_bits ((in_.drop 6).take 2) (some "t-offset seconds")).bind fun s =>
    (parse_int long_bits (in_.drop 9) (some "t-offset frames")).bind fun f =>
    let r := f.1
    let r := r + s.1 * fps
    let fps := fps * 60
    let r := r + m.1 * fps
    let fps := fps * 60
    let r := r + h.1 * fps
    .ok r

/-- The number that the whole string `s` writes in base 10 when all of it is
the subject sequence of `strtol` (optional white space, optional sign, one or
more digits, nothing after) and the number is in the range of a `long` of
`long_bits` bits; `none` otherwise. -/
def whole_integer (long_bits : Nat) (s : List Char) : Option Int :=
  if (scan_integer s).2 ≠ 0 ∧ (scan_integer s).2 = s.length ∧
      - 2 ^ (long_bits - 1) ≤ (scan_integer s).1 ∧ (scan_integer s).1 ≤ 2 ^ (long_bits - 1) - 1
  then some (scan_integer s).1 else none

/-! ## `debug/pgsparse.c`: reading packets

The file `ps->fh` is the list of its bytes with a position.  `die` is `exit 1`
and `abort ()` is `exit 134`.  What the parser prints and its statistics are
left out.  Multi-byte fields are taken after the `conv_...` functions, that is,
as the big-endian numbers of the file. -/

/-- The open file `ps->fh`: its bytes and the file position. -/
structure sup_file where
  data : List Byte
  pos : Nat
deriving DecidableEq

/-- The number in byte `i` of a block that has been read. -/
def byte_at (bytes : List Byte) (i : Nat) : Nat :=
  (bytes.getD i 0).val

/-- The big-endian 16-bit number in the bytes `i` and `i + 1`. -/
def be16_at (bytes : List Byte) (i : Nat) : Nat :=
  byte_at bytes i * 256 + byte_at bytes (i + 1)

/-- The big-endian 32-bit number in the bytes `i` to `i + 3`. -/
def be32_at (bytes : List Byte) (i : Nat) : Nat :=
  ((byte_at bytes i * 256 + byte_at bytes (i + 1)) * 256 + byte_at bytes (i + 2)) * 256 +
    byte_at bytes (i + 3)

/-- The C library call `fread (p, 1, size, fh)`: the bytes read and the file
afterwards. -/
def sup_fread (size : Nat) (fh : sup_file) : List Byte × sup_file :=
  let bytes := (fh.data.drop fh.pos).take size
  (bytes, { fh with pos := fh.pos + bytes.length })

/-- The function `safe_read (p, size, fh, desc)`: the bytes read and the file
afterwards, or `die` on a short read. -/
def safe_read (size : Nat) (fh : sup_file) : Run (List Byte × sup_file) :=
  let r := sup_fread size fh
  if r.1.length ≠ size then .exit 1 else .ok r

/-- The function `safe_seek (fh, pos, desc)`: `fseek (fh, pos, SEEK_CUR)`, which
fails, and then aborts, when the new position would be negative. -/
def safe_seek (fh : sup_file) (pos : Int) : Run sup_file :=
  if (fh.pos : Int) + pos < 0 then .exit 134
  else .ok { fh with pos := ((fh.pos : Int) + pos).toNat }

/-- The struct `sup_header_t`. -/
structure sup_header_t where
  m1 : Nat
  m2 : Nat
  start_time : Nat
  dts : Nat
  packet_type : Nat
  packet_len : Nat
deriving DecidableEq

/-- The header held by the 13 bytes read into the packed struct
`sup_header_t`, after `conv_sup_header`. -/
def conv_sup_header (bytes : List Byte) : sup_header_t :=
  { m1 := byte_at bytes 0
    m2 := byte_at bytes 1
    start_time := be32_at bytes 2
    dts := be32_at bytes 6
    packet_type := byte_at bytes 10
    packet_len := be16_at bytes 11 }

/-- The function `read_palette`: the file afterwards. -/
def read_palette (fh : sup_file) (h : sup_header_t) : Run sup_file :=
  if h.packet_len < 2 + 5 then .exit 1
  else if h.packet_len > 2 + 5 * 256 then .exit 1
  else
    (safe_read 2 fh).bind fun p =>
    let p_size := h.packet_len - 2
    (safe_read p_size p.2).bind fun palette =>
    .ok palette.2

/-- The function `read_odsn`: the file afterwards. -/
def read_odsn (fh : sup_file) (h : sup_header_t) : Run sup_file :=
  if h.packet_len < 4 then .exit 1
  else
    (safe_read 4 fh).bind fun odsn =>
    let m := byte_at odsn.1 2
    let last := byte_at odsn.1 3
    if m ≠ 0 ∨ (last ≠ 0 ∧ last ≠ 64) then .exit 1
    else safe_seek odsn.2 ((h.packet_len : Int) - 4)

/-- The function `read_odsf`: the file afterwards. -/
def read_odsf (fh : sup_file) (h : sup_header_t) : Run sup_file :=
  if h.packet_len < 11 then .exit 1
  else
    (safe_read 11 fh).bind fun odsf =>
    let magic_len := be32_at odsf.1 3
    if magic_len &&& 0x80000000 ≠ 0 ∧ magic_len &&& 0x40000000 ≠ 0 then
      safe_seek odsf.2 ((h.packet_len : Int) - 11)
    else if magic_len &&& 0x80000000 ≠ 0 then
      safe_seek odsf.2 ((h.packet_len : Int) - 11)
    else
      -- fseek (ps->fh, -sizeof (odsf), SEEK_CUR); read_odsn (ps, h); return;
      read_odsn { odsf.2 with pos := odsf.2.pos - 11 } h

/-- The loop `for (i = 0; i < wds.objects; i++)` of `read_wds`, with `n` rounds
left. -/
def read_wds_objects : Nat → sup_file → Run sup_file
  | 0, fh => .ok fh
  | n + 1, fh =>
    (safe_read 9 fh).bind fun wdso =>
    let object := byte_at wdso.1 0
    if object ≠ 0 ∧ object ≠ 1 then .exit 1
    else read_wds_objects n wdso.2

/-- The function `read_wds`: the file afterwards. -/
def read_wds (fh : sup_file) (h : sup_header_t) : Run sup_file :=
  if h.packet_len ≠ 1 + 9 ∧ h.packet_len ≠ 1 + 2 * 9 then .exit 1
  else
    (safe_read 1 fh).bind fun wds =>
    let objects := byte_at wds.1 0
    if objects ≠ 1 ∧ objects ≠ 2 then .exit 1
    else read_wds_objects objects wds.2

/-- The loop `for (i = 0; i < pcss.objects; i++)` of `read_pcs_start`, with `n`
rounds left. -/
def read_pcs_start_objects : Nat → sup_file → Run sup_file
  | 0, fh => .ok fh
  | n + 1, fh =>
    (safe_read 8 fh).bind fun pcsso =>
    let window := byte_at pcsso.1 2
    let forced := byte_at pcsso.1 3
    if window ≠ 0 ∧ window ≠ 1 then .exit 1
    else if forced ≠ 0 ∧ forced ≠ 64 then .exit 1
    else read_pcs_start_objects n pcsso.2

/-- The function `read_pcs_start`: the file afterwards.  `fps_num` and
`fps_den` are not initialised before `get_fps`, of which only the return value
is used. -/
def read_pcs_start (fh : sup_file) (_h : sup_header_t) : Run sup_file :=
  (safe_read 11 fh).bind fun pcss =>
  let fps_id := byte_at pcss.1 4
  let m := be16_at pcss.1 8
  let objects := byte_at pcss.1 10
  if m ≠ 0 then .exit 1
  else if (get_fps fps_id 0 0).1 = 0 then .exit 1
  else if objects > 2 then .exit 1
  else read_pcs_start_objects objects pcss.2

/-- The function `read_pcs_end`: the file afterwards. -/
def read_pcs_end (fh : sup_file) (_h : sup_header_t) : Run sup_file :=
  (safe_read 11 fh).bind fun pcse =>
  let fps_id := byte_at pcse.1 4
  let m := be32_at pcse.1 7
  if m ≠ 0 then .exit 1
  else if (get_fps fps_id 0 0).1 = 0 then .exit 1
  else .ok pcse.2

/-- The function `read_sup`: the file afterwards. -/
def read_sup (fh : sup_file) : Run sup_file :=
  (safe_read 13 fh).bind fun hb =>
  let h := conv_sup_header hb.1
  let fh := hb.2
  if h.m1 ≠ 80 ∨ h.m2 ≠ 71 then .exit 1
  else if h.packet_type = 0x14 then read_palette fh h
  else if h.packet_type = 0x15 then read_odsf fh h
  else if h.packet_type = 0x16 then
    if h.packet_len = 11 then read_pcs_end fh h
    else if h.packet_len = 19 ∨ h.packet_len = 27 then read_pcs_start fh h
    else .exit 1
  else if h.packet_type = 0x17 then read_wds fh h
  else if h.packet_type = 0x80 then
    if h.packet_len = 0 then .ok fh else .exit 1
  else .exit 1

/-- The header checks named for `read_sup`: magic `PG`, a known packet type,
no payload in an END packet, and a PCS length of 11, 19 or 27. -/
def header_checks (h : sup_header_t) : Prop :=
  h.m1 = 80 ∧ h.m2 = 71 ∧
  (h.packet_type = 0x14 ∨ h.packet_type = 0x15 ∨ h.packet_type = 0x16 ∨
    h.packet_type = 0x17 ∨ h.packet_type = 0x80) ∧
  (h.packet_type = 0x80 → h.packet_len = 0) ∧
  (h.packet_type = 0x16 → h.packet_len = 11 ∨ h.packet_len = 19 ∨ h.packet_len = 27)

instance (h : sup_header_t) : Decidable (header_checks h) := by
  unfold header_checks
  infer_instance

/-- The bytes of the file from its position on. -/
def sup_file.rest (fh : sup_file) : List Byte :=
  fh.data.drop fh.pos

/-- An END packet: `PG`, zero PTS and DTS, type `0x80`, length 0. -/
def end_packet : List Byte :=
  [80, 71, 0, 0, 0, 0, 0, 0, 0, 0, 0x80, 0, 0]

/-- An END packet whose length field says 1, with one byte of payload. -/
def end_packet_with_payload : List Byte :=
  [80, 71, 0, 0, 0, 0, 0, 0, 0, 0, 0x80, 0, 1, 0]

/-- The property about `write_png` that the frame loop keeps: every graphic of
every event in the list has been passed to `write_png` with the event's
`image_number - t_offset` as `file_id`, and so have the graphics of the open
line, with its `start_frame`, when there is XML output. -/
def pngs_written (o : options_t) (st : main_state) : Prop :=
  (∀ e ∈ st.events, ∀ j : Nat, j < e.graphics.toNat →
    (e.image_number - o.t_offset, (j : Int)) ∈ st.pngs) ∧
  (st.have_line ≠ 0 → o.xml_output ≠ 0 → ∀ j : Nat, j < st.n_crop.toNat →
    (st.start_frame, (j : Int)) ∈ st.pngs)

/-- The conversion `%d` of `printf`. -/
def fmt_d (n : Int) : List Char :=
  if n < 0 then '-' :: Nat.toDigits 10 n.natAbs else Nat.toDigits 10 n.toNat

/-- The conversion `%08d` of `printf`: the sign, if any, then zeros up to a
width of 8, then the digits. -/
def fmt_08d (n : Int) : List Char :=
  if n < 0 then
    '-' :: (List.replicate (7 - (Nat.toDigits 10 n.natAbs).length) '0' ++
      Nat.toDigits 10 n.natAbs)
  else List.replicate (8 - (Nat.toDigits 10 n.toNat).length) '0' ++ Nat.toDigits 10 n.toNat

/-- The output of the format `"%08d_%d.png"`. -/
def png_name_format (file_id graphic : Int) : List Char :=
  fmt_08d file_id ++ '_' :: fmt_d graphic ++ ['.', 'p', 'n', 'g']

/-- The name, within `dir`, of the file that `write_png` opens:
`snprintf (tmp, 15, "%08d_%d.png", file_id, graphic)` stores at most 14
characters of the output, and `strncat (filename, tmp, 15)` appends them to the
directory. -/
def write_png_name (file_id graphic : Int) : String :=
  String.mk ((png_name_format file_id graphic).take 14)

/-- The text of a `Graphic` element, printed by `fprintf` with `%08d_%d.png`. -/
def graphic_text (g : xml_graphic) : String :=
  String.mk (png_name_format g.file_id g.graphic)

/-- The texts of the `Graphic` elements of the XML file, event by event, if a
file has been written. -/
def xml_graphic_texts (xml : Option xml_doc) : Option (List (List String)) :=
  xml.map fun d => d.events.map fun e => e.graphics.map graphic_text

/-- A source of 100000001 equal 8x8 frames in which every pixel is opaque
white. -/
def long_stream : avis_input_t :=
  ⟨8, 8, List.replicate 100000001 (List.replicate 64 ⟨255, 255, 255, 255⟩)⟩

/-- The options of `--seek 100000000 --count 1 --t-offset -100000000`, the
others as in `plain_options`. -/
def long_seek_options : options_t :=
  { plain_options with init_frame := 100000000, count_frames := 1, t_offset := -100000000 }

/-- The attribute `LastEventOutTC` of the header of the XML file, if a file has
been written. -/
def xml_last_event_out_tc (xml : Option xml_doc) : Option String :=
  xml.map fun d => d.last_event_out_tc

/-- The options of `--t-offset 1`, the others as in `plain_options`. -/
def offset_one_options : options_t :=
  { plain_options with t_offset := 1 }

/-! ## The progress indicator of `main` -/

/-- The value of `progress_step` when the frame loop is entered: the
initialiser `1000`, replaced by the block `/* Set progress step */` when
`count_frames < 1000`. -/
def progress_step (count_frames : Int) : Int :=
  if count_frames < 1000 then
    if count_frames > 200 then 50
    else if count_frames > 50 then 10
    else 1
  else 1000

/-- The divisor `count_frames / progress_step` of the progress test
`i % (count_frames / progress_step) == 0`, with the truncating division of C. -/
def progress_divisor (count_frames : Int) : Int :=
  Int.tdiv count_frames (progress_step count_frames)

/-- One 8x8 frame whose pixel 0 is opaque `(1, 2, 3)`, whose pixel 1 is
`(9, 9, 9, 0)`, a colour under alpha 0, and whose other pixels are zero. -/
def stale_first_stream : avis_input_t :=
  ⟨8, 8, [frame8 ⟨1, 2, 3, 255⟩ ⟨9, 9, 9, 0⟩]⟩

/-- Two 8x8 frames: frame 0 is opaque white everywhere; frame 1 has pixel 0
opaque `(1, 1, 1)`, pixel 1 `(9, 9, 9, 0)`, a colour under alpha 0, and the
other pixels opaque white. -/
def stale_second_stream : avis_input_t :=
  ⟨8, 8, [List.replicate 64 ⟨255, 255, 255, 255⟩,
    ⟨1, 1, 1, 255⟩ :: ⟨9, 9, 9, 0⟩ :: List.replicate 62 ⟨255, 255, 255, 255⟩]⟩

/-- The frame at which the last line was opened, and the first two pixels of
the reference image `old_img` kept for it, after `main_lines`. -/
def last_reference (r : Run (main_state × Int)) : Run (Int × List Pixel) :=
  r.bind fun sa => .ok (sa.1.start_frame, sa.1.old_img.take 2)

/-- The attribute `NumberofEvents` of the header of the XML file and the
number of `Event` elements in it, if a file has been written. -/
def xml_event_counts (xml : Option xml_doc) : Option (Int × Nat) :=
  xml.map fun d => (d.number_of_events, d.events.length)

/-- The options of `--split-at 1 --min-split 1`, the others as in
`plain_options`. -/
def split_one_options : options_t :=
  { plain_options with split_at := 1, min_split := 1 }

/-- The property of the event counter that the frame loop keeps when events
are not split: `num_of_events` counts the events in the list and the open
line. -/
def events_counted (st : main_state) : Prop :=
  st.num_of_events = st.events.length + (if st.have_line ≠ 0 then 1 else 0)

/-- A WDS packet whose header says 19 bytes of payload and whose first payload
byte says one window: `PG`, zero PTS and DTS, type `0x17`, length 19, then the
count 1, a window of 9 bytes, and 9 more bytes. -/
def wds_packet_one_window : List Byte :=
  [80, 71, 0, 0, 0, 0, 0, 0, 0, 0, 0x17, 0, 19,
   1, 0, 0, 0, 0, 0, 0, 8, 0, 8,
   0, 0, 0, 0, 0, 0, 0, 0, 0]

/-- A PCS packet whose header says 19 bytes of payload and whose object count
is 0: `PG`, zero PTS and DTS, type `0x16`, length 19, then width 1920, height
1080, frame rate id 16, composition 0, follower `0x80`, zero, the count 0, and
8 more bytes. -/
def pcs_packet_no_object : List Byte :=
  [80, 71, 0, 0, 0, 0, 0, 0, 0, 0, 0x16, 0, 19,
   7, 128, 4, 56, 16, 0, 0, 0x80, 0, 0, 0,
   0, 0, 0, 0, 0, 0, 0, 0]

/-- A WDS packet whose header says 10 bytes of payload, with one window. -/
def wds_packet : List Byte :=
  [80, 71, 0, 0, 0, 0, 0, 0, 0, 0, 0x17, 0, 10,
   1, 0, 0, 0, 0, 0, 0, 8, 0, 8]

/-! ## Lemmas on the image primitives -/

theorem is_empty_loop_eq_one (im : List Pixel) :
    is_empty_loop im = 1 ↔ ∀ p ∈ im, p.b3 = 0 := by
  induction im with
  | nil => simp [is_empty_loop]
  | cons p im ih =>
    by_cases h : p.b3 = 0
    · simp [is_empty_loop, h, ih]
    · simp [is_empty_loop, h]

theorem is_empty_loop_zero_or_one (im : List Pixel) :
    is_empty_loop im = 0 ∨ is_empty_loop im = 1 := by
  induction im with
  | nil => simp [is_empty_loop]
  | cons p im ih =>
    by_cases h : p.b3 = 0
    · simpa [is_empty_loop, h] using ih
    · simp [is_empty_loop, h]

theorem take_pixels_of_length (s_info : stream_info_t) (img : List Pixel)
    (hlen : (img.length : Int) = s_info.i_width * s_info.i_height) :
    img.take s_info.pixels = img := by
  apply List.take_of_length_le
  unfold stream_info_t.pixels
  omega

/-! ## Claims -/

/-- C2: for a buffer of `i_width * i_height` pixels, `is_empty_c` returns 1
exactly when the alpha byte of every pixel is 0 (and 0 otherwise); overwriting
the alpha byte of any one pixel of an all-transparent image with a nonzero
value makes it return 0. -/
theorem is_empty_c_iff_all_alpha_zero (s_info : stream_info_t) (img : List Pixel)
    (hlen : (img.length : Int) = s_info.i_width * s_info.i_height) :
    (is_empty_c s_info img = 1 ↔ ∀ p ∈ img, p.b3 = 0) ∧
    (is_empty_c s_info img = 0 ↔ ∃ p ∈ img, p.b3 ≠ 0) ∧
    (∀ (k : Nat) (v : Byte), k < img.length → v ≠ 0 → (∀ p ∈ img, p.b3 = 0) →
      is_empty_c s_info (img.set k { img.getD k Pixel.zero with b3 := v }) = 0) := by
  have h1 : ∀ im : List Pixel, (im.length : Int) = s_info.i_width * s_info.i_height →
      (is_empty_c s_info im = 1 ↔ ∀ p ∈ im, p.b3 = 0) := by
    intro im him
    unfold is_empty_c
    rw [take_pixels_of_length s_info im him]
    exact is_empty_loop_eq_one im
  have h0 : ∀ im : List Pixel, (im.length : Int) = s_info.i_width * s_info.i_height →
      (is_empty_c s_info im = 0 ↔ ∃ p ∈ im, p.b3 ≠ 0) := by
    intro im him
    have hone := h1 im him
    have hor : is_empty_c s_info im = 0 ∨ is_empty_c s_info im = 1 :=
      is_empty_loop_zero_or_one _
    constructor
    · intro hz
      by_contra hne
      push_neg at hne
      have := hone.mpr hne
      omega
    · rintro ⟨p, hp, hpne⟩
      rcases hor with hz | ho
      · exact hz
      · exact absurd (hone.mp ho p hp) hpne
  refine ⟨h1 img hlen, h0 img hlen, ?_⟩
  intro k v hk hv _
  rw [h0 _ (by simpa using hlen)]
  refine ⟨{ img.getD k Pixel.zero with b3 := v }, ?_, hv⟩
  exact List.mem_iff_getElem.mpr ⟨k, by simpa using hk, by simp⟩

/-- C2, at a 2x1 all-transparent buffer. -/
theorem is_empty_c_iff_all_alpha_zero_witness :
    (is_empty_c ⟨2, 1, 1, 25⟩ [⟨7, 7, 7, 0⟩, Pixel.zero] = 1 ↔
      ∀ p ∈ [(⟨7, 7, 7, 0⟩ : Pixel), Pixel.zero], p.b3 = 0) ∧
    is_empty_c ⟨2, 1, 1, 25⟩ [⟨7, 7, 7, 0⟩, Pixel.zero] = 1 ∧
    is_empty_c ⟨2, 1, 1, 25⟩ [⟨7, 7, 7, 0⟩, ⟨0, 0, 0, 9⟩] = 0 :=
  ⟨(is_empty_c_iff_all_alpha_zero ⟨2, 1, 1, 25⟩ [⟨7, 7, 7, 0⟩, Pixel.zero]
      (by decide)).1, by decide, by decide⟩

/-! ### `is_identical_c` -/

theorem is_identical_loop_fst (im im_old : List Pixel) (hlen : im_old.length = im.length) :
    ((is_identical_loop im im_old).1 = 1 ↔ im_old = im.map normalize_pixel) ∧
    ((is_identical_loop im im_old).1 = 0 ∨ (is_identical_loop im im_old).1 = 1) := by
  induction im generalizing im_old with
  | nil =>
    have : im_old = [] := List.length_eq_zero.mp (by simpa using hlen)
    simp [is_identical_loop, this]
  | cons p im ih =>
    cases im_old with
    | nil => simp at hlen
    | cons q old =>
      have hl : old.length = im.length := by simpa using hlen
      have hih := ih old hl
      by_cases hpq : normalize_pixel p = q
      · have hpq1 : (if p.b3 = 0 then Pixel.zero else p) = q := hpq
        have hfst : (is_identical_loop (p :: im) (q :: old)).1 =
            (is_identical_loop im old).1 := by
          simp [is_identical_loop, hpq1]
        rw [hfst]
        refine ⟨?_, hih.2⟩
        rw [hih.1]
        simp [hpq]
      · have hpq1 : ¬ (if p.b3 = 0 then Pixel.zero else p) = q := hpq
        have hqp : ¬ q = normalize_pixel p := fun h => hpq h.symm
        simp [is_identical_loop, hpq1, hqp]

theorem is_identical_c_fst (s_info : stream_info_t) (img prev : List Pixel)
    (hlen : (img.length : Int) = s_info.i_width * s_info.i_height)
    (hprev : prev.length = img.length) :
    ((is_identical_c s_info img prev).1 = 1 ↔ prev = img.map normalize_pixel) ∧
    ((is_identical_c s_info img prev).1 = 0 ∨ (is_identical_c s_info img prev).1 = 1) := by
  have htake := take_pixels_of_length s_info img hlen
  have hfst : (is_identical_c s_info img prev).1 = (is_identical_loop img prev).1 := by
    simp [is_identical_c, htake]
  rw [hfst]
  exact is_identical_loop_fst img prev hprev

/-- C3: for buffers `img` and `prev` of `i_width * i_height` pixels,
`is_identical_c (img, prev)` returns 1 exactly when `prev` is equal to `img`
with every pixel of alpha 0 rewritten to four zero bytes (`prev` is compared as
it is), and it returns 0 otherwise. -/
theorem is_identical_c_iff_prev_eq_normalized (s_info : stream_info_t)
    (img prev : List Pixel)
    (hlen : (img.length : Int) = s_info.i_width * s_info.i_height)
    (hprev : prev.length = img.length) :
    ((is_identical_c s_info img prev).1 = 1 ↔ prev = img.map normalize_pixel) ∧
    ((is_identical_c s_info img prev).1 = 0 ↔ prev ≠ img.map normalize_pixel) := by
  have h := is_identical_c_fst s_info img prev hlen hprev
  refine ⟨h.1, ?_⟩
  constructor
  · intro h0 heq
    have := h.1.mpr heq
    omega
  · intro hne
    rcases h.2 with h0 | h1
    · exact h0
    · exact absurd (h.1.mp h1) hne

/-- C3, at two 2x1 buffers: the stale colour under alpha 0 in `img` is
ignored, the one in `prev` is not. -/
theorem is_identical_c_iff_prev_eq_normalized_witness :
    (is_identical_c ⟨2, 1, 1, 25⟩ [⟨1, 2, 3, 0⟩, ⟨4, 5, 6, 7⟩]
        [Pixel.zero, ⟨4, 5, 6, 7⟩]).1 = 1 ∧
    (is_identical_c ⟨2, 1, 1, 25⟩ [Pixel.zero, ⟨4, 5, 6, 7⟩]
        [⟨1, 2, 3, 0⟩, ⟨4, 5, 6, 7⟩]).1 = 0 :=
  ⟨(is_identical_c_iff_prev_eq_normalized ⟨2, 1, 1, 25⟩ [⟨1, 2, 3, 0⟩, ⟨4, 5, 6, 7⟩]
      [Pixel.zero, ⟨4, 5, 6, 7⟩] (by decide) (by decide)).1.mpr (by decide),
   (is_identical_c_iff_prev_eq_normalized ⟨2, 1, 1, 25⟩ [Pixel.zero, ⟨4, 5, 6, 7⟩]
      [⟨1, 2, 3, 0⟩, ⟨4, 5, 6, 7⟩] (by decide) (by decide)).2.mpr (by decide)⟩

theorem map_normalize_of_differ (A B : List Pixel)
    (hdiff : differ_only_under_alpha_zero A B)
    (hB : ∀ q ∈ B, q.b3 = 0 → q = Pixel.zero) :
    B = A.map normalize_pixel := by
  unfold differ_only_under_alpha_zero at hdiff
  induction hdiff with
  | nil => rfl
  | @cons a b A1 B1 hab _ ih =>
    have htail := ih (fun q hq => hB q (List.mem_cons_of_mem _ hq))
    have hhead : b = normalize_pixel a := by
      by_cases ha : a.b3 = 0
      · have hb : b.b3 = 0 := by rw [← hab.1]; exact ha
        rw [hB b (List.mem_cons_self _ _) hb]
        simp [normalize_pixel, ha]
      · rw [← hab.2 ha]
        simp [normalize_pixel, ha]
    simp [List.map_cons, ← hhead, ← htail]

/-- C4, as stated, fails: two 2x1 images that differ only in the RGB bytes of
a pixel of alpha 0, for which `is_identical_c` returns 0. -/
theorem is_identical_c_stale_reference_counterexample :
    differ_only_under_alpha_zero
      [⟨255, 255, 255, 255⟩, ⟨1, 2, 3, 0⟩] [⟨255, 255, 255, 255⟩, ⟨4, 5, 6, 0⟩] ∧
    (is_identical_c ⟨2, 1, 1, 25⟩
      [⟨255, 255, 255, 255⟩, ⟨1, 2, 3, 0⟩] [⟨255, 255, 255, 255⟩, ⟨4, 5, 6, 0⟩]).1 = 0 := by
  refine ⟨?_, by decide⟩
  unfold differ_only_under_alpha_zero
  exact List.Forall₂.cons (by decide) (List.Forall₂.cons (by decide) List.Forall₂.nil)

/-- C4, amended: for images `A` and `B` of `i_width * i_height` pixels that
differ only in the RGB bytes of pixels whose alpha is 0, where moreover every
pixel of `B` of alpha 0 is all zero, `is_identical_c (A, B)` returns 1. -/
theorem is_identical_c_of_differ_only_under_alpha_zero (s_info : stream_info_t)
    (A B : List Pixel)
    (hlen : (A.length : Int) = s_info.i_width * s_info.i_height)
    (hdiff : differ_only_under_alpha_zero A B)
    (hB : ∀ q ∈ B, q.b3 = 0 → q = Pixel.zero) :
    (is_identical_c s_info A B).1 = 1 := by
  have hl : B.length = A.length := (List.Forall₂.length_eq hdiff).symm
  exact (is_identical_c_fst s_info A B hlen hl).1.mpr
    (map_normalize_of_differ A B hdiff hB)

/-- C4 amended, at two 2x1 images. -/
theorem is_identical_c_of_differ_only_under_alpha_zero_witness :
    (is_identical_c ⟨2, 1, 1, 25⟩
      [⟨255, 255, 255, 255⟩, ⟨1, 2, 3, 0⟩] [⟨255, 255, 255, 255⟩, Pixel.zero]).1 = 1 :=
  is_identical_c_of_differ_only_under_alpha_zero ⟨2, 1, 1, 25⟩
    [⟨255, 255, 255, 255⟩, ⟨1, 2, 3, 0⟩] [⟨255, 255, 255, 255⟩, Pixel.zero] (by decide)
    (List.Forall₂.cons (by decide) (List.Forall₂.cons (by decide) List.Forall₂.nil))
    (by decide)

/-! ### `zero_transparent_c` -/

theorem zero_transparent_loop_eq (k : Nat) : ∀ (im : Nat) (img : List Pixel),
    ((∃ j, im ≤ j ∧ j < im + k ∧ (img.getD j Pixel.zero).b3 = 0) →
      zero_transparent_loop k im img = img.set 0 Pixel.zero) ∧
    ((¬ ∃ j, im ≤ j ∧ j < im + k ∧ (img.getD j Pixel.zero).b3 = 0) →
      zero_transparent_loop k im img = img) := by
  induction k with
  | zero =>
    intro im img
    refine ⟨?_, fun _ => rfl⟩
    rintro ⟨j, h1, h2, _⟩
    omega
  | succ k ih =>
    intro im img
    by_cases h0 : (img.getD im Pixel.zero).b3 = 0
    · have hstep : zero_transparent_loop (k + 1) im img =
          zero_transparent_loop k (im + 1) (img.set 0 Pixel.zero) := by
        simp only [zero_transparent_loop, if_pos h0]
      have hidem : (img.set 0 Pixel.zero).set 0 Pixel.zero = img.set 0 Pixel.zero := by
        cases img <;> simp
      refine ⟨fun _ => ?_, fun hne => absurd ⟨im, le_refl _, by omega, h0⟩ hne⟩
      rw [hstep]
      by_cases hex : ∃ j, im + 1 ≤ j ∧ j < im + 1 + k ∧
          ((img.set 0 Pixel.zero).getD j Pixel.zero).b3 = 0
      · rw [(ih (im + 1) (img.set 0 Pixel.zero)).1 hex, hidem]
      · rw [(ih (im + 1) (img.set 0 Pixel.zero)).2 hex]
    · have hstep : zero_transparent_loop (k + 1) im img =
          zero_transparent_loop k (im + 1) img := by
        simp only [zero_transparent_loop, if_neg h0]
      rw [hstep]
      constructor
      · rintro ⟨j, h1, h2, h3⟩
        rcases Nat.eq_or_lt_of_le h1 with he | hl
        · subst he; exact absurd h3 h0
        · exact (ih (im + 1) img).1 ⟨j, hl, by omega, h3⟩
      · intro hne
        exact (ih (im + 1) img).2 (fun ⟨j, h1, h2, h3⟩ => hne ⟨j, by omega, by omega, h3⟩)

/-- What `zero_transparent_c` does to a buffer of `i_width * i_height` pixels:
when some pixel has alpha 0, pixel 0 is overwritten with zero, and nothing
else changes. -/
theorem zero_transparent_c_eq (s_info : stream_info_t) (img : List Pixel)
    (hlen : (img.length : Int) = s_info.i_width * s_info.i_height) :
    zero_transparent_c s_info img =
      if ∃ p ∈ img, p.b3 = 0 then img.set 0 Pixel.zero else img := by
  unfold zero_transparent_c
  have hn : s_info.pixels = img.length := by
    unfold stream_info_t.pixels
    omega
  have hiff : (∃ j, 0 ≤ j ∧ j < 0 + s_info.pixels ∧ (img.getD j Pixel.zero).b3 = 0) ↔
      ∃ p ∈ img, p.b3 = 0 := by
    constructor
    · rintro ⟨j, _, h2, h3⟩
      have hj : j < img.length := by omega
      refine ⟨img[j], List.getElem_mem _, ?_⟩
      rw [List.getD_eq_getElem _ _ hj] at h3
      exact h3
    · rintro ⟨p, hp, h0⟩
      obtain ⟨j, hj, rfl⟩ := List.mem_iff_getElem.mp hp
      refine ⟨j, Nat.zero_le _, by omega, ?_⟩
      rw [List.getD_eq_getElem _ _ hj]
      exact h0
  by_cases h : ∃ p ∈ img, p.b3 = 0
  · rw [if_pos h, (zero_transparent_loop_eq _ 0 img).1 (hiff.mpr h)]
  · rw [if_neg h, (zero_transparent_loop_eq _ 0 img).2 (fun h2 => h (hiff.mp h2))]

/-- C5 fails on the code: on the 8x8 image whose pixel 0 is opaque and whose
pixel 1 is `(9, 9, 9, 0)`, `zero_transparent_c` leaves pixel 1 as it is and
zeroes pixel 0. -/
theorem zero_transparent_c_writes_first_pixel :
    zero_transparent_c ⟨8, 8, 1001, 24000⟩ (frame8 ⟨1, 2, 3, 255⟩ ⟨9, 9, 9, 0⟩) =
      frame8 Pixel.zero ⟨9, 9, 9, 0⟩ := by
  rfl

/-! ### The splitting loop -/

theorem add_event_xml_loop_fuel_succ (image split_at min_split graphics : Int)
    (crops : crop_t × crop_t) (forced : Int) (fuel : Nat) :
    ∀ (events : event_list_t) (d start : Int) (r : event_list_t × Int × Int),
      add_event_xml_loop image split_at min_split graphics crops forced fuel events d start =
        some r →
      add_event_xml_loop image split_at min_split graphics crops forced (fuel + 1) events d
        start = some r := by
  induction fuel with
  | zero =>
    intro events d start r h
    by_cases hge : d ≥ split_at + min_split
    · simp [add_event_xml_loop, hge] at h
    · simpa [add_event_xml_loop, hge] using h
  | succ fuel ih =>
    intro events d start r h
    by_cases hge : d ≥ split_at + min_split
    · rw [add_event_xml_loop, if_pos hge] at h
      rw [add_event_xml_loop, if_pos hge]
      exact ih _ _ _ _ h
    · rw [add_event_xml_loop, if_neg hge] at h
      rw [add_event_xml_loop, if_neg hge]
      exact h

theorem add_event_xml_loop_never_ends (image split_at min_split graphics : Int)
    (crops : crop_t × crop_t) (forced : Int) (hs : split_at < 0) (fuel : Nat) :
    ∀ (events : event_list_t) (d start : Int), d ≥ split_at + min_split →
      add_event_xml_loop image split_at min_split graphics crops forced fuel events d start =
        none := by
  induction fuel with
  | zero =>
    intro events d start hge
    simp [add_event_xml_loop, hge]
  | succ fuel ih =>
    intro events d start hge
    rw [add_event_xml_loop, if_pos hge]
    exact ih _ _ _ (by omega)

theorem add_event_xml_loop_spec (image split_at min_split graphics : Int)
    (crops : crop_t × crop_t) (forced : Int) (hs : 0 < split_at) (fuel : Nat) :
    ∀ (events : event_list_t) (d start : Int), d - (split_at + min_split) < fuel →
      ∃ k : Nat,
        add_event_xml_loop image split_at min_split graphics crops forced fuel events d start =
          some (events ++ full_segments image split_at graphics crops forced k start,
            d - k * split_at, start + k * split_at) ∧
        d - k * split_at < split_at + min_split ∧
        (k = 0 ∨ min_split ≤ d - k * split_at) ∧
        (k = 0 ↔ d < split_at + min_split) := by
  induction fuel with
  | zero =>
    intro events d start hd
    have hlt : ¬ d ≥ split_at + min_split := by
      simp at hd
      omega
    refine ⟨0, ?_, ?_, Or.inl rfl, ?_⟩
    · simp [add_event_xml_loop, hlt, full_segments]
    · simp; omega
    · simp; omega
  | succ fuel ih =>
    intro events d start hd
    by_cases hge : d ≥ split_at + min_split
    · have hd1 : d - split_at - (split_at + min_split) < fuel := by
        push_cast at hd
        omega
      obtain ⟨k, hk, hlt, hmin, hk0⟩ := ih
        (add_event_xml_real events image start (start + split_at) graphics crops forced)
        (d - split_at) (start + split_at) hd1
      refine ⟨k + 1, ?_, ?_, Or.inr ?_, ?_⟩
      · simp only [add_event_xml_loop, if_pos hge, hk]
        simp only [add_event_xml_real, event_list_insert_after, full_segments,
          List.append_assoc, List.singleton_append]
        have e1 : d - split_at - (k : Int) * split_at = d - ((k + 1 : Nat) : Int) * split_at := by
          push_cast; ring
        have e2 : start + split_at + (k : Int) * split_at =
            start + ((k + 1 : Nat) : Int) * split_at := by
          push_cast; ring
        rw [e1, e2]
      · push_cast; linarith
      · rcases hmin with h0 | h1
        · subst h0
          push_cast
          simp at hlt
          omega
        · push_cast; linarith
      · constructor
        · intro h; omega
        · intro h; omega
    · refine ⟨0, ?_, ?_, Or.inl rfl, ?_⟩
      · simp [add_event_xml_loop, hge, full_segments]
      · simp; omega
      · simp; omega

theorem full_segments_length_eq (image split_at graphics : Int) (crops : crop_t × crop_t)
    (forced : Int) (k : Nat) : ∀ start : Int,
    ∀ e ∈ full_segments image split_at graphics crops forced k start,
      e.end_frame - e.start_frame = split_at := by
  induction k with
  | zero => intro start e he; simp [full_segments] at he
  | succ k ih =>
    intro start e he
    simp only [full_segments, List.mem_cons] at he
    rcases he with rfl | he
    · simp
    · exact ih _ e he

theorem add_event_xml_split_spec (events : event_list_t)
    (split_at min_split start end_ graphics : Int) (crops : crop_t × crop_t) (forced : Int)
    (hs : 0 < split_at) :
    ∃ k : Nat,
      add_event_xml events split_at min_split start end_ graphics crops forced =
        .ok (events ++ full_segments start split_at graphics crops forced k start ++
          (if end_ - start - k * split_at ≠ 0 then
            [{ image_number := start, start_frame := start + k * split_at, end_frame := end_,
               graphics := graphics, forced := forced, c0 := crops.1, c1 := crops.2 }]
           else [])) ∧
      end_ - start - k * split_at < split_at + min_split ∧
      (k = 0 ∨ min_split ≤ end_ - start - k * split_at) ∧
      (k = 0 ↔ end_ - start < split_at + min_split) := by
  have hfuel : end_ - start - (split_at + min_split) <
      (split_rounds split_at min_split (end_ - start) : Int) := by
    unfold split_rounds
    push_cast
    omega
  obtain ⟨k, hk, h1, h2, h3⟩ := add_event_xml_loop_spec start split_at min_split graphics
    crops forced hs _ events (end_ - start) start hfuel
  refine ⟨k, ?_, h1, h2, h3⟩
  have hs0 : split_at ≠ 0 := by omega
  simp only [add_event_xml, if_neg hs0, hk]
  by_cases hd : end_ - start - k * split_at ≠ 0
  · simp only [if_pos hd, add_event_xml_real, event_list_insert_after]
    have e : start + (k : Int) * split_at + (end_ - start - k * split_at) = end_ := by ring
    rw [e]
  · simp only [if_neg hd, List.append_nil]

/-- C10: for `split_at > 0`, `min_split ≥ 1` and `end_ - start ≥ split_at + min_split`,
`add_event_xml` appends at least one segment of length exactly `split_at`,
followed by a last segment whose length is at least `min_split` and less than
`split_at + min_split`; all segments but the last have length `split_at`.  For
a 100-frame event with `split_at = 30` and `min_split = 3` the lengths are
30, 30, 30, 10. -/
theorem add_event_xml_segment_lengths (events : event_list_t)
    (split_at min_split start end_ graphics : Int) (crops : crop_t × crop_t) (forced : Int)
    (hs : 0 < split_at) (hm : 1 ≤ min_split) (hlen : end_ - start ≥ split_at + min_split) :
    (∃ (segs : List event_t) (last : event_t),
      add_event_xml events split_at min_split start end_ graphics crops forced =
        .ok (events ++ segs ++ [last]) ∧
      segs ≠ [] ∧
      (∀ e ∈ segs, e.end_frame - e.start_frame = split_at) ∧
      min_split ≤ last.end_frame - last.start_frame ∧
      last.end_frame - last.start_frame < split_at + min_split) ∧
    (∃ segs : List event_t,
      add_event_xml events 30 3 start (start + 100) graphics crops forced =
        .ok (events ++ segs) ∧
      (segs.map fun e => e.end_frame - e.start_frame) = [30, 30, 30, 10]) := by
  constructor
  · obtain ⟨k, hk, h1, h2, h3⟩ := add_event_xml_split_spec events split_at min_split start
      end_ graphics crops forced hs
    have hk0 : k ≠ 0 := fun h => by
      have := h3.mp h
      omega
    have hmin : min_split ≤ end_ - start - k * split_at := by
      rcases h2 with h0 | h
      · exact absurd h0 hk0
      · exact h
    have hne : end_ - start - k * split_at ≠ 0 := by omega
    rw [if_pos hne] at hk
    refine ⟨_, _, hk, ?_, full_segments_length_eq _ _ _ _ _ k start, ?_, ?_⟩
    · cases k with
      | zero => exact absurd rfl hk0
      | succ k => simp [full_segments]
    · show min_split ≤ end_ - (start + k * split_at)
      omega
    · show end_ - (start + k * split_at) < split_at + min_split
      omega
  · obtain ⟨k, hk, h1, h2, h3⟩ := add_event_xml_split_spec events 30 3 start (start + 100)
      graphics crops forced (by decide)
    have hk3 : k = 3 := by omega
    subst hk3
    refine ⟨_, by rw [hk, List.append_assoc], ?_⟩
    simp [full_segments]

/-- C10, at the event from frame 0 to frame 100 with `split_at = 30` and
`min_split = 3`. -/
theorem add_event_xml_segment_lengths_witness :
    (∃ (segs : List event_t) (last : event_t),
      add_event_xml [] 30 3 0 100 1 (⟨0, 0, 8, 8⟩, ⟨0, 0, 0, 0⟩) 0 =
        .ok ([] ++ segs ++ [last]) ∧
      segs ≠ [] ∧
      (∀ e ∈ segs, e.end_frame - e.start_frame = 30) ∧
      3 ≤ last.end_frame - last.start_frame ∧
      last.end_frame - last.start_frame < 30 + 3) ∧
    (∃ segs : List event_t,
      add_event_xml [] 30 3 0 (0 + 100) 1 (⟨0, 0, 8, 8⟩, ⟨0, 0, 0, 0⟩) 0 = .ok ([] ++ segs) ∧
      (segs.map fun e => e.end_frame - e.start_frame) = [30, 30, 30, 10]) :=
  add_event_xml_segment_lengths [] 30 3 0 100 1 (⟨0, 0, 8, 8⟩, ⟨0, 0, 0, 0⟩) 0
    (by decide) (by decide) (by decide)


/-! ### The frame loop -/

theorem add_event_xml_loop_append (image split_at min_split graphics : Int)
    (crops : crop_t × crop_t) (forced : Int) (pre : event_list_t) (fuel : Nat) :
    ∀ (events : event_list_t) (d start : Int),
      add_event_xml_loop image split_at min_split graphics crops forced fuel (pre ++ events)
          d start =
        (add_event_xml_loop image split_at min_split graphics crops forced fuel events d
          start).map fun r => (pre ++ r.1, r.2.1, r.2.2) := by
  induction fuel with
  | zero =>
    intro events d start
    by_cases hge : d ≥ split_at + min_split <;> simp [add_event_xml_loop, hge]
  | succ fuel ih =>
    intro events d start
    by_cases hge : d ≥ split_at + min_split
    · rw [add_event_xml_loop, if_pos hge, add_event_xml_loop, if_pos hge, ← ih]
      simp [add_event_xml_real, event_list_insert_after]
    · simp [add_event_xml_loop, hge]

/-- The events appended by `add_event_xml` do not depend on the list they are
appended to. -/
theorem add_event_xml_append (events : event_list_t)
    (split_at min_split start end_ graphics : Int) (crops : crop_t × crop_t) (forced : Int) :
    add_event_xml events split_at min_split start end_ graphics crops forced =
      (add_event_xml [] split_at min_split start end_ graphics crops forced).bind
        fun segs => .ok (events ++ segs) := by
  by_cases hs : split_at = 0
  · simp [add_event_xml, hs, Run.bind, add_event_xml_real, event_list_insert_after]
  · have h := add_event_xml_loop_append start split_at min_split graphics crops forced events
      (split_rounds split_at min_split (end_ - start)) [] (end_ - start) start
    rw [List.append_nil] at h
    simp only [add_event_xml, if_neg hs, h]
    cases add_event_xml_loop start split_at min_split graphics crops forced
        (split_rounds split_at min_split (end_ - start)) [] (end_ - start) start with
    | none => simp [Run.bind]
    | some r =>
      obtain ⟨evs, d, st⟩ := r
      by_cases hd : d ≠ 0
      · simp [Run.bind, hd, add_event_xml_real, event_list_insert_after]
      · simp [Run.bind, hd]

theorem write_sup_wrapper_loop_eq (image num_crop : Int) (crops : crop_t × crop_t)
    (split_at min_split stricter forced : Int) (calls : List sup_call) (fuel : Nat) :
    ∀ (events : event_list_t) (d start : Int),
      write_sup_wrapper_loop num_crop crops split_at min_split stricter forced fuel
          (calls ++ events.map (sup_call_of_event stricter)) d start =
        (add_event_xml_loop image split_at min_split num_crop crops forced fuel events d
          start).map fun r => (calls ++ r.1.map (sup_call_of_event stricter), r.2.1, r.2.2) := by
  induction fuel with
  | zero =>
    intro events d start
    by_cases hge : d ≥ split_at + min_split <;>
      simp [add_event_xml_loop, write_sup_wrapper_loop, hge]
  | succ fuel ih =>
    intro events d start
    by_cases hge : d ≥ split_at + min_split
    · rw [add_event_xml_loop, if_pos hge, write_sup_wrapper_loop, if_pos hge, ← ih]
      simp [add_event_xml_real, event_list_insert_after, sup_call_of_event]
    · simp [add_event_xml_loop, write_sup_wrapper_loop, hge]

/-- The calls of `write_sup` made by `write_sup_wrapper` are those of the
segments that `add_event_xml` appends for the same interval. -/
theorem write_sup_wrapper_eq (calls : List sup_call) (num_crop : Int)
    (crops : crop_t × crop_t) (start end_ split_at min_split stricter forced : Int) :
    write_sup_wrapper calls num_crop crops start end_ split_at min_split stricter forced =
      (add_event_xml [] split_at min_split start end_ num_crop crops forced).bind
        fun segs => .ok (calls ++ segs.map (sup_call_of_event stricter)) := by
  by_cases hs : split_at = 0
  · simp [add_event_xml, write_sup_wrapper, hs, Run.bind, add_event_xml_real,
      event_list_insert_after, sup_call_of_event]
  · have h := write_sup_wrapper_loop_eq start num_crop crops split_at min_split stricter forced
      calls (split_rounds split_at min_split (end_ - start)) [] (end_ - start) start
    simp only [List.map_nil, List.append_nil] at h
    simp only [add_event_xml, write_sup_wrapper, if_neg hs, h]
    cases add_event_xml_loop start split_at min_split num_crop crops forced
        (split_rounds split_at min_split (end_ - start)) [] (end_ - start) start with
    | none => simp [Run.bind]
    | some r =>
      obtain ⟨evs, d, st⟩ := r
      by_cases hd : d ≠ 0
      · simp [Run.bind, hd, add_event_xml_real, event_list_insert_after, sup_call_of_event]
      · simp [Run.bind, hd]

theorem full_segments_getLast (image split_at graphics : Int) (crops : crop_t × crop_t)
    (forced : Int) (k : Nat) : ∀ start : Int,
    (full_segments image split_at graphics crops forced (k + 1) start).getLast?.map
        event_t.end_frame = some (start + ((k + 1 : Nat) : Int) * split_at) := by
  induction k with
  | zero => intro start; simp [full_segments]
  | succ k ih =>
    intro start
    have h := ih (start + split_at)
    have hcons : full_segments image split_at graphics crops forced (k + 1) (start + split_at) =
        ({ image_number := image, start_frame := start + split_at,
           end_frame := start + split_at + split_at, graphics := graphics, forced := forced,
           c0 := crops.1, c1 := crops.2 } : event_t) ::
          full_segments image split_at graphics crops forced k (start + split_at + split_at) :=
      rfl
    rw [full_segments, hcons, List.getLast?_cons_cons, ← hcons, h]
    congr 1
    push_cast
    ring

/-- For `split_at ≥ 0`, `add_event_xml` returns, and when `split_at = 0` or
`start ≠ end_` the last segment it appends ends at `end_`. -/
theorem add_event_xml_last_end (split_at min_split start end_ graphics : Int)
    (crops : crop_t × crop_t) (forced : Int) (hs : 0 ≤ split_at) :
    ∃ segs : List event_t,
      add_event_xml [] split_at min_split start end_ graphics crops forced = .ok segs ∧
      ((split_at = 0 ∨ start ≠ end_) → segs.getLast?.map event_t.end_frame = some end_) := by
  by_cases h0 : split_at = 0
  · refine ⟨add_event_xml_real [] start start end_ graphics crops forced,
      by simp [add_event_xml, h0], fun _ => ?_⟩
    simp [add_event_xml_real, event_list_insert_after]
  · have hpos : 0 < split_at := by omega
    obtain ⟨k, hk, _, _, _⟩ := add_event_xml_split_spec [] split_at min_split start end_
      graphics crops forced hpos
    rw [List.nil_append] at hk
    refine ⟨_, hk, fun hor => ?_⟩
    have hne : start ≠ end_ := by
      rcases hor with h | h
      · exact absurd h h0
      · exact h
    by_cases hd : end_ - start - k * split_at ≠ 0
    · rw [if_pos hd]
      simp
    · rw [if_neg hd, List.append_nil]
      have hd0 : end_ - start - k * split_at = 0 := by omega
      cases k with
      | zero =>
        simp at hd0
        omega
      | succ k =>
        rw [full_segments_getLast]
        congr 1
        omega

/-- C6, as stated, fails: in the run over three equal opaque frames the line
opened at frame 0 is still open after the last frame, `L = 2`, and the end
stored in the event list and passed to `write_sup` is 2, not `L + 1 + 0 = 3`
(only the `OutTC` printed in the XML file is one frame later). -/
theorem main_open_line_end_counterexample :
    (main_frames plain_options idle_externals scalar_primitives s_info8 open_end_stream).bind
      (fun r => .ok (event_intervals r.events, sup_intervals r.sup_calls, r.auto_cut,
        xml_timecodes r.xml)) =
    .ok ([(0, 2)], [(0, 2)], 1, some [("00:00:00:00", "00:00:00:03")]) := by
  rfl

/-- C6, amended: when the frame loop ends with a line still open, `main`
closes it with end `L + t_offset`, where `L = last_frame - 1` is the index of
the last processed frame: with `split_at ≥ 0` the block after the loop
returns, sets `auto_cut` and `end_frame = L`, appends the
segments of the interval from `start_frame + t_offset` to `L + t_offset` to
the event list (with XML output) and calls `write_sup` for the same segments
(with SUP output); the last of them, which exists when `split_at = 0` or
`start_frame < L`, ends at `L + t_offset`. -/
theorem main_lines_closes_open_line_at_last_frame (o : options_t) (ext : externals)
    (prims : primitives) (s_info : stream_info_t) (avis_hnd : avis_input_t)
    (st : main_state)
    (hloop : process_frames o ext prims s_info avis_hnd
      (clipped_count_frames o (get_frame_total_avis avis_hnd) + o.init_frame
        - o.init_frame).toNat o.init_frame (main_init ext s_info) = .ok st)
    (hopen : st.have_line ≠ 0) (hs : 0 ≤ o.split_at) :
    ∃ (segs : List event_t) (st1 : main_state),
      main_lines o ext prims s_info avis_hnd = .ok (st1, 1) ∧
      st1.end_frame = clipped_count_frames o (get_frame_total_avis avis_hnd) + o.init_frame - 1 ∧
      st1.events = (if o.xml_output ≠ 0 then st.events ++ segs else st.events) ∧
      st1.sup_calls = (if o.sup_output ≠ 0 then
        st.sup_calls ++ segs.map (sup_call_of_event o.stricter) else st.sup_calls) ∧
      ((o.split_at = 0 ∨ st.start_frame <
          clipped_count_frames o (get_frame_total_avis avis_hnd) + o.init_frame - 1) →
        segs.getLast?.map event_t.end_frame =
          some (clipped_count_frames o (get_frame_total_avis avis_hnd) + o.init_frame - 1
            + o.t_offset)) := by
  have hcount : ¬ clipped_count_frames o (get_frame_total_avis avis_hnd) < 1 := by
    intro hlt
    have h0 : (clipped_count_frames o (get_frame_total_avis avis_hnd) + o.init_frame
        - o.init_frame).toNat = 0 := by omega
    rw [h0] at hloop
    simp only [process_frames, Run.ok.injEq] at hloop
    rw [← hloop] at hopen
    exact hopen rfl
  obtain ⟨segs, hsegs, hlast⟩ := add_event_xml_last_end o.split_at o.min_split
    (st.start_frame + o.t_offset)
    (clipped_count_frames o (get_frame_total_avis avis_hnd) + o.init_frame - 1 + o.t_offset)
    st.n_crop st.crops o.mark_forced hs
  refine ⟨segs,
    { st with
      sup_calls := if o.sup_output ≠ 0 then
        st.sup_calls ++ segs.map (sup_call_of_event o.stricter) else st.sup_calls
      events := if o.xml_output ≠ 0 then st.events ++ segs else st.events
      end_frame := clipped_count_frames o (get_frame_total_avis avis_hnd) + o.init_frame - 1 },
    ?_, rfl, rfl, rfl, ?_⟩
  · simp only [main_lines, if_neg hcount, hloop, Run.bind, add_last_event, if_pos hopen,
      close_line, write_sup_wrapper_eq, add_event_xml_append st.events, hsegs]
    by_cases hsup : o.sup_output ≠ 0 <;> by_cases hxml : o.xml_output ≠ 0 <;>
      simp only [hsup, hxml, if_true, if_false, Run.bind, not_true_eq_false, not_false_eq_true,
        ne_eq]
  · intro hor
    apply hlast
    rcases hor with h | h
    · exact Or.inl h
    · exact Or.inr (by omega)

theorem is_empty_c_of_all_alpha_zero (s_info : stream_info_t) (img : List Pixel)
    (h : ∀ p ∈ img, p.b3 = 0) : is_empty_c s_info img = 1 := by
  unfold is_empty_c
  rw [is_empty_loop_eq_one]
  intro p hp
  exact h p (List.mem_of_mem_take hp)

theorem frame_step_empty (o : options_t) (ext : externals) (s_info : stream_info_t)
    (avis_hnd : avis_input_t) (st : main_state) (i : Int) (img : List Pixel)
    (hline : st.have_line = 0) (hread : read_frame_avis avis_hnd i = some img)
    (hempty : ∀ p ∈ img, p.b3 = 0) :
    frame_step o ext scalar_primitives s_info avis_hnd st i = .ok st := by
  have h1 : scalar_primitives.is_empty s_info img = 1 :=
    is_empty_c_of_all_alpha_zero s_info img hempty
  simp [frame_step, hread, hline, h1]

theorem process_frames_empty (o : options_t) (ext : externals) (s_info : stream_info_t)
    (avis_hnd : avis_input_t) (st : main_state) (hline : st.have_line = 0) (k : Nat) :
    ∀ i : Int,
      (∀ j : Int, i ≤ j → j < i + k →
        ∃ img, read_frame_avis avis_hnd j = some img ∧ ∀ p ∈ img, p.b3 = 0) →
      process_frames o ext scalar_primitives s_info avis_hnd k i st = .ok st := by
  induction k with
  | zero => intro i _; rfl
  | succ k ih =>
    intro i h
    obtain ⟨img, hread, hempty⟩ := h i (le_refl _) (by push_cast; omega)
    rw [process_frames, frame_step_empty o ext s_info avis_hnd st i img hline hread hempty]
    simp only [Run.bind]
    exact ih (i + 1) (fun j h1 h2 => h j (by omega) (by push_cast; omega))

theorem mk_timecode_zero (fps : Int) : mk_timecode 0 fps = .ok "00:00:00:00" := by
  simp [mk_timecode]
  decide

/-- C8, as stated, fails in two ways, both on 24 empty 8x8 frames with XML
output and `allow_empty = 1`: with a timecode offset of 100 hours
(`t_offset = 8640000` at timecode base 24) `main` exits with status 1 in
`mk_timecode` before anything is written, and with `count = 0` it returns 0 at
`No frames found` without writing an XML file. -/
theorem main_all_empty_counterexample :
    main_frames { plain_options with allow_empty := 1, t_offset := 8640000 } idle_externals
      scalar_primitives s_info8 empty_stream = .exit 1 ∧
    main_frames { plain_options with allow_empty := 1, count_frames := 0 } idle_externals
      scalar_primitives s_info8 empty_stream = .exit 0 := by
  constructor <;> rfl

/-- C8, amended: when at least one frame is processed and every processed
frame has all alpha bytes zero, the frame loop and the block after it record no
event (empty event list, event counter 0, no call of `write_sup`, `auto_cut`
0); with XML output and `allow_empty = 0`, `main` returns 0 without an XML
file; with XML output and `allow_empty` nonzero, provided `mk_timecode` returns
for `t_offset` and for `frames + t_offset`, `main` returns 0 with an XML file
whose `NumberofEvents` is 0 and which has no `Event` element. -/
theorem main_all_empty_no_event (o : options_t) (ext : externals) (s_info : stream_info_t)
    (avis_hnd : avis_input_t)
    (hcount : 1 ≤ clipped_count_frames o (get_frame_total_avis avis_hnd))
    (hempty : ∀ i : Int, o.init_frame ≤ i →
      i < clipped_count_frames o (get_frame_total_avis avis_hnd) + o.init_frame →
      ∃ img, read_frame_avis avis_hnd i = some img ∧ ∀ p ∈ img, p.b3 = 0) :
    (∃ st, main_lines o ext scalar_primitives s_info avis_hnd = .ok (st, 0) ∧
      st.events = [] ∧ st.num_of_events = 0 ∧ st.sup_calls = []) ∧
    (o.xml_output ≠ 0 → o.allow_empty = 0 →
      ∃ r, main_frames o ext scalar_primitives s_info avis_hnd = .ok r ∧ r.xml = none ∧
        r.events = [] ∧ r.num_of_events = 0 ∧ r.sup_calls = []) ∧
    (o.xml_output ≠ 0 → o.allow_empty ≠ 0 →
      (∃ tc, mk_timecode o.t_offset o.fps = .ok tc) →
      (∃ tc, mk_timecode (get_frame_total_avis avis_hnd + o.t_offset) o.fps = .ok tc) →
      ∃ r doc, main_frames o ext scalar_primitives s_info avis_hnd = .ok r ∧
        r.xml = some doc ∧ doc.number_of_events = 0 ∧ doc.events = [] ∧
        r.events = [] ∧ r.num_of_events = 0 ∧ r.sup_calls = []) := by
  have hlines : main_lines o ext scalar_primitives s_info avis_hnd =
      .ok (main_init ext s_info, 0) := by
    have hc : ¬ clipped_count_frames o (get_frame_total_avis avis_hnd) < 1 := by omega
    have hloop := process_frames_empty o ext s_info avis_hnd (main_init ext s_info) rfl
      (clipped_count_frames o (get_frame_total_avis avis_hnd) + o.init_frame
        - o.init_frame).toNat o.init_frame
      (fun j h1 h2 => hempty j h1 (by omega))
    simp only [main_lines, if_neg hc, hloop, Run.bind, add_last_event]
    simp [main_init]
  refine ⟨⟨_, hlines, rfl, rfl, rfl⟩, ?_, ?_⟩
  · intro hxml hallow
    refine ⟨{ events := [], sup_calls := [], pngs := [], num_of_events := 0,
              first_frame := -1, end_frame := -1, auto_cut := 0, xml := none },
      ?_, rfl, rfl, rfl, rfl⟩
    simp only [main_frames, hlines, Run.bind, if_pos hxml, write_xml]
    simp [main_init, hallow]
  · intro hxml hallow ⟨tc1, h1⟩ ⟨tc2, h2⟩
    have hne : ¬ ((main_init ext s_info).first_frame = -1 ∧ o.allow_empty = 0) :=
      fun h => hallow h.2
    refine ⟨{ events := [], sup_calls := [], pngs := [], num_of_events := 0,
              first_frame := -1, end_frame := -1, auto_cut := 0,
              xml := some { last_event_out_tc := tc1, first_event_in_tc := tc1,
                            content_in_tc := "00:00:00:00", content_out_tc := tc2,
                            number_of_events := 0, events := [] } },
      _, ?_, rfl, rfl, rfl, rfl, rfl, rfl⟩
    simp only [main_frames, hlines, Run.bind, if_pos hxml, write_xml, if_neg hne]
    simp [main_init, h1, h2, mk_timecode_zero, write_xml_events]

/-- C6 amended, at the run over three equal opaque frames. -/
theorem main_lines_closes_open_line_at_last_frame_witness :
    ∃ (segs : List event_t) (st1 : main_state),
      main_lines plain_options idle_externals scalar_primitives s_info8 open_end_stream =
        .ok (st1, 1) ∧
      st1.end_frame = clipped_count_frames plain_options
        (get_frame_total_avis open_end_stream) + plain_options.init_frame - 1 ∧
      st1.events = (if plain_options.xml_output ≠ 0 then open_end_state.events ++ segs
        else open_end_state.events) ∧
      st1.sup_calls = (if plain_options.sup_output ≠ 0 then
        open_end_state.sup_calls ++ segs.map (sup_call_of_event plain_options.stricter)
        else open_end_state.sup_calls) ∧
      ((plain_options.split_at = 0 ∨ open_end_state.start_frame <
          clipped_count_frames plain_options (get_frame_total_avis open_end_stream)
            + plain_options.init_frame - 1) →
        segs.getLast?.map event_t.end_frame =
          some (clipped_count_frames plain_options (get_frame_total_avis open_end_stream)
            + plain_options.init_frame - 1 + plain_options.t_offset)) :=
  main_lines_closes_open_line_at_last_frame plain_options idle_externals scalar_primitives
    s_info8 open_end_stream open_end_state (by rfl) (by decide) (by decide)

/-- C8 amended, at the run over 24 empty 8x8 frames. -/
theorem main_all_empty_no_event_witness :
    ∃ st, main_lines plain_options idle_externals scalar_primitives s_info8 empty_stream =
        .ok (st, 0) ∧
      st.events = [] ∧ st.num_of_events = 0 ∧ st.sup_calls = [] :=
  (main_all_empty_no_event plain_options idle_externals s_info8 empty_stream (by decide)
    (by
      intro i h1 h2
      have h3 : i < 24 := h2
      have h4 : (0 : Int) ≤ i := h1
      refine ⟨frame8 Pixel.zero Pixel.zero, ?_, by decide⟩
      have h5 : ¬ i < 0 := by omega
      have h6 : i.toNat < 24 := by omega
      unfold read_frame_avis empty_stream
      rw [if_neg h5]
      simp only [List.get?_eq_getElem?, List.getElem?_replicate, if_pos h6])).1

/-- C1 fails on the code: on sixteen 8x8 frames of which frames 5..14 are the
same non-empty frame (pixel 0 opaque, the rest transparent) and the others are
empty, with the scalar primitives, `split_at = 0` and `t_offset = 0`, `main`
records two events, from 5 to 6 and from 6 to 15, with timecodes
`00:00:00:05`/`00:00:00:06` and `00:00:00:06`/`00:00:00:15`, instead of the one
event from 5 to 15. -/
theorem main_single_event_stream_records_two_events :
    (main_frames plain_options idle_externals scalar_primitives s_info8
        single_event_stream).bind
      (fun r => .ok (event_intervals r.events, sup_intervals r.sup_calls, r.num_of_events,
        xml_timecodes r.xml)) =
    .ok ([(5, 6), (6, 15)], [(5, 6), (6, 15)], 2,
      some [("00:00:00:05", "00:00:00:06"), ("00:00:00:06", "00:00:00:15")]) := by
  rfl

/-- With the normalisation of the specification in place of
`zero_transparent_c`, the same run records the one event from 5 to 15 with
timecodes `00:00:00:05` and `00:00:00:15`. -/
theorem main_single_event_stream_with_spec_normalisation :
    (main_frames plain_options idle_externals spec_primitives s_info8
        single_event_stream).bind
      (fun r => .ok (event_intervals r.events, sup_intervals r.sup_calls, r.num_of_events,
        xml_timecodes r.xml)) =
    .ok ([(5, 15)], [(5, 15)], 1, some [("00:00:00:05", "00:00:00:15")]) := by
  rfl

/-- C7 fails on the code: on three 8x8 frames of which frames 0 and 1 are
non-empty and differ in pixel 0 only (opaque in frame 0, zero in frame 1) and
frame 2 is empty, with the scalar primitives, `split_at = 0` and
`t_offset = 0`, `main` records the single event from 0 to 2 instead of the two
events from 0 to 1 and from 1 to 2. -/
theorem main_one_pixel_change_stream_merges :
    (main_frames plain_options idle_externals scalar_primitives s_info8
        one_pixel_change_stream).bind
      (fun r => .ok (event_intervals r.events, sup_intervals r.sup_calls, r.num_of_events)) =
    .ok ([(0, 2)], [(0, 2)], 1) := by
  rfl

/-- With the normalisation of the specification in place of
`zero_transparent_c`, the same run records the two events from 0 to 1 and from
1 to 2. -/
theorem main_one_pixel_change_stream_with_spec_normalisation :
    (main_frames plain_options idle_externals spec_primitives s_info8
        one_pixel_change_stream).bind
      (fun r => .ok (event_intervals r.events, sup_intervals r.sup_calls, r.num_of_events)) =
    .ok ([(0, 1), (1, 2)], [(0, 1), (1, 2)], 2) := by
  rfl

/-! ### `get_fps` -/

/-- C17: `get_fps` returns 1 with `(fps_num, fps_den)` set to `(24000, 1001)`,
`(24, 1)`, `(25, 1)`, `(30000, 1001)`, `(50, 1)`, `(60000, 1001)` for the ids
`0x10`, `0x20`, `0x30`, `0x40`, `0x60`, `0x70`, and returns 0 with both outputs
as they were for every other id, 0 included. -/
theorem get_fps_table (id fps_num fps_den : Int) :
    get_fps id fps_num fps_den =
      if id = 0x10 then (1, 24000, 1001)
      else if id = 0x20 then (1, 24, 1)
      else if id = 0x30 then (1, 25, 1)
      else if id = 0x40 then (1, 30000, 1001)
      else if id = 0x60 then (1, 50, 1)
      else if id = 0x70 then (1, 60000, 1001)
      else (0, fps_num, fps_den) := by
  simp only [get_fps, get_fps_ids, get_fps_loop]
  by_cases h1 : id = 16
  · subst h1; simp
  by_cases h2 : id = 32
  · subst h2; simp
  by_cases h3 : id = 48
  · subst h3; simp
  by_cases h4 : id = 64
  · subst h4; simp
  by_cases h5 : id = 96
  · subst h5; simp
  by_cases h6 : id = 112
  · subst h6; simp
  have e1 : ¬ (16 : Int) = id := fun h => h1 h.symm
  have e2 : ¬ (32 : Int) = id := fun h => h2 h.symm
  have e3 : ¬ (48 : Int) = id := fun h => h3 h.symm
  have e4 : ¬ (64 : Int) = id := fun h => h4 h.symm
  have e5 : ¬ (96 : Int) = id := fun h => h5 h.symm
  have e6 : ¬ (112 : Int) = id := fun h => h6 h.symm
  simp [h1, h2, h3, h4, h5, h6, e1, e2, e3, e4, e5, e6]

/-! ### `mk_timecode` -/

/-- The two characters printed by `%02d` for a value from 0 to 99. -/
theorem fmt_02d_of_lt_100 : ∀ n : Nat, n < 100 →
    fmt_02d (n : Int) = [Nat.digitChar (n / 10), Nat.digitChar (n % 10)] := by
  decide

theorem digitChar_isDigit : ∀ n : Nat, n < 10 → (Nat.digitChar n).isDigit = true := by
  decide

theorem fmt_02d_eq_two_digits (n : Int) (h0 : 0 ≤ n) (h1 : n < 100) :
    fmt_02d n = two_digits n := by
  have h := fmt_02d_of_lt_100 n.toNat (by omega)
  rw [Int.toNat_of_nonneg h0] at h
  exact h

theorem two_digits_isDigit (n : Int) (h1 : n < 100) :
    ∀ c ∈ two_digits n, c.isDigit = true := by
  intro c hc
  simp only [two_digits, List.mem_cons, List.mem_singleton, List.not_mem_nil, or_false] at hc
  rcases hc with rfl | rfl
  · exact digitChar_isDigit _ (by omega)
  · exact digitChar_isDigit _ (by omega)

/-- For a frame number from 0 up to but not including 100 hours, at one of the
five timecode bases, `mk_timecode` returns the timecode made of the two-digit
fields `h`, `m`, `s` and `ff`. -/
theorem mk_timecode_of_nonneg (frame fps : Int)
    (hfps : fps = 24 ∨ fps = 25 ∨ fps = 30 ∨ fps = 50 ∨ fps = 60)
    (h0 : 0 ≤ frame) (hlt : frame < 100 * 3600 * fps) :
    mk_timecode frame fps =
      .ok (String.mk (two_digits (frame / fps / 60 / 60) ++ ':' ::
        two_digits (frame / fps / 60 % 60) ++ ':' ::
        two_digits (frame / fps % 60) ++ ':' :: two_digits (frame % fps))) := by
  have hpos : 0 < fps := by omega
  have e1 : Int.tdiv frame fps = frame / fps := Int.tdiv_eq_ediv h0 (by omega)
  have e2 : Int.tmod frame fps = frame % fps := Int.tmod_eq_emod h0 (by omega)
  have q1 : 0 ≤ frame / fps := Int.ediv_nonneg h0 (by omega)
  have e3 : Int.tdiv (frame / fps) 60 = frame / fps / 60 := Int.tdiv_eq_ediv q1 (by omega)
  have e4 : Int.tmod (frame / fps) 60 = frame / fps % 60 := Int.tmod_eq_emod q1 (by omega)
  have q2 : 0 ≤ frame / fps / 60 := by omega
  have e5 : Int.tdiv (frame / fps / 60) 60 = frame / fps / 60 / 60 :=
    Int.tdiv_eq_ediv q2 (by omega)
  have e6 : Int.tmod (frame / fps / 60) 60 = frame / fps / 60 % 60 :=
    Int.tmod_eq_emod q2 (by omega)
  have hh : frame / fps / 60 / 60 < 100 := by
    rcases hfps with h | h | h | h | h <;> subst h <;> omega
  have hh0 : 0 ≤ frame / fps / 60 / 60 := by omega
  have hff : frame % fps < 100 := by
    have := Int.emod_lt_of_pos frame hpos
    omega
  have hff0 : 0 ≤ frame % fps := Int.emod_nonneg _ (by omega)
  have hnot : ¬ frame / fps / 60 / 60 > 99 := by omega
  simp only [mk_timecode, e1, e2, e3, e4, e5, e6, if_neg hnot]
  rw [fmt_02d_eq_two_digits _ hh0 hh, fmt_02d_eq_two_digits (frame / fps / 60 % 60) (by omega)
    (by omega), fmt_02d_eq_two_digits (frame / fps % 60) (by omega) (by omega),
    fmt_02d_eq_two_digits _ hff0 hff]
  simp [two_digits]

theorem mk_timecode_exit_of_ge (frame fps : Int)
    (hfps : fps = 24 ∨ fps = 25 ∨ fps = 30 ∨ fps = 50 ∨ fps = 60)
    (hge : 100 * 3600 * fps ≤ frame) :
    mk_timecode frame fps = .exit 1 ∧
      Int.tdiv (Int.tdiv (Int.tdiv frame fps) 60) 60 > 99 := by
  have h0 : 0 ≤ frame := by omega
  have e1 : Int.tdiv frame fps = frame / fps := Int.tdiv_eq_ediv h0 (by omega)
  have q1 : 0 ≤ frame / fps := Int.ediv_nonneg h0 (by omega)
  have e3 : Int.tdiv (frame / fps) 60 = frame / fps / 60 := Int.tdiv_eq_ediv q1 (by omega)
  have q2 : 0 ≤ frame / fps / 60 := by omega
  have e5 : Int.tdiv (frame / fps / 60) 60 = frame / fps / 60 / 60 :=
    Int.tdiv_eq_ediv q2 (by omega)
  have hh : frame / fps / 60 / 60 > 99 := by
    rcases hfps with h | h | h | h | h <;> subst h <;> omega
  refine ⟨?_, by rw [e1, e3, e5]; exact hh⟩
  simp only [mk_timecode, e1, e3, e5, if_pos hh]

/-- For a frame number of at least 0 at one of the five timecode bases, a
timecode that `mk_timecode` returns matches
`^[0-9]{2}:[0-9]{2}:[0-9]{2}:[0-9]{2}$`, is made of the two-digit fields
`h ≤ 99`, `m < 60`, `s < 60` and `ff < fps`, and these satisfy
`frame = ((h * 60 + m) * 60 + s) * fps + ff`. -/
theorem mk_timecode_nonneg_format (frame fps : Int)
    (hfps : fps = 24 ∨ fps = 25 ∨ fps = 30 ∨ fps = 50 ∨ fps = 60)
    (h0 : 0 ≤ frame) (tc : String) (hret : mk_timecode frame fps = .ok tc) :
    timecode_pattern tc = true ∧
    ∃ h m s ff : Int, 0 ≤ h ∧ h ≤ 99 ∧ 0 ≤ m ∧ m < 60 ∧ 0 ≤ s ∧ s < 60 ∧ 0 ≤ ff ∧ ff < fps ∧
      tc = String.mk (two_digits h ++ ':' :: two_digits m ++ ':' :: two_digits s ++ ':' ::
        two_digits ff) ∧
      frame = ((h * 60 + m) * 60 + s) * fps + ff := by
  have hpos : 0 < fps := by omega
  by_cases hlt : frame < 100 * 3600 * fps
  · have hok := mk_timecode_of_nonneg frame fps hfps h0 hlt
    rw [hok] at hret
    have htc := (Run.ok.inj hret).symm
    have q1 : 0 ≤ frame / fps := Int.ediv_nonneg h0 (by omega)
    have hh : frame / fps / 60 / 60 < 100 := by
      rcases hfps with h | h | h | h | h <;> subst h <;> omega
    have hff : frame % fps < fps := Int.emod_lt_of_pos frame hpos
    have hff0 : 0 ≤ frame % fps := Int.emod_nonneg _ (by omega)
    constructor
    · rw [htc]
      have d1 := two_digits_isDigit (frame / fps / 60 / 60) hh
      have d2 := two_digits_isDigit (frame / fps / 60 % 60) (by omega)
      have d3 := two_digits_isDigit (frame / fps % 60) (by omega)
      have d4 := two_digits_isDigit (frame % fps) (by omega)
      simp only [two_digits, List.mem_cons, List.mem_singleton, List.not_mem_nil, or_false,
        forall_eq_or_imp, forall_eq] at d1 d2 d3 d4
      simp [timecode_pattern, two_digits, d1.1, d1.2, d2.1, d2.2, d3.1, d3.2, d4.1, d4.2]
    · refine ⟨frame / fps / 60 / 60, frame / fps / 60 % 60, frame / fps % 60, frame % fps,
        by omega, by omega, by omega, by omega, by omega, by omega, hff0, hff, htc, ?_⟩
      have a1 := Int.ediv_add_emod frame fps
      have a2 : frame / fps = (frame / fps / 60 / 60 * 60 + frame / fps / 60 % 60) * 60 +
          frame / fps % 60 := by omega
      calc frame = fps * (frame / fps) + frame % fps := a1.symm
        _ = ((frame / fps / 60 / 60 * 60 + frame / fps / 60 % 60) * 60 + frame / fps % 60) * fps
              + frame % fps := by rw [← a2]; ring
  · have hex := (mk_timecode_exit_of_ge frame fps hfps (by omega)).1
    rw [hex] at hret
    exact absurd hret (by simp)

/-- C12 fails on the code: for frame number -1 at timecode base 24,
`mk_timecode` returns normally, and the string it writes, `00:00:00:-1`, does
not match `^[0-9]{2}:[0-9]{2}:[0-9]{2}:[0-9]{2}$`. -/
theorem mk_timecode_negative_frame_accepted :
    mk_timecode (-1) 24 = .ok "00:00:00:-1" ∧ timecode_pattern "00:00:00:-1" = false := by
  constructor <;> decide

/-- C13: for a frame number of at least 0 at one of the five timecode bases,
`mk_timecode` exits with status 1 exactly when the hours field is above 99,
which is exactly when `frame ≥ 100 * 3600 * fps`; for every smaller frame
number it returns a timecode of 11 characters. -/
theorem mk_timecode_exit_iff_hours_above_99 (frame fps : Int)
    (hfps : fps = 24 ∨ fps = 25 ∨ fps = 30 ∨ fps = 50 ∨ fps = 60) (h0 : 0 ≤ frame) :
    (mk_timecode frame fps = .exit 1 ↔
      Int.tdiv (Int.tdiv (Int.tdiv frame fps) 60) 60 > 99) ∧
    (mk_timecode frame fps = .exit 1 ↔ frame ≥ 100 * 3600 * fps) ∧
    (frame < 100 * 3600 * fps →
      ∃ tc, mk_timecode frame fps = .ok tc ∧ tc.length = 11) := by
  have hsmall : frame < 100 * 3600 * fps →
      ∃ tc, mk_timecode frame fps = .ok tc ∧ tc.length = 11 := by
    intro hlt
    refine ⟨_, mk_timecode_of_nonneg frame fps hfps h0 hlt, ?_⟩
    simp [String.length, two_digits]
  have hiff : mk_timecode frame fps = .exit 1 ↔ frame ≥ 100 * 3600 * fps := by
    constructor
    · intro hex
      by_contra hlt
      obtain ⟨tc, hok, _⟩ := hsmall (by omega)
      rw [hok] at hex
      exact absurd hex (by simp)
    · intro hge
      exact (mk_timecode_exit_of_ge frame fps hfps hge).1
  refine ⟨?_, hiff, hsmall⟩
  constructor
  · intro hex
    exact (mk_timecode_exit_of_ge frame fps hfps (hiff.mp hex)).2
  · intro hh
    unfold mk_timecode
    simp only [if_pos hh]

/-- C13, at frame 8639999 (the last one below 100 hours) and frame 8640000 at
timecode base 24. -/
theorem mk_timecode_exit_iff_hours_above_99_witness :
    (∃ tc, mk_timecode 8639999 24 = .ok tc ∧ tc.length = 11) ∧
    mk_timecode 8640000 24 = .exit 1 :=
  ⟨(mk_timecode_exit_iff_hours_above_99 8639999 24 (by decide) (by decide)).2.2 (by decide),
   (mk_timecode_exit_iff_hours_above_99 8640000 24 (by decide) (by decide)).2.1.mpr
     (by decide)⟩

/-! ### Number of segments -/

theorem full_segments_length (image split_at graphics : Int) (crops : crop_t × crop_t)
    (forced : Int) (k : Nat) : ∀ start : Int,
    (full_segments image split_at graphics crops forced k start).length = k := by
  induction k with
  | zero => intro start; rfl
  | succ k ih => intro start; simp [full_segments, ih]

/-- The quotient and remainder of `d` by `s` when `d = r + k * s` with `r`
below `2 * s`. -/
theorem ediv_emod_of_eq_add_mul (d r s : Int) (k : Nat) (hs : 0 < s) (hd : d = r + k * s)
    (hr0 : 0 ≤ r) (hr2 : r < 2 * s) :
    (r < s → d / s = k ∧ d % s = r) ∧ (s ≤ r → d / s = k + 1 ∧ d % s = r - s) := by
  have hne : s ≠ 0 := by omega
  constructor
  · intro hlt
    subst hd
    rw [Int.add_mul_ediv_right _ _ hne, Int.add_mul_emod_self, Int.ediv_eq_zero_of_lt hr0 hlt,
      Int.emod_eq_of_lt hr0 hlt]
    simp
  · intro hge
    have hd2 : d = (r - s) + ((k : Int) + 1) * s := by rw [hd]; ring
    rw [hd2, Int.add_mul_ediv_right _ _ hne, Int.add_mul_emod_self,
      Int.ediv_eq_zero_of_lt (by omega) (by omega), Int.emod_eq_of_lt (by omega) (by omega)]
    simp

/-- The ceiling of `d / s`, written `(d + s - 1) / s`, from the quotient and
the remainder. -/
theorem ceil_div_eq (d s : Int) (hs : 0 < s) :
    (d + s - 1) / s = d / s + (if d % s = 0 then 0 else 1) := by
  have hne : s ≠ 0 := by omega
  have h1 := Int.ediv_add_emod d s
  have hr0 := Int.emod_nonneg d hne
  have hr1 := Int.emod_lt_of_pos d hs
  have e : d + s - 1 = (d % s + s - 1) + (d / s) * s := by
    have : s * (d / s) = d / s * s := Int.mul_comm _ _
    omega
  rw [e, Int.add_mul_ediv_right _ _ hne]
  by_cases hz : d % s = 0
  · rw [if_pos hz, hz, Int.ediv_eq_zero_of_lt (by omega) (by omega)]
    omega
  · rw [if_neg hz]
    have e2 : d % s + s - 1 = (d % s - 1) + 1 * s := by ring
    rw [e2, Int.add_mul_ediv_right _ _ hne, Int.ediv_eq_zero_of_lt (by omega) (by omega)]
    omega

/-- C11, as stated, fails: with `split_at = 2` and `min_split = 3` the event
from 0 to 6 gives the two segments from 0 to 2 and from 2 to 6, while
`ceil (6 / 2)` is 3 and the remainder `6 mod 2` is zero. -/
theorem add_event_xml_segment_count_counterexample :
    (add_event_xml [] 2 3 0 6 1 (⟨0, 0, 8, 8⟩, ⟨0, 0, 0, 0⟩) 0).bind
      (fun evs => .ok (event_intervals evs)) = .ok [(0, 2), (2, 6)] ∧
    ((6 : Int) - 0 + 2 - 1) / 2 = 3 ∧ ((6 : Int) - 0) % 2 = 0 := by
  refine ⟨by rfl, by decide, by decide⟩

/-- C11, amended: for `split_at > 0`, `1 ≤ min_split ≤ split_at` and an event
with `end_ - start > split_at`, `add_event_xml` returns, and the number of
segments it appends is the ceiling of `(end_ - start) / split_at`, less one
when the remainder `(end_ - start) mod split_at` is nonzero and below
`min_split`. -/
theorem add_event_xml_segment_count (events : event_list_t)
    (split_at min_split start end_ graphics : Int) (crops : crop_t × crop_t) (forced : Int)
    (hs : 0 < split_at) (hm : 1 ≤ min_split) (hms : min_split ≤ split_at)
    (hlen : end_ - start > split_at) :
    ∃ segs : List event_t,
      add_event_xml events split_at min_split start end_ graphics crops forced =
        .ok (events ++ segs) ∧
      (segs.length : Int) = (end_ - start + split_at - 1) / split_at -
        (if (end_ - start) % split_at ≠ 0 ∧ (end_ - start) % split_at < min_split then 1
         else 0) := by
  obtain ⟨k, hk, h1, h2, h3⟩ := add_event_xml_split_spec events split_at min_split start end_
    graphics crops forced hs
  have hpos : 0 < end_ - start - k * split_at := by
    rcases h2 with h0 | h
    · subst h0
      simp
      omega
    · omega
  have hne : end_ - start - k * split_at ≠ 0 := by omega
  rw [if_pos hne, List.append_assoc] at hk
  refine ⟨_, hk, ?_⟩
  rw [List.length_append, full_segments_length, ceil_div_eq _ _ hs]
  have hd : end_ - start = (end_ - start - k * split_at) + k * split_at := by ring
  have hdm := ediv_emod_of_eq_add_mul (end_ - start) (end_ - start - k * split_at) split_at k
    hs hd (by omega) (by omega)
  by_cases hlt : end_ - start - k * split_at < split_at
  · obtain ⟨hq, hr⟩ := hdm.1 hlt
    have hk0 : k ≠ 0 := by
      intro h0
      subst h0
      simp at hlt
      omega
    have hmin : min_split ≤ end_ - start - k * split_at := by
      rcases h2 with h0 | h
      · exact absurd h0 hk0
      · exact h
    rw [hq, hr]
    have c1 : ¬ (end_ - start - k * split_at = 0) := hne
    have c2 : ¬ ((end_ - start - k * split_at ≠ 0) ∧
        end_ - start - k * split_at < min_split) := by
      intro h
      omega
    rw [if_neg c1, if_neg c2]
    simp
  · obtain ⟨hq, hr⟩ := hdm.2 (by omega)
    rw [hq, hr]
    by_cases hz : end_ - start - k * split_at - split_at = 0
    · have c2 : ¬ ((end_ - start - k * split_at - split_at ≠ 0) ∧
          end_ - start - k * split_at - split_at < min_split) := fun h => h.1 hz
      rw [if_pos hz, if_neg c2]
      simp
    · have c2 : (end_ - start - k * split_at - split_at ≠ 0) ∧
          end_ - start - k * split_at - split_at < min_split := ⟨hz, by omega⟩
      rw [if_neg hz, if_pos c2]
      simp

/-- C11 amended, at the events of 100 and of 92 frames with `split_at = 30`
and `min_split = 3`: four segments, and three segments. -/
theorem add_event_xml_segment_count_witness :
    (∃ segs : List event_t,
      add_event_xml [] 30 3 0 100 1 (⟨0, 0, 8, 8⟩, ⟨0, 0, 0, 0⟩) 0 = .ok ([] ++ segs) ∧
      (segs.length : Int) = (100 - 0 + 30 - 1) / 30 -
        (if ((100 : Int) - 0) % 30 ≠ 0 ∧ ((100 : Int) - 0) % 30 < 3 then 1 else 0)) ∧
    (∃ segs : List event_t,
      add_event_xml [] 30 3 0 92 1 (⟨0, 0, 8, 8⟩, ⟨0, 0, 0, 0⟩) 0 = .ok ([] ++ segs) ∧
      (segs.length : Int) = (92 - 0 + 30 - 1) / 30 -
        (if ((92 : Int) - 0) % 30 ≠ 0 ∧ ((92 : Int) - 0) % 30 < 3 then 1 else 0)) :=
  ⟨add_event_xml_segment_count [] 30 3 0 100 1 (⟨0, 0, 8, 8⟩, ⟨0, 0, 0, 0⟩) 0 (by decide)
      (by decide) (by decide) (by decide),
   add_event_xml_segment_count [] 30 3 0 92 1 (⟨0, 0, 8, 8⟩, ⟨0, 0, 0, 0⟩) 0 (by decide)
      (by decide) (by decide) (by decide)⟩

/-! ### The frame range with 32-bit arithmetic -/

theorem wrap_int32_of_range (x : Int) (h0 : -2147483648 ≤ x) (h1 : x < 2147483648) :
    wrap_int32 x = x := by
  unfold wrap_int32
  omega

theorem frame_loop_indices_eq (k : Nat) : ∀ i : Int, -2147483648 ≤ i →
    i + k ≤ 2147483647 →
    frame_loop_indices k i = (List.range k).map (fun (j : Nat) => i + (j : Int)) := by
  induction k with
  | zero => intro i _ _; rfl
  | succ k ih =>
    intro i h0 h1
    push_cast at h1
    rw [frame_loop_indices, wrap_int32_of_range (i + 1) (by omega) (by omega),
      ih (i + 1) (by omega) (by omega), List.range_succ_eq_map]
    simp only [List.map_cons, List.map_map, Nat.cast_zero, add_zero, List.cons.injEq,
      true_and]
    apply List.map_congr_left
    intro j _
    simp only [Function.comp, Nat.cast_succ]
    ring

/-- When `seek + count` does not overflow, the frame loop visits exactly the
indices `f` with `seek ≤ f < min (seek + count) N`, in increasing order. -/
theorem visited_frames32_of_no_overflow (seek count N : Int) (hs : 0 ≤ seek)
    (hc : 0 ≤ count) (hN0 : 0 ≤ N) (hN : N < 2147483648)
    (hsum : seek + count < 2147483648) :
    visited_frames32 seek count N = frames_from_seek seek count N := by
  unfold visited_frames32 clipped_count_frames32 frames_from_seek
  rw [wrap_int32_of_range (count + seek) (by omega) (by omega)]
  by_cases hgt : count + seek > N
  · rw [if_pos hgt, wrap_int32_of_range (N - seek) (by omega) (by omega)]
    by_cases hlt : N - seek < 1
    · simp only [if_pos hlt]
      have : (min (seek + count) N - seek).toNat = 0 := by omega
      rw [this]
      rfl
    · simp only [if_neg hlt]
      rw [wrap_int32_of_range (N - seek + seek) (by omega) (by omega),
        frame_loop_indices_eq _ _ (by omega) (by omega)]
      have : (N - seek + seek - seek).toNat = (min (seek + count) N - seek).toNat := by omega
      rw [this]
  · rw [if_neg hgt]
    by_cases hlt : count < 1
    · simp only [if_pos hlt]
      have : (min (seek + count) N - seek).toNat = 0 := by omega
      rw [this]
      rfl
    · simp only [if_neg hlt]
      rw [wrap_int32_of_range (count + seek) (by omega) (by omega),
        frame_loop_indices_eq _ _ (by omega) (by omega)]
      have : (count + seek - seek).toNat = (min (seek + count) N - seek).toNat := by omega
      rw [this]

/-- C14 fails on the code: for `--seek 1`, the default `--count 2147483647` and
a source of 10 frames, with `int` arithmetic modulo `2^32`, the frame loop
visits no frame at all, while the frames `f` with
`1 ≤ f < min (1 + 2147483647) 10` are the nine frames 1 to 9. -/
theorem visited_frames32_seek_with_default_count :
    visited_frames32 1 2147483647 10 = [] ∧
    frames_from_seek 1 2147483647 10 = [1, 2, 3, 4, 5, 6, 7, 8, 9] := by
  constructor <;> decide

/-! ### `parse_int` and `parse_tc` -/

theorem digits_value_foldl_bounds (ds : List Char) (hd : ∀ c ∈ ds, c_isdigit c = true) :
    ∀ acc : Int, 0 ≤ acc →
      0 ≤ ds.foldl (fun acc c => acc * 10 + ((c.toNat : Int) - 48)) acc ∧
      ds.foldl (fun acc c => acc * 10 + ((c.toNat : Int) - 48)) acc <
        (acc + 1) * 10 ^ ds.length := by
  induction ds with
  | nil => intro acc h; simp; exact h
  | cons c ds ih =>
    intro acc h
    have hc := hd c (List.mem_cons_self _ _)
    simp only [c_isdigit, Bool.and_eq_true, decide_eq_true_eq] at hc
    have h1 : 0 ≤ acc * 10 + ((c.toNat : Int) - 48) := by omega
    obtain ⟨i1, i2⟩ := ih (fun x hx => hd x (List.mem_cons_of_mem _ hx)) _ h1
    refine ⟨i1, lt_of_lt_of_le i2 ?_⟩
    rw [List.length_cons, pow_succ]
    have hp : (0 : Int) ≤ 10 ^ ds.length := by positivity
    have hle : acc * 10 + ((c.toNat : Int) - 48) + 1 ≤ (acc + 1) * 10 := by omega
    calc (acc * 10 + ((c.toNat : Int) - 48) + 1) * 10 ^ ds.length
        ≤ ((acc + 1) * 10) * 10 ^ ds.length := Int.mul_le_mul_of_nonneg_right hle hp
      _ = (acc + 1) * (10 ^ ds.length * 10) := by ring

theorem scan_integer_value (s : List Char) :
    ∃ ds : List Char, (∀ c ∈ ds, c_isdigit c = true) ∧ ds.length ≤ s.length ∧
      ((scan_integer s).1 = digits_value ds ∨ (scan_integer s).1 = - digits_value ds) := by
  have hs1 : (s.dropWhile c_isspace).length ≤ s.length :=
    (List.dropWhile_sublist _).length_le
  have key : ∀ s2 : List Char, s2.length ≤ s.length →
      ∀ (neg : Prop) [Decidable neg] (n : Nat),
      ∃ ds : List Char, (∀ c ∈ ds, c_isdigit c = true) ∧ ds.length ≤ s.length ∧
        ((if s2.takeWhile c_isdigit = [] then ((0 : Int), 0)
          else (if neg then - digits_value (s2.takeWhile c_isdigit)
                else digits_value (s2.takeWhile c_isdigit), n)).1 =
            digits_value ds ∨
         (if s2.takeWhile c_isdigit = [] then ((0 : Int), 0)
          else (if neg then - digits_value (s2.takeWhile c_isdigit)
                else digits_value (s2.takeWhile c_isdigit), n)).1 =
            - digits_value ds) := by
    intro s2 hs2 neg _ n
    refine ⟨s2.takeWhile c_isdigit, fun c hc => List.mem_takeWhile_imp hc,
      le_trans (List.takeWhile_sublist c_isdigit).length_le hs2, ?_⟩
    by_cases hds : s2.takeWhile c_isdigit = []
    · left
      simp [hds, digits_value]
    · by_cases hneg : neg
      · right
        simp [hds, hneg]
      · left
        simp [hds, hneg]
  unfold scan_integer
  by_cases hsign : (s.dropWhile c_isspace).head? = some '-' ∨
      (s.dropWhile c_isspace).head? = some '+'
  · simp only [if_pos hsign]
    exact key _ (by rw [List.length_tail]; omega) _ _
  · simp only [if_neg hsign]
    exact key _ hs1 _ _

/-- A string of at most two characters writes a number from -99 to 99. -/
theorem scan_integer_two_chars (s : List Char) (hlen : s.length ≤ 2) :
    -99 ≤ (scan_integer s).1 ∧ (scan_integer s).1 ≤ 99 := by
  obtain ⟨ds, hd, hl, hv⟩ := scan_integer_value s
  have hb := digits_value_foldl_bounds ds hd 0 (le_refl _)
  have hpow : (10 : Int) ^ ds.length ≤ 10 ^ 2 :=
    pow_le_pow_right₀ (by norm_num) (le_trans hl hlen)
  have h0 : 0 ≤ digits_value ds := hb.1
  have h1 : digits_value ds < 100 := by
    have := hb.2
    simp only [zero_add, one_mul] at this
    unfold digits_value
    omega
  rcases hv with h | h <;> omega

/-- What `parse_int` does in terms of `whole_integer`: a string that is an
integer as a whole gives its value (low 32 bits) without error, any other
string is an error, which exits when a name is given. -/
theorem parse_int_eq (long_bits : Nat) (s : List Char) (name : Option String) :
    (∀ n, whole_integer long_bits s = some n →
      parse_int long_bits s name = .ok (wrap_int32 n, 0)) ∧
    (whole_integer long_bits s = none →
      (∀ msg, name = some msg → parse_int long_bits s name = .exit 1) ∧
      (name = none → ∃ r, parse_int long_bits s name = .ok (r, 1))) := by
  unfold whole_integer parse_int strtol10
  by_cases hbig : (scan_integer s).1 > 2 ^ (long_bits - 1) - 1
  · have c : ¬ ((scan_integer s).2 ≠ 0 ∧ (scan_integer s).2 = s.length ∧
        - 2 ^ (long_bits - 1) ≤ (scan_integer s).1 ∧
        (scan_integer s).1 ≤ 2 ^ (long_bits - 1) - 1) := fun h => by omega
    simp only [if_pos hbig, if_neg c]
    refine ⟨fun n h => by simp at h, fun _ => ⟨fun msg h => by simp [h], fun h => ?_⟩⟩
    subst h
    simp
  · by_cases hsmall : (scan_integer s).1 < - 2 ^ (long_bits - 1)
    · have c : ¬ ((scan_integer s).2 ≠ 0 ∧ (scan_integer s).2 = s.length ∧
          - 2 ^ (long_bits - 1) ≤ (scan_integer s).1 ∧
          (scan_integer s).1 ≤ 2 ^ (long_bits - 1) - 1) := fun h => by omega
      simp only [if_neg hbig, if_pos hsmall, if_neg c]
      refine ⟨fun n h => by simp at h, fun _ => ⟨fun msg h => by simp [h], fun h => ?_⟩⟩
      subst h
      simp
    · simp only [if_neg hbig, if_neg hsmall]
      by_cases hw : (scan_integer s).2 ≠ 0 ∧ (scan_integer s).2 = s.length
      · have c : (scan_integer s).2 ≠ 0 ∧ (scan_integer s).2 = s.length ∧
            - 2 ^ (long_bits - 1) ≤ (scan_integer s).1 ∧
            (scan_integer s).1 ≤ 2 ^ (long_bits - 1) - 1 := ⟨hw.1, hw.2, by omega, by omega⟩
        have c2 : ¬ (false = true ∨ (scan_integer s).2 = 0 ∨ (scan_integer s).2 ≠ s.length) := by
          intro h
          rcases h with h | h | h
          · exact Bool.noConfusion h
          · exact hw.1 h
          · exact h hw.2
        simp only [if_pos c, if_neg c2]
        refine ⟨fun n h => ?_, fun h => by simp at h⟩
        simp only [Option.some.injEq] at h
        rw [h]
      · have c : ¬ ((scan_integer s).2 ≠ 0 ∧ (scan_integer s).2 = s.length ∧
            - 2 ^ (long_bits - 1) ≤ (scan_integer s).1 ∧
            (scan_integer s).1 ≤ 2 ^ (long_bits - 1) - 1) := fun h => hw ⟨h.1, h.2.1⟩
        have c2 : false = true ∨ (scan_integer s).2 = 0 ∨ (scan_integer s).2 ≠ s.length := by
          by_cases h0 : (scan_integer s).2 = 0
          · exact Or.inr (Or.inl h0)
          · exact Or.inr (Or.inr (fun h => hw ⟨h0, h⟩))
        simp only [if_neg c, if_pos c2]
        refine ⟨fun n h => by simp at h, fun _ => ⟨fun msg h => by simp [h], fun h => ?_⟩⟩
        subst h
        simp

theorem whole_integer_two_chars (long_bits : Nat) (s : List Char) (n : Int)
    (hlen : s.length ≤ 2) (h : whole_integer long_bits s = some n) : wrap_int32 n = n := by
  have hb := scan_integer_two_chars s hlen
  unfold whole_integer at h
  split at h
  · simp only [Option.some.injEq] at h
    rw [← h]
    exact wrap_int32_of_range _ (by omega) (by omega)
  · simp at h

theorem parse_int_named (long_bits : Nat) (s : List Char) (msg : String) :
    (∀ n, whole_integer long_bits s = some n →
      parse_int long_bits s (some msg) = .ok (wrap_int32 n, 0)) ∧
    (whole_integer long_bits s = none → parse_int long_bits s (some msg) = .exit 1) :=
  ⟨(parse_int_eq long_bits s (some msg)).1,
   fun h => ((parse_int_eq long_bits s (some msg)).2 h).1 msg rfl⟩

/-- C19, as stated, fails: the strings `99999999999999999999` and, for a
32-bit `long`, `2147483648` are decimal integers as a whole, and `parse_tc`
exits with status 1 on them instead of returning the number. -/
theorem parse_tc_out_of_range_counterexample :
    scan_integer "99999999999999999999".toList = (99999999999999999999, 20) ∧
    parse_tc 64 "99999999999999999999".toList 24 = .exit 1 ∧
    parse_tc 32 "99999999999999999999".toList 24 = .exit 1 ∧
    scan_integer "2147483648".toList = (2147483648, 10) ∧
    parse_tc 32 "2147483648".toList 24 = .exit 1 := by
  refine ⟨by decide, by decide, by decide, by decide, by decide⟩

/-- C19, amended: for every `fps` and every width of `long`: if the whole input
string is a decimal integer `n` for `strtol` (optional white space, optional
sign, digits, nothing after) within the range of `long` and of `int`,
`parse_tc` returns `n`; if the whole string is not such an integer within the
range of `long`, has exactly 11 characters with `:` at positions 2, 5 and 8,
and its four two-character fields are integers `h`, `m`, `s`, `f` in the same
sense, it returns `f + s * fps + m * 60 * fps + h * 3600 * fps`; every other
string that is not as a whole an integer within the range of `long` makes it
exit with status 1. -/
theorem parse_tc_cases (long_bits : Nat) (in_ : List Char) (fps : Int) :
    (∀ n, whole_integer long_bits in_ = some n → -2147483648 ≤ n → n ≤ 2147483647 →
      parse_tc long_bits in_ fps = .ok n) ∧
    (whole_integer long_bits in_ = none → in_.length = 11 → in_.get? 2 = some ':' →
      in_.get? 5 = some ':' → in_.get? 8 = some ':' →
      ∀ h m s f : Int, whole_integer long_bits (in_.take 2) = some h →
        whole_integer long_bits ((in_.drop 3).take 2) = some m →
        whole_integer long_bits ((in_.drop 6).take 2) = some s →
        whole_integer long_bits (in_.drop 9) = some f →
        parse_tc long_bits in_ fps = .ok (f + s * fps + m * 60 * fps + h * 3600 * fps)) ∧
    (whole_integer long_bits in_ = none →
      ¬ (in_.length = 11 ∧ in_.get? 2 = some ':' ∧ in_.get? 5 = some ':' ∧
          in_.get? 8 = some ':' ∧
          (whole_integer long_bits (in_.take 2)).isSome = true ∧
          (whole_integer long_bits ((in_.drop 3).take 2)).isSome = true ∧
          (whole_integer long_bits ((in_.drop 6).take 2)).isSome = true ∧
          (whole_integer long_bits (in_.drop 9)).isSome = true) →
      parse_tc long_bits in_ fps = .exit 1) := by
  refine ⟨?_, ?_, ?_⟩
  · intro n hn h0 h1
    have hp := (parse_int_eq long_bits in_ none).1 n hn
    simp only [parse_tc, hp, Run.bind, if_true]
    rw [wrap_int32_of_range n (by omega) (by omega)]
  · intro hnone hlen c2 c5 c8 h m s f hh hm hs hf
    obtain ⟨r, hp⟩ := ((parse_int_eq long_bits in_ none).2 hnone).2 rfl
    have hshape : ¬ (in_.length ≠ 2 * 4 + 3 ∨ in_.get? 2 ≠ some ':' ∨ in_.get? 5 ≠ some ':' ∨
        in_.get? 8 ≠ some ':') := by
      intro hor
      rcases hor with h | h | h | h
      · exact h hlen
      · exact h c2
      · exact h c5
      · exact h c8
    have lh : (in_.take 2).length ≤ 2 := by simp
    have lm : ((in_.drop 3).take 2).length ≤ 2 := by simp
    have ls : ((in_.drop 6).take 2).length ≤ 2 := by simp
    have lf : (in_.drop 9).length ≤ 2 := by simp [hlen]
    have e1 : (1 : Int) ≠ 0 := by decide
    simp only [parse_tc, hp, Run.bind, if_neg e1, if_neg hshape,
      (parse_int_named long_bits _ _).1 h hh, (parse_int_named long_bits _ _).1 m hm,
      (parse_int_named long_bits _ _).1 s hs, (parse_int_named long_bits _ _).1 f hf,
      whole_integer_two_chars long_bits _ h lh hh, whole_integer_two_chars long_bits _ m lm hm,
      whole_integer_two_chars long_bits _ s ls hs, whole_integer_two_chars long_bits _ f lf hf]
    congr 1
    ring
  · intro hnone hnot
    obtain ⟨r, hp⟩ := ((parse_int_eq long_bits in_ none).2 hnone).2 rfl
    have e1 : (1 : Int) ≠ 0 := by decide
    simp only [parse_tc, hp, Run.bind, if_neg e1]
    by_cases hshape : in_.length ≠ 2 * 4 + 3 ∨ in_.get? 2 ≠ some ':' ∨ in_.get? 5 ≠ some ':' ∨
        in_.get? 8 ≠ some ':'
    · rw [if_pos hshape]
    · rw [if_neg hshape]
      have hs4 : in_.length = 11 ∧ in_.get? 2 = some ':' ∧ in_.get? 5 = some ':' ∧
          in_.get? 8 = some ':' := by
        refine ⟨?_, ?_, ?_, ?_⟩ <;> by_contra hc
        · exact hshape (Or.inl hc)
        · exact hshape (Or.inr (Or.inl hc))
        · exact hshape (Or.inr (Or.inr (Or.inl hc)))
        · exact hshape (Or.inr (Or.inr (Or.inr hc)))
      cases hh : whole_integer long_bits (in_.take 2) with
      | none => simp only [(parse_int_named long_bits _ _).2 hh]
      | some h =>
        simp only [(parse_int_named long_bits _ _).1 h hh]
        cases hm : whole_integer long_bits ((in_.drop 3).take 2) with
        | none => simp only [(parse_int_named long_bits _ _).2 hm]
        | some m =>
          simp only [(parse_int_named long_bits _ _).1 m hm]
          cases hs : whole_integer long_bits ((in_.drop 6).take 2) with
          | none => simp only [(parse_int_named long_bits _ _).2 hs]
          | some s =>
            simp only [(parse_int_named long_bits _ _).1 s hs]
            cases hf : whole_integer long_bits (in_.drop 9) with
            | none => simp only [(parse_int_named long_bits _ _).2 hf]
            | some f =>
              exfalso
              apply hnot
              refine ⟨hs4.1, hs4.2.1, hs4.2.2.1, hs4.2.2.2, ?_, ?_, ?_, ?_⟩ <;>
                simp [hh, hm, hs, hf]

/-- C19 amended, at the strings `120`, `01:02:03:04` and `01:02:03:0a` with
timecode base 24 and a 64-bit `long`. -/
theorem parse_tc_cases_witness :
    parse_tc 64 "120".toList 24 = .ok 120 ∧
    parse_tc 64 "01:02:03:04".toList 24 = .ok (4 + 3 * 24 + 2 * 60 * 24 + 1 * 3600 * 24) ∧
    parse_tc 64 "01:02:03:0a".toList 24 = .exit 1 :=
  ⟨(parse_tc_cases 64 "120".toList 24).1 120 (by decide) (by decide) (by decide),
   (parse_tc_cases 64 "01:02:03:04".toList 24).2.1 (by decide) (by decide) (by decide)
     (by decide) (by decide) 1 2 3 4 (by decide) (by decide) (by decide) (by decide),
   (parse_tc_cases 64 "01:02:03:0a".toList 24).2.2 (by decide) (by decide)⟩

/-! ### `read_sup` -/

theorem safe_read_ok (size : Nat) (fh : sup_file) (r : List Byte × sup_file)
    (h : safe_read size fh = .ok r) :
    r.1 = fh.rest.take size ∧ r.1.length = size ∧ r.2 = { fh with pos := fh.pos + size } := by
  unfold safe_read sup_fread at h
  simp only at h
  split at h
  · simp at h
  · rename_i hlen
    simp only [Run.ok.injEq] at h
    have hl : (List.take size (List.drop fh.pos fh.data)).length = size := by
      by_contra hc
      exact hlen hc
    rw [← h]
    refine ⟨rfl, hl, ?_⟩
    simp only [hl]

theorem safe_read_short (size : Nat) (fh : sup_file) (h : fh.rest.length < size) :
    safe_read size fh = .exit 1 := by
  unfold safe_read sup_fread
  have : (List.take size (List.drop fh.pos fh.data)).length ≠ size := by
    unfold sup_file.rest at h
    rw [List.length_take]
    omega
  simp only [if_pos this]

/-- C18: `read_sup` reads a header of 13 bytes and exits with status 1 whenever
fewer than 13 bytes are left, or the first two bytes are not `P`, `G`, or the
type byte is not one of `0x14`, `0x15`, `0x16`, `0x17`, `0x80`, or the packet is
an END packet with nonzero length, or a PCS packet whose length is not 11, 19
or 27; so every packet on which `read_sup` returns has passed all these
checks. -/
theorem read_sup_rejects_bad_header (fh : sup_file) :
    (¬ (13 ≤ fh.rest.length ∧ header_checks (conv_sup_header (fh.rest.take 13))) →
      read_sup fh = .exit 1) ∧
    (∀ fh1, read_sup fh = .ok fh1 →
      13 ≤ fh.rest.length ∧ header_checks (conv_sup_header (fh.rest.take 13))) := by
  have hrej : ¬ (13 ≤ fh.rest.length ∧ header_checks (conv_sup_header (fh.rest.take 13))) →
      read_sup fh = .exit 1 := by
    intro hbad
    by_cases hlen : 13 ≤ fh.rest.length
    · have hc : ¬ header_checks (conv_sup_header (fh.rest.take 13)) := fun h => hbad ⟨hlen, h⟩
      cases hr : safe_read 13 fh with
      | exit code =>
        unfold safe_read at hr
        simp only at hr
        split at hr
        · simp only [Run.exit.injEq] at hr
          simp [read_sup, safe_read, Run.bind, *]
        · simp at hr
      | hang =>
        unfold safe_read at hr
        simp only at hr
        split at hr <;> simp at hr
      | ok r =>
        obtain ⟨h1, _, _⟩ := safe_read_ok 13 fh r hr
        simp only [read_sup, hr, Run.bind, h1]
        unfold header_checks at hc
        by_cases hm : (conv_sup_header (fh.rest.take 13)).m1 ≠ 80 ∨
            (conv_sup_header (fh.rest.take 13)).m2 ≠ 71
        · rw [if_pos hm]
        · rw [if_neg hm]
          have hm1 : (conv_sup_header (fh.rest.take 13)).m1 = 80 := by
            by_contra h; exact hm (Or.inl h)
          have hm2 : (conv_sup_header (fh.rest.take 13)).m2 = 71 := by
            by_contra h; exact hm (Or.inr h)
          by_cases t14 : (conv_sup_header (fh.rest.take 13)).packet_type = 0x14
          · exact absurd ⟨hm1, hm2, Or.inl t14, fun h => by omega, fun h => by omega⟩ hc
          by_cases t15 : (conv_sup_header (fh.rest.take 13)).packet_type = 0x15
          · exact absurd ⟨hm1, hm2, Or.inr (Or.inl t15), fun h => by omega,
              fun h => by omega⟩ hc
          by_cases t17 : (conv_sup_header (fh.rest.take 13)).packet_type = 0x17
          · exact absurd ⟨hm1, hm2, Or.inr (Or.inr (Or.inr (Or.inl t17))), fun h => by omega,
              fun h => by omega⟩ hc
          by_cases t16 : (conv_sup_header (fh.rest.take 13)).packet_type = 0x16
          · rw [if_neg t14, if_neg t15, if_pos t16]
            by_cases l11 : (conv_sup_header (fh.rest.take 13)).packet_len = 11
            · exact absurd ⟨hm1, hm2, Or.inr (Or.inr (Or.inl t16)), fun h => by omega,
                fun _ => Or.inl l11⟩ hc
            by_cases l19 : (conv_sup_header (fh.rest.take 13)).packet_len = 19 ∨
                (conv_sup_header (fh.rest.take 13)).packet_len = 27
            · exact absurd ⟨hm1, hm2, Or.inr (Or.inr (Or.inl t16)), fun h => by omega,
                fun _ => Or.inr l19⟩ hc
            rw [if_neg l11, if_neg l19]
          by_cases t80 : (conv_sup_header (fh.rest.take 13)).packet_type = 0x80
          · rw [if_neg t14, if_neg t15, if_neg t16, if_neg t17, if_pos t80]
            by_cases l0 : (conv_sup_header (fh.rest.take 13)).packet_len = 0
            · exact absurd ⟨hm1, hm2, Or.inr (Or.inr (Or.inr (Or.inr t80))), fun _ => l0,
                fun h => by omega⟩ hc
            rw [if_neg l0]
          rw [if_neg t14, if_neg t15, if_neg t16, if_neg t17, if_neg t80]
    · simp only [read_sup, safe_read_short 13 fh (by omega), Run.bind]
  refine ⟨hrej, fun fh1 hok => ?_⟩
  by_contra hbad
  rw [hrej hbad] at hok
  exact absurd hok (by simp)

/-- C18, at a file holding an END packet: accepted as it is, and rejected with
the magic changed, the type changed, or a payload byte announced. -/
theorem read_sup_rejects_bad_header_witness :
    read_sup ⟨end_packet, 0⟩ = .ok ⟨end_packet, 13⟩ ∧
    read_sup ⟨end_packet.set 0 81, 0⟩ = .exit 1 ∧
    read_sup ⟨end_packet.set 10 0x18, 0⟩ = .exit 1 ∧
    read_sup ⟨end_packet_with_payload, 0⟩ = .exit 1 :=
  ⟨by decide,
   (read_sup_rejects_bad_header ⟨end_packet.set 0 81, 0⟩).1 (by decide),
   (read_sup_rejects_bad_header ⟨end_packet.set 10 0x18, 0⟩).1 (by decide),
   (read_sup_rejects_bad_header ⟨end_packet_with_payload, 0⟩).1 (by decide)⟩

/-! ### Invariants of the frame loop -/

theorem close_line_ok (o : options_t) (st st1 : main_state) (end_ : Int)
    (h : close_line o st end_ = .ok st1) :
    ∃ (calls : List sup_call) (events : event_list_t),
      st1 = { st with sup_calls := calls, events := events } ∧
      ((o.xml_output ≠ 0 ∧
          add_event_xml st.events o.split_at o.min_split (st.start_frame + o.t_offset) end_
            st.n_crop st.crops o.mark_forced = .ok events) ∨
        (o.xml_output = 0 ∧ events = st.events)) := by
  unfold close_line at h
  cases hc : (if o.sup_output ≠ 0 then
      write_sup_wrapper st.sup_calls st.n_crop st.crops (st.start_frame + o.t_offset) end_
        o.split_at o.min_split o.stricter o.mark_forced
    else Run.ok st.sup_calls) with
  | exit code => rw [hc] at h; simp [Run.bind] at h
  | hang => rw [hc] at h; simp [Run.bind] at h
  | ok calls =>
    rw [hc] at h
    simp only [Run.bind] at h
    by_cases hx : o.xml_output ≠ 0
    · rw [if_pos hx] at h
      cases he : add_event_xml st.events o.split_at o.min_split (st.start_frame + o.t_offset)
          end_ st.n_crop st.crops o.mark_forced with
      | exit code => rw [he] at h; simp at h
      | hang => rw [he] at h; simp at h
      | ok events =>
        rw [he] at h
        simp only [Run.ok.injEq] at h
        exact ⟨calls, events, h.symm, Or.inl ⟨hx, rfl⟩⟩
    · rw [if_neg hx] at h
      simp only [Run.ok.injEq] at h
      exact ⟨calls, st.events, h.symm, Or.inr ⟨by simpa using hx, rfl⟩⟩

theorem ite_ok_cases {α : Type} (c : Prop) [Decidable c] (a b x : α)
    (h : (if c then Run.ok a else Run.ok b) = Run.ok x) : x = a ∨ x = b := by
  by_cases hc : c
  · rw [if_pos hc] at h
    exact Or.inl (Run.ok.inj h).symm
  · rw [if_neg hc] at h
    exact Or.inr (Run.ok.inj h).symm

/-- The shapes of the state after a round of the frame loop: unchanged (a
`continue` before the line handling), or, with `st2` the state after the end
of the open line if there was one, `st2` with `must_zero` set (a `continue` on
an empty frame) or the start of a line from `st2`. -/
theorem frame_step_cases (o : options_t) (ext : externals) (prims : primitives)
    (s_info : stream_info_t) (avis_hnd : avis_input_t) (st st' : main_state) (i : Int)
    (h : frame_step o ext prims s_info avis_hnd st i = .ok st') :
    st' = st ∨
    ∃ st2 : main_state,
      ((st.have_line = 0 ∧ st2 = st) ∨
        (st.have_line ≠ 0 ∧ ∃ st1, close_line o st (i + o.t_offset) = .ok st1 ∧
          st2 = { st1 with end_frame := i, have_line := 0 })) ∧
      ((∃ mz, st' = { st2 with must_zero := mz }) ∨
        (∃ img, st' = start_line o ext prims s_info st2 i img)) := by
  unfold frame_step at h
  cases hr : read_frame_avis avis_hnd i with
  | none => rw [hr] at h; simp at h
  | some in_img =>
    rw [hr] at h
    simp only at h
    by_cases h1 : st.have_line = 0 ∧ prims.is_empty s_info in_img ≠ 0
    · rw [if_pos h1] at h
      left
      exact (Run.ok.inj h).symm
    · rw [if_neg h1] at h
      generalize (if i ≠ o.init_frame ∧ st.have_line ≠ 0 then
          prims.is_identical s_info in_img st.old_img else (0, in_img)) = cmp at h
      by_cases h2 : cmp.1 ≠ 0
      · rw [if_pos h2] at h
        left
        exact (Run.ok.inj h).symm
      · rw [if_neg h2] at h
        right
        by_cases hl : st.have_line ≠ 0
        · rw [if_pos hl] at h
          cases hc : close_line o st (i + o.t_offset) with
          | exit code => rw [hc] at h; simp [Run.bind] at h
          | hang => rw [hc] at h; simp [Run.bind] at h
          | ok st1 =>
            rw [hc] at h
            simp only [Run.bind] at h
            refine ⟨{ st1 with end_frame := i, have_line := 0 }, Or.inr ⟨hl, st1, rfl, rfl⟩, ?_⟩
            rcases ite_ok_cases _ _ _ _ h with e | e
            · exact Or.inl ⟨_, e⟩
            · exact Or.inr ⟨_, e⟩
        · rw [if_neg hl] at h
          simp only [Run.bind] at h
          refine ⟨st, Or.inl ⟨by simpa using hl, rfl⟩, ?_⟩
          rcases ite_ok_cases _ _ _ _ h with e | e
          · exact Or.inl ⟨_, e⟩
          · exact Or.inr ⟨_, e⟩

/-- A property of the loop counter and the locals that every round of the
frame loop keeps holds after the loop when it held before. -/
theorem process_frames_invariant (o : options_t) (ext : externals) (prims : primitives)
    (s_info : stream_info_t) (avis_hnd : avis_input_t) (P : Int → main_state → Prop)
    (hstep : ∀ (i : Int) (st st' : main_state), P i st →
      frame_step o ext prims s_info avis_hnd st i = .ok st' → P (i + 1) st')
    (k : Nat) : ∀ (i : Int) (st st' : main_state), P i st →
      process_frames o ext prims s_info avis_hnd k i st = .ok st' → P (i + k) st' := by
  induction k with
  | zero =>
    intro i st st' hP h
    simp only [process_frames, Run.ok.injEq] at h
    rw [← h]
    simpa using hP
  | succ k ih =>
    intro i st st' hP h
    rw [process_frames] at h
    cases hs : frame_step o ext prims s_info avis_hnd st i with
    | exit code => rw [hs] at h; simp [Run.bind] at h
    | hang => rw [hs] at h; simp [Run.bind] at h
    | ok st1 =>
      rw [hs] at h
      simp only [Run.bind] at h
      have := ih (i + 1) st1 st' (hstep i st st1 hP hs) h
      have e : i + ((k + 1 : Nat) : Int) = i + 1 + (k : Int) := by push_cast; ring
      rw [e]
      exact this

theorem int_range_eq_map (l : List Nat) :
    (do let a ← l; pure (a : Int) : List Int) = l.map (fun (a : Nat) => (a : Int)) := by
  induction l with
  | nil => rfl
  | cons a l ih =>
    simp only [List.bind_eq_flatMap, List.pure_def, List.flatMap_cons, List.map_cons,
      List.singleton_append, List.cons.injEq, true_and] at ih ⊢
    exact ih

theorem add_event_xml_loop_fields (image split_at min_split graphics : Int)
    (crops : crop_t × crop_t) (forced : Int) (fuel : Nat) :
    ∀ (events : event_list_t) (d start : Int) (r : event_list_t × Int × Int),
      add_event_xml_loop image split_at min_split graphics crops forced fuel events d start =
        some r →
      ∀ e ∈ r.1, e ∈ events ∨ (e.image_number = image ∧ e.graphics = graphics ∧
        e.forced = forced ∧ e.c0 = crops.1 ∧ e.c1 = crops.2) := by
  induction fuel with
  | zero =>
    intro events d start r h e he
    by_cases hge : d ≥ split_at + min_split
    · simp [add_event_xml_loop, hge] at h
    · simp only [add_event_xml_loop, if_neg hge, Option.some.injEq] at h
      rw [← h] at he
      exact Or.inl he
  | succ fuel ih =>
    intro events d start r h e he
    by_cases hge : d ≥ split_at + min_split
    · rw [add_event_xml_loop, if_pos hge] at h
      rcases ih _ _ _ r h e he with hm | hf
      · simp only [add_event_xml_real, event_list_insert_after, List.mem_append,
          List.mem_singleton] at hm
        rcases hm with hm | rfl
        · exact Or.inl hm
        · exact Or.inr ⟨rfl, rfl, rfl, rfl, rfl⟩
      · exact Or.inr hf
    · simp only [add_event_xml_loop, if_neg hge, Option.some.injEq] at h
      rw [← h] at he
      exact Or.inl he

/-- Every event that `add_event_xml` appends carries the start of the whole
event as `image_number`, and the graphics count, the forced flag and the two
crops it was called with. -/
theorem add_event_xml_fields (events evs : event_list_t)
    (split_at min_split start end_ graphics : Int) (crops : crop_t × crop_t) (forced : Int)
    (h : add_event_xml events split_at min_split start end_ graphics crops forced = .ok evs) :
    ∀ e ∈ evs, e ∈ events ∨ (e.image_number = start ∧ e.graphics = graphics ∧
      e.forced = forced ∧ e.c0 = crops.1 ∧ e.c1 = crops.2) := by
  unfold add_event_xml at h
  simp only at h
  by_cases h0 : split_at = 0
  · rw [if_pos h0] at h
    intro e he
    rw [← Run.ok.inj h] at he
    simp only [add_event_xml_real, event_list_insert_after, List.mem_append,
      List.mem_singleton] at he
    rcases he with he | rfl
    · exact Or.inl he
    · exact Or.inr ⟨rfl, rfl, rfl, rfl, rfl⟩
  · rw [if_neg h0] at h
    cases hl : add_event_xml_loop start split_at min_split graphics crops forced
        (split_rounds split_at min_split (end_ - start)) events (end_ - start) start with
    | none => rw [hl] at h; simp at h
    | some r =>
      rw [hl] at h
      have hf := add_event_xml_loop_fields _ _ _ _ _ _ _ _ _ _ r hl
      obtain ⟨evs1, d1, s1⟩ := r
      simp only at h
      intro e he
      by_cases hd : d1 ≠ 0
      · rw [if_pos hd] at h
        rw [← Run.ok.inj h] at he
        simp only [add_event_xml_real, event_list_insert_after, List.mem_append,
          List.mem_singleton] at he
        rcases he with he | rfl
        · exact hf e he
        · exact Or.inr ⟨rfl, rfl, rfl, rfl, rfl⟩
      · rw [if_neg hd] at h
        rw [← Run.ok.inj h] at he
        exact hf e he

theorem close_line_pngs_written (o : options_t) (st st1 : main_state) (end_ : Int)
    (hP : pngs_written o st) (hl : st.have_line ≠ 0)
    (hcl : close_line o st end_ = .ok st1) :
    (∀ e ∈ st1.events, ∀ j : Nat, j < e.graphics.toNat →
      (e.image_number - o.t_offset, (j : Int)) ∈ st1.pngs) ∧ st1.pngs = st.pngs := by
  obtain ⟨calls, events, e1, hev⟩ := close_line_ok o st st1 end_ hcl
  subst e1
  refine ⟨?_, rfl⟩
  intro e he j hj
  show (e.image_number - o.t_offset, (j : Int)) ∈ st.pngs
  have he' : e ∈ events := he
  rcases hev with ⟨hx, hadd⟩ | ⟨_, heq⟩
  · rcases add_event_xml_fields _ _ _ _ _ _ _ _ _ hadd e he' with hold | hnew
    · exact hP.1 e hold j hj
    · have e1 : e.image_number - o.t_offset = st.start_frame := by
        rw [hnew.1]; ring
      rw [e1]
      rw [hnew.2.1] at hj
      exact hP.2 hl hx j hj
  · rw [heq] at he'
    exact hP.1 e he' j hj

theorem process_frames_pngs_written (o : options_t) (ext : externals) (prims : primitives)
    (s_info : stream_info_t) (avis_hnd : avis_input_t) (k : Nat) (st : main_state)
    (h : process_frames o ext prims s_info avis_hnd k o.init_frame (main_init ext s_info) =
      .ok st) : pngs_written o st := by
  refine process_frames_invariant o ext prims s_info avis_hnd (fun _ st => pngs_written o st)
    ?_ k o.init_frame (main_init ext s_info) st ?_ h
  · intro i st st' hP hstep
    rcases frame_step_cases o ext prims s_info avis_hnd st st' i hstep with e | ⟨st2, hc, hn⟩
    · subst e
      exact hP
    · have hst2 : st2.have_line = 0 ∧ ∀ e ∈ st2.events, ∀ j : Nat, j < e.graphics.toNat →
          (e.image_number - o.t_offset, (j : Int)) ∈ st2.pngs := by
        rcases hc with ⟨hl, e⟩ | ⟨hl, st1, hcl, e⟩
        · subst e
          exact ⟨hl, hP.1⟩
        · subst e
          exact ⟨rfl, (close_line_pngs_written o st st1 _ hP hl hcl).1⟩
      rcases hn with ⟨mz, e⟩ | ⟨img, e⟩
      · subst e
        exact ⟨hst2.2, fun hl => absurd hst2.1 hl⟩
      · subst e
        constructor
        · intro e he j hj
          have := hst2.2 e he j hj
          by_cases hx : o.xml_output ≠ 0
          · simp only [start_line, if_pos hx]
            exact List.mem_append_left _ this
          · simp only [start_line, if_neg hx]
            exact this
        · intro _ hx j hj
          simp only [start_line, if_pos hx, int_range_eq_map] at hj ⊢
          apply List.mem_append_right
          simp only [List.map_map, List.mem_map, List.mem_range, Function.comp]
          exact ⟨j, hj, rfl⟩
  · exact ⟨fun e he => by simp [main_init] at he, fun hl => absurd rfl hl⟩

theorem write_xml_event_graphics (o : options_t) (frames auto_cut : Int) (e : event_t)
    (ev : xml_event) (h : write_xml_event o frames auto_cut e = .ok ev) :
    ev.graphics.map (fun g => (g.file_id, g.graphic)) =
      (List.range e.graphics.toNat).map
        (fun (j : Nat) => (e.image_number - o.t_offset, (j : Int))) := by
  unfold write_xml_event at h
  cases h1 : mk_timecode e.start_frame o.fps with
  | exit c => rw [h1] at h; simp [Run.bind] at h
  | hang => rw [h1] at h; simp [Run.bind] at h
  | ok a =>
    rw [h1] at h
    simp only [Run.bind] at h
    cases h2 : mk_timecode e.end_frame o.fps with
    | exit c => rw [h2] at h; simp [Run.bind] at h
    | hang => rw [h2] at h; simp [Run.bind] at h
    | ok b =>
      rw [h2] at h
      simp only [Run.bind] at h
      cases h3 : (if auto_cut ≠ 0 ∧ e.end_frame = frames - 1 then
          mk_timecode (e.end_frame + 1) o.fps else Run.ok b) with
      | exit c => rw [h3] at h; simp at h
      | hang => rw [h3] at h; simp at h
      | ok c =>
        rw [h3] at h
        simp only [Run.ok.injEq] at h
        rw [← h]
        simp only [int_range_eq_map, List.map_map]
        rfl

theorem write_xml_events_graphics (o : options_t) (frames auto_cut : Int)
    (events : event_list_t) : ∀ (es : List xml_event),
    write_xml_events o frames auto_cut events = .ok es →
    List.Forall₂ (fun e ev => ev.graphics.map (fun g => (g.file_id, g.graphic)) =
      (List.range e.graphics.toNat).map
        (fun (j : Nat) => (e.image_number - o.t_offset, (j : Int)))) events es := by
  induction events with
  | nil =>
    intro es h
    simp only [write_xml_events, Run.ok.injEq] at h
    rw [← h]
    exact List.Forall₂.nil
  | cons e events ih =>
    intro es h
    rw [write_xml_events] at h
    cases h1 : write_xml_event o frames auto_cut e with
    | exit c => rw [h1] at h; simp [Run.bind] at h
    | hang => rw [h1] at h; simp [Run.bind] at h
    | ok ev =>
      rw [h1] at h
      simp only [Run.bind] at h
      cases h2 : write_xml_events o frames auto_cut events with
      | exit c => rw [h2] at h; simp at h
      | hang => rw [h2] at h; simp at h
      | ok es1 =>
        rw [h2] at h
        simp only [Run.ok.injEq] at h
        rw [← h]
        exact List.Forall₂.cons (write_xml_event_graphics o frames auto_cut e ev h1) (ih es1 h2)

/-- For every `t_offset`, when `main` returns after the frame loop, every
graphic `j` below the graphics count of every event in the event list (every
segment of a split event included) has been passed to `write_png` with the
`file_id` `image_number - t_offset` and the index `j`; and in an XML file that
has been written, the `Graphic` elements of each event carry exactly these
pairs of numbers, `j` from 0 up to the graphics count. -/
theorem main_frames_png_numbers (o : options_t) (ext : externals) (prims : primitives)
    (s_info : stream_info_t) (avis_hnd : avis_input_t) (r : main_result)
    (h : main_frames o ext prims s_info avis_hnd = .ok r) :
    (∀ e ∈ r.events, ∀ j : Nat, j < e.graphics.toNat →
      (e.image_number - o.t_offset, (j : Int)) ∈ r.pngs) ∧
    (∀ doc, r.xml = some doc →
      List.Forall₂ (fun e ev => ev.graphics.map (fun g => (g.file_id, g.graphic)) =
        (List.range e.graphics.toNat).map
          (fun (j : Nat) => (e.image_number - o.t_offset, (j : Int)))) r.events doc.events) := by
  unfold main_frames at h
  cases hml : main_lines o ext prims s_info avis_hnd with
  | exit c => rw [hml] at h; simp [Run.bind] at h
  | hang => rw [hml] at h; simp [Run.bind] at h
  | ok sa =>
    rw [hml] at h
    simp only [Run.bind] at h
    obtain ⟨st, auto_cut⟩ := sa
    -- the property holds for the locals after the block that adds the last event
    have hst : ∀ e ∈ st.events, ∀ j : Nat, j < e.graphics.toNat →
        (e.image_number - o.t_offset, (j : Int)) ∈ st.pngs := by
      unfold main_lines at hml
      simp only at hml
      by_cases hc : clipped_count_frames o (get_frame_total_avis avis_hnd) < 1
      · rw [if_pos hc] at hml
        simp at hml
      · rw [if_neg hc] at hml
        cases hp : process_frames o ext prims s_info avis_hnd
            (clipped_count_frames o (get_frame_total_avis avis_hnd) + o.init_frame
              - o.init_frame).toNat o.init_frame (main_init ext s_info) with
        | exit code => rw [hp] at hml; simp [Run.bind] at hml
        | hang => rw [hp] at hml; simp [Run.bind] at hml
        | ok stf =>
          rw [hp] at hml
          simp only [Run.bind] at hml
          have hP := process_frames_pngs_written o ext prims s_info avis_hnd _ stf hp
          unfold add_last_event at hml
          by_cases hl : stf.have_line ≠ 0
          · rw [if_pos hl] at hml
            cases hcl : close_line o stf (clipped_count_frames o (get_frame_total_avis avis_hnd)
                + o.init_frame - 1 + o.t_offset) with
            | exit code => rw [hcl] at hml; simp [Run.bind] at hml
            | hang => rw [hcl] at hml; simp [Run.bind] at hml
            | ok st1 =>
              rw [hcl] at hml
              simp only [Run.bind, Run.ok.injEq, Prod.mk.injEq] at hml
              have := (close_line_pngs_written o stf st1 _ hP hl hcl).1
              rw [← hml.1]
              exact this
          · rw [if_neg hl] at hml
            simp only [Run.ok.injEq, Prod.mk.injEq] at hml
            rw [← hml.1]
            exact hP.1
    cases hx : (if o.xml_output ≠ 0 then
        write_xml o (get_frame_total_avis avis_hnd) auto_cut st else Run.ok none) with
    | exit c => rw [hx] at h; simp at h
    | hang => rw [hx] at h; simp at h
    | ok xml =>
      rw [hx] at h
      simp only [Run.ok.injEq] at h
      rw [← h]
      refine ⟨hst, ?_⟩
      intro doc hdoc
      simp only at hdoc
      by_cases hxo : o.xml_output ≠ 0
      · rw [if_pos hxo] at hx
        unfold write_xml at hx
        by_cases hne : st.first_frame = -1 ∧ o.allow_empty = 0
        · rw [if_pos hne] at hx
          rw [← Run.ok.inj hx] at hdoc
          simp at hdoc
        · rw [if_neg hne] at hx
          simp only at hx
          cases t1 : mk_timecode ((if st.first_frame = -1 then 0 else st.first_frame)
              + o.t_offset) o.fps with
          | exit c => rw [t1] at hx; simp [Run.bind] at hx
          | hang => rw [t1] at hx; simp [Run.bind] at hx
          | ok a1 =>
            rw [t1] at hx
            simp only [Run.bind] at hx
            cases t2 : mk_timecode ((if st.first_frame = -1 then 0 else st.end_frame)
                + o.t_offset + auto_cut) o.fps with
            | exit c => rw [t2] at hx; simp [Run.bind] at hx
            | hang => rw [t2] at hx; simp [Run.bind] at hx
            | ok a2 =>
              rw [t2] at hx
              simp only [Run.bind] at hx
              cases t3 : mk_timecode 0 o.fps with
              | exit c => rw [t3] at hx; simp [Run.bind] at hx
              | hang => rw [t3] at hx; simp [Run.bind] at hx
              | ok a3 =>
                rw [t3] at hx
                simp only [Run.bind] at hx
                cases t4 : mk_timecode (get_frame_total_avis avis_hnd + o.t_offset) o.fps with
                | exit c => rw [t4] at hx; simp [Run.bind] at hx
                | hang => rw [t4] at hx; simp [Run.bind] at hx
                | ok a4 =>
                  rw [t4] at hx
                  simp only [Run.bind] at hx
                  cases t5 : write_xml_events o (get_frame_total_avis avis_hnd) auto_cut
                      st.events with
                  | exit c => rw [t5] at hx; simp at hx
                  | hang => rw [t5] at hx; simp at hx
                  | ok es =>
                    rw [t5] at hx
                    simp only [Run.ok.injEq] at hx
                    rw [← hx] at hdoc
                    simp only [Option.some.injEq] at hdoc
                    rw [← hdoc]
                    exact write_xml_events_graphics o _ auto_cut st.events es t5
      · rw [if_neg hxo] at hx
        rw [← Run.ok.inj hx] at hdoc
        simp at hdoc

/-- Below `file_id = 10^8` and `graphic = 10` the name that `write_png` opens is
the whole output of the format, which has 14 characters. -/
theorem write_png_name_eq_format (file_id graphic : Int) (h0 : 0 ≤ file_id)
    (h1 : file_id < 100000000) (g0 : 0 ≤ graphic) (g1 : graphic < 10) :
    write_png_name file_id graphic = String.mk (png_name_format file_id graphic) := by
  have hl : (Nat.toDigits 10 file_id.toNat).length ≤ 8 :=
    Nat.toDigitsCore_length 10 (by decide) _ _ 8 (by omega) (by decide)
  have hg : (Nat.toDigits 10 graphic.toNat).length = 1 := by
    have hz : graphic.toNat / 10 = 0 := by omega
    unfold Nat.toDigits
    rw [Nat.toDigitsCore]
    simp only [hz, if_true, List.length_singleton]
  have hlen : (png_name_format file_id graphic).length = 14 := by
    simp only [png_name_format, fmt_08d, fmt_d, if_neg (not_lt.mpr h0), if_neg (not_lt.mpr g0),
      List.length_append, List.length_cons, List.length_replicate, List.length_nil]
    omega
  unfold write_png_name
  rw [← hlen, List.take_length]

theorem long_stream_frames : get_frame_total_avis long_stream = 100000001 := by
  unfold get_frame_total_avis long_stream
  simp only [List.length_replicate]
  rfl

theorem long_stream_read :
    read_frame_avis long_stream 100000000 = some (List.replicate 64 ⟨255, 255, 255, 255⟩) := by
  have hn : ¬ ((100000000 : Int) < 0) := by decide
  have ht : (100000000 : Int).toNat = 100000000 := rfl
  rw [read_frame_avis, if_neg hn, ht]
  unfold long_stream
  simp only [List.get?_eq_getElem?, List.getElem?_replicate]
  rw [if_pos (by decide)]

/-- C15 fails on the code: with `--seek 100000000 --count 1 --t-offset -100000000`
on a source of 100000001 opaque 8x8 frames, `main` records one event, opened at
frame 100000000; `write_png` stores its graphic 0 under the name
`100000000_0.pn`, the 14 characters that `snprintf (tmp, 15, ...)` keeps, and
the `Graphic` element of the XML file refers to `100000000_0.png`. -/
theorem main_frames_long_seek_png_name :
    (main_frames long_seek_options idle_externals scalar_primitives s_info8 long_stream).bind
        (fun r => .ok (r.pngs.map (fun p => write_png_name p.1 p.2), xml_graphic_texts r.xml)) =
      .ok (["100000000_0.pn"], some [["100000000_0.png"]]) := by
  have hk : ((clipped_count_frames long_seek_options 100000001 + long_seek_options.init_frame
      - long_seek_options.init_frame).toNat) = 0 + 1 := by rfl
  have hi : long_seek_options.init_frame = 100000000 := rfl
  unfold main_frames main_lines
  rw [long_stream_frames]
  simp only []
  rw [hk, process_frames, hi, frame_step, long_stream_read]
  simp only [process_frames]
  rfl

/-! ### `LastEventOutTC` and the last `OutTC` -/

/-- Without an offset, on three equal opaque frames, the header attribute
`LastEventOutTC` and the `OutTC` of the one `Event` element are both
`00:00:00:03`. -/
theorem main_open_end_stream_last_out_tc :
    (main_frames plain_options idle_externals scalar_primitives s_info8 open_end_stream).bind
        (fun r => .ok (xml_last_event_out_tc r.xml, xml_timecodes r.xml)) =
      .ok (some "00:00:00:03", some [("00:00:00:00", "00:00:00:03")]) := by
  rfl

/-- C16 fails on the code: with `--t-offset 1` on three equal opaque frames the
stream ends while the one event is open; the header attribute `LastEventOutTC`
is `00:00:00:04`, and the `OutTC` of the one `Event` element is `00:00:00:03`,
because the test `event->end_frame == frames - 1` compares the end frame with
the offset added to the frame count without it. -/
theorem main_open_end_stream_offset_last_out_tc :
    (main_frames offset_one_options idle_externals scalar_primitives s_info8
        open_end_stream).bind
        (fun r => .ok (xml_last_event_out_tc r.xml, xml_timecodes r.xml)) =
      .ok (some "00:00:00:04", some [("00:00:00:01", "00:00:00:03")]) := by
  rfl

/-! ### The progress indicator -/

/-- C28: for every `count_frames ≥ 1`, the divisor `count_frames / progress_step`
of the progress test in the frame loop is at least 1, so the test never
divides by zero. -/
theorem progress_divisor_pos (count_frames : Int) (h : 1 ≤ count_frames) :
    1 ≤ progress_divisor count_frames ∧ progress_divisor count_frames ≠ 0 := by
  have key : 1 ≤ progress_divisor count_frames := by
    unfold progress_divisor progress_step
    by_cases h1 : count_frames < 1000
    · rw [if_pos h1]
      by_cases h2 : count_frames > 200
      · rw [if_pos h2, Int.tdiv_eq_ediv (by omega) (by omega)]
        omega
      · rw [if_neg h2]
        by_cases h3 : count_frames > 50
        · rw [if_pos h3, Int.tdiv_eq_ediv (by omega) (by omega)]
          omega
        · rw [if_neg h3, Int.tdiv_eq_ediv (by omega) (by omega)]
          omega
    · rw [if_neg h1, Int.tdiv_eq_ediv (by omega) (by omega)]
      omega
  exact ⟨key, by omega⟩

/-- C28, at `count_frames = 1`, `51`, `201`, `999` and `1000`. -/
theorem progress_divisor_pos_witness :
    (1 ≤ progress_divisor 1 ∧ progress_divisor 1 ≠ 0) ∧
    (1 ≤ progress_divisor 51 ∧ progress_divisor 51 ≠ 0) ∧
    (1 ≤ progress_divisor 201 ∧ progress_divisor 201 ≠ 0) ∧
    (1 ≤ progress_divisor 999 ∧ progress_divisor 999 ≠ 0) ∧
    (1 ≤ progress_divisor 1000 ∧ progress_divisor 1000 ≠ 0) :=
  ⟨progress_divisor_pos 1 (by decide), progress_divisor_pos 51 (by decide),
   progress_divisor_pos 201 (by decide), progress_divisor_pos 999 (by decide),
   progress_divisor_pos 1000 (by decide)⟩

/-! ### Fields of the segments -/

theorem add_event_xml_returns (events : event_list_t)
    (split_at min_split start end_ graphics : Int) (crops : crop_t × crop_t) (forced : Int)
    (hs : 0 ≤ split_at) :
    ∃ segs : List event_t,
      add_event_xml [] split_at min_split start end_ graphics crops forced = .ok segs ∧
      add_event_xml events split_at min_split start end_ graphics crops forced =
        .ok (events ++ segs) := by
  have hret : ∃ segs : List event_t,
      add_event_xml [] split_at min_split start end_ graphics crops forced = .ok segs := by
    by_cases h0 : split_at = 0
    · exact ⟨add_event_xml_real [] start start end_ graphics crops forced,
        by simp only [add_event_xml, if_pos h0]⟩
    · obtain ⟨k, hk, _⟩ := add_event_xml_split_spec [] split_at min_split start end_ graphics
        crops forced (by omega)
      exact ⟨_, hk⟩
  obtain ⟨segs, hsegs⟩ := hret
  refine ⟨segs, hsegs, ?_⟩
  rw [add_event_xml_append, hsegs]
  rfl

/-- C23: for `split_at ≥ 0`, `add_event_xml` returns after appending segments
to the event list, and every segment it appends carries the start of the
unsplit event as `image_number`, and the graphics count, the two crop
rectangles and the forced flag of the unsplit event. -/
theorem add_event_xml_segments_share_fields (events : event_list_t)
    (split_at min_split start end_ graphics : Int) (crops : crop_t × crop_t) (forced : Int)
    (hs : 0 ≤ split_at) :
    ∃ segs : List event_t,
      add_event_xml events split_at min_split start end_ graphics crops forced =
        .ok (events ++ segs) ∧
      ∀ e ∈ segs, e.image_number = start ∧ e.graphics = graphics ∧ e.c0 = crops.1 ∧
        e.c1 = crops.2 ∧ e.forced = forced := by
  obtain ⟨segs, h0, h1⟩ := add_event_xml_returns events split_at min_split start end_ graphics
    crops forced hs
  refine ⟨segs, h1, ?_⟩
  intro e he
  rcases add_event_xml_fields [] segs split_at min_split start end_ graphics crops forced h0 e he
    with hm | hf
  · exact absurd hm (List.not_mem_nil e)
  · exact ⟨hf.1, hf.2.1, hf.2.2.2.1, hf.2.2.2.2, hf.2.2.1⟩

/-- C23, at the event from 0 to 10 with `split_at = 4` and `min_split = 3`,
which is split into the segments from 0 to 4 and from 4 to 10. -/
theorem add_event_xml_segments_share_fields_witness :
    add_event_xml [] 4 3 0 10 2 (⟨1, 2, 3, 4⟩, ⟨5, 6, 7, 8⟩) 1 =
      .ok [⟨0, 0, 4, 2, 1, ⟨1, 2, 3, 4⟩, ⟨5, 6, 7, 8⟩⟩,
           ⟨0, 4, 10, 2, 1, ⟨1, 2, 3, 4⟩, ⟨5, 6, 7, 8⟩⟩] ∧
    ∃ segs : List event_t,
      add_event_xml [] 4 3 0 10 2 (⟨1, 2, 3, 4⟩, ⟨5, 6, 7, 8⟩) 1 = .ok ([] ++ segs) ∧
      ∀ e ∈ segs, e.image_number = 0 ∧ e.graphics = 2 ∧ e.c0 = (⟨1, 2, 3, 4⟩ : crop_t) ∧
        e.c1 = (⟨5, 6, 7, 8⟩ : crop_t) ∧ e.forced = 1 :=
  ⟨by decide,
   add_event_xml_segments_share_fields [] 4 3 0 10 2 (⟨1, 2, 3, 4⟩, ⟨5, 6, 7, 8⟩) 1
     (by decide)⟩

/-! ### `write_sup_wrapper` and `add_event_xml` -/

/-- C24: for `split_at ≥ 0` and every `min_split`, `start` and `end_`,
`add_event_xml` and `write_sup_wrapper` both return, and `write_sup_wrapper`
calls `write_sup` once for each segment that `add_event_xml` appends, in the
same order, with the segment's `start_frame` and `end_frame` as `start` and
`end`. -/
theorem write_sup_wrapper_same_segments (events : event_list_t) (calls : List sup_call)
    (split_at min_split start end_ num_crop : Int) (crops : crop_t × crop_t)
    (stricter forced : Int) (hs : 0 ≤ split_at) :
    ∃ (segs : List event_t) (new_calls : List sup_call),
      add_event_xml events split_at min_split start end_ num_crop crops forced =
        .ok (events ++ segs) ∧
      write_sup_wrapper calls num_crop crops start end_ split_at min_split stricter forced =
        .ok (calls ++ new_calls) ∧
      new_calls = segs.map (sup_call_of_event stricter) ∧
      sup_intervals new_calls = event_intervals segs := by
  obtain ⟨segs, h0, h1⟩ := add_event_xml_returns events split_at min_split start end_ num_crop
    crops forced hs
  refine ⟨segs, segs.map (sup_call_of_event stricter), h1, ?_, rfl, ?_⟩
  · rw [write_sup_wrapper_eq, h0]
    rfl
  · simp [sup_intervals, event_intervals, sup_call_of_event, Function.comp]

/-- C24, at the interval from 0 to 10 with `split_at = 4` and `min_split = 3`:
both give the intervals from 0 to 4 and from 4 to 10. -/
theorem write_sup_wrapper_same_segments_witness :
    (add_event_xml [] 4 3 0 10 1 (⟨0, 0, 8, 8⟩, ⟨0, 0, 0, 0⟩) 0).bind
        (fun evs => .ok (event_intervals evs)) = .ok [(0, 4), (4, 10)] ∧
    (write_sup_wrapper [] 1 (⟨0, 0, 8, 8⟩, ⟨0, 0, 0, 0⟩) 0 10 4 3 0 0).bind
        (fun cs => .ok (sup_intervals cs)) = .ok [(0, 4), (4, 10)] ∧
    ∃ (segs : List event_t) (new_calls : List sup_call),
      add_event_xml [] 4 3 0 10 1 (⟨0, 0, 8, 8⟩, ⟨0, 0, 0, 0⟩) 0 = .ok ([] ++ segs) ∧
      write_sup_wrapper [] 1 (⟨0, 0, 8, 8⟩, ⟨0, 0, 0, 0⟩) 0 10 4 3 0 0 =
        .ok ([] ++ new_calls) ∧
      new_calls = segs.map (sup_call_of_event 0) ∧
      sup_intervals new_calls = event_intervals segs :=
  ⟨by decide, by decide,
   write_sup_wrapper_same_segments [] [] 4 3 0 10 1 (⟨0, 0, 8, 8⟩, ⟨0, 0, 0, 0⟩) 0 0
     (by decide)⟩

/-! ### What `is_identical_c` leaves in `img` -/

theorem is_identical_loop_snd (im : List Pixel) : ∀ im_old : List Pixel,
    ((is_identical_loop im im_old).1 = 1 →
      (is_identical_loop im im_old).2 = im.map normalize_pixel) ∧
    ((is_identical_loop im im_old).1 ≠ 1 →
      (is_identical_loop im im_old).1 = 0 ∧
      ∃ k, k < im.length ∧
        (is_identical_loop im im_old).2 =
          (im.take (k + 1)).map normalize_pixel ++ im.drop (k + 1) ∧
        normalize_pixel (im.getD k Pixel.zero) ≠ im_old.getD k Pixel.zero ∧
        ∀ j, j < k → normalize_pixel (im.getD j Pixel.zero) = im_old.getD j Pixel.zero) := by
  induction im with
  | nil =>
    intro im_old
    simp [is_identical_loop]
  | cons p im ih =>
    intro im_old
    have hold : ∀ j, im_old.tail.getD j Pixel.zero = im_old.getD (j + 1) Pixel.zero := by
      intro j
      cases im_old <;> simp
    have hhead : im_old.headD Pixel.zero = im_old.getD 0 Pixel.zero := by
      cases im_old <;> simp
    by_cases hpq : normalize_pixel p = im_old.headD Pixel.zero
    · have hpq1 : ¬ (if p.b3 = 0 then Pixel.zero else p) ≠ im_old.headD Pixel.zero :=
        fun h => h hpq
      have hfst : (is_identical_loop (p :: im) im_old).1 =
          (is_identical_loop im im_old.tail).1 := by
        simp only [is_identical_loop, if_neg hpq1]
      have hsnd : (is_identical_loop (p :: im) im_old).2 =
          normalize_pixel p :: (is_identical_loop im im_old.tail).2 := by
        simp only [is_identical_loop, if_neg hpq1]
        rfl
      rw [hfst, hsnd]
      obtain ⟨i1, i2⟩ := ih im_old.tail
      constructor
      · intro h1
        rw [i1 h1, List.map_cons]
      · intro h1
        obtain ⟨h0, k, hk, hk2, hk3, hk4⟩ := i2 h1
        refine ⟨h0, k + 1, by simp; omega, ?_, ?_, ?_⟩
        · rw [hk2]
          simp
        · rw [List.getD_cons_succ, ← hold]
          exact hk3
        · intro j hj
          cases j with
          | zero =>
            rw [List.getD_cons_zero, ← hhead]
            exact hpq
          | succ j =>
            rw [List.getD_cons_succ, ← hold]
            exact hk4 j (by omega)
    · have hpq1 : (if p.b3 = 0 then Pixel.zero else p) ≠ im_old.headD Pixel.zero := hpq
      have hfst : (is_identical_loop (p :: im) im_old).1 = 0 := by
        simp only [is_identical_loop, if_pos hpq1]
      have hsnd : (is_identical_loop (p :: im) im_old).2 = normalize_pixel p :: im := by
        simp only [is_identical_loop, if_pos hpq1]
        rfl
      rw [hfst, hsnd]
      refine ⟨fun h => absurd h (by decide), fun _ => ⟨rfl, 0, by simp, by simp, ?_, ?_⟩⟩
      · rw [List.getD_cons_zero, ← hhead]
        exact hpq
      · intro j hj
        omega

theorem map_normalize_getElem?_of_opaque (img : List Pixel) (i : Nat) (h : i < img.length)
    (ha : (img.get ⟨i, h⟩).b3 ≠ 0) :
    (img.map normalize_pixel)[i]? = some (img.get ⟨i, h⟩) := by
  rw [List.getElem?_map, List.getElem?_eq_getElem h]
  simp only [Option.map_some', Option.some.injEq, List.get_eq_getElem] at ha ⊢
  simp [normalize_pixel, ha]

/-- C22 fails on the code: on a 2x1 buffer `img` whose pixel 0 is opaque and
differs from `prev` and whose pixel 1 is `(9, 9, 9, 0)`, `is_identical_c`
returns 0 at pixel 0, and pixel 1, whose alpha is 0, has not been rewritten:
it keeps the colour `(9, 9, 9)`. -/
theorem is_identical_c_returns_before_zeroing :
    is_identical_c ⟨2, 1, 1, 25⟩ [⟨1, 1, 1, 255⟩, ⟨9, 9, 9, 0⟩]
        [⟨2, 2, 2, 255⟩, Pixel.zero] = (0, [⟨1, 1, 1, 255⟩, ⟨9, 9, 9, 0⟩]) := by
  decide

/-- What `is_identical_c` does to `img`: for a buffer `img` of
`i_width * i_height` pixels, `is_identical_c (img, prev)` returns 1 or 0, and
`img` keeps its size and every pixel of nonzero alpha (`prev` is only read).
After a return of 1 every pixel of `img` of alpha 0 has been rewritten to four
zero bytes.  After a return of 0 this has been done for the pixels up to and
including pixel `k`, the first one at which the rewritten `img` differs from
`prev`, and the pixels after `k` are as they were. -/
theorem is_identical_c_effect_on_img (s_info : stream_info_t) (img prev : List Pixel)
    (hlen : (img.length : Int) = s_info.i_width * s_info.i_height) :
    ((is_identical_c s_info img prev).1 = 1 ∨ (is_identical_c s_info img prev).1 = 0) ∧
    (is_identical_c s_info img prev).2.length = img.length ∧
    (∀ (i : Nat) (h : i < img.length), (img.get ⟨i, h⟩).b3 ≠ 0 →
      (is_identical_c s_info img prev).2[i]? = some (img.get ⟨i, h⟩)) ∧
    ((is_identical_c s_info img prev).1 = 1 →
      (is_identical_c s_info img prev).2 = img.map normalize_pixel) ∧
    ((is_identical_c s_info img prev).1 = 0 →
      ∃ k, k < img.length ∧
        (is_identical_c s_info img prev).2 =
          (img.take (k + 1)).map normalize_pixel ++ img.drop (k + 1) ∧
        normalize_pixel (img.getD k Pixel.zero) ≠ prev.getD k Pixel.zero ∧
        ∀ j, j < k → normalize_pixel (img.getD j Pixel.zero) = prev.getD j Pixel.zero) := by
  have htake := take_pixels_of_length s_info img hlen
  have hdrop : img.drop s_info.pixels = [] := by
    have := List.take_append_drop s_info.pixels img
    rw [htake] at this
    exact List.append_right_eq_self.mp this
  have hfst : (is_identical_c s_info img prev).1 = (is_identical_loop img prev).1 := by
    simp [is_identical_c, htake]
  have hsnd : (is_identical_c s_info img prev).2 = (is_identical_loop img prev).2 := by
    simp [is_identical_c, htake, hdrop]
  rw [hfst, hsnd]
  obtain ⟨i1, i2⟩ := is_identical_loop_snd img prev
  have hcases : (is_identical_loop img prev).1 = 1 ∨ (is_identical_loop img prev).1 = 0 := by
    by_cases h1 : (is_identical_loop img prev).1 = 1
    · exact Or.inl h1
    · exact Or.inr (i2 h1).1
  have h0imp : (is_identical_loop img prev).1 = 0 → (is_identical_loop img prev).1 ≠ 1 := by
    intro h0 h1
    rw [h0] at h1
    exact absurd h1 (by decide)
  refine ⟨hcases, ?_, ?_, i1, fun h0 => (i2 (h0imp h0)).2⟩
  · rcases hcases with h1 | h0
    · rw [i1 h1, List.length_map]
    · obtain ⟨_, k, hk, hk2, _⟩ := i2 (h0imp h0)
      rw [hk2]
      simp
      omega
  · intro i h ha
    rcases hcases with h1 | h0
    · rw [i1 h1]
      exact map_normalize_getElem?_of_opaque img i h ha
    · obtain ⟨_, k, hk, hk2, _⟩ := i2 (h0imp h0)
      rw [hk2]
      have hmap := map_normalize_getElem?_of_opaque img i h ha
      by_cases hik : i < k + 1
      · rw [List.getElem?_append_left (by simp; omega), List.getElem?_map,
          List.getElem?_take_of_lt hik, ← List.getElem?_map]
        exact hmap
      · rw [List.getElem?_append_right (by simp; omega)]
        simp only [List.length_map, List.length_take, List.getElem?_drop]
        have e : k + 1 + (i - min (k + 1) img.length) = i := by omega
        rw [e, List.getElem?_eq_getElem h]
        rfl

/-- The effect of `is_identical_c` on the 2x1 buffer
`[(1, 1, 1, 255), (9, 9, 9, 0)]`: compared with itself rewritten it gives 1
and pixel 1 becomes zero; compared with a buffer that differs in pixel 0 it
gives 0 and pixel 1 is left as it is. -/
theorem is_identical_c_effect_on_img_witness :
    is_identical_c ⟨2, 1, 1, 25⟩ [⟨1, 1, 1, 255⟩, ⟨9, 9, 9, 0⟩]
        [⟨1, 1, 1, 255⟩, Pixel.zero] = (1, [⟨1, 1, 1, 255⟩, Pixel.zero]) ∧
    (is_identical_c ⟨2, 1, 1, 25⟩ [⟨1, 1, 1, 255⟩, ⟨9, 9, 9, 0⟩]
        [⟨1, 1, 1, 255⟩, Pixel.zero]).2 =
      [⟨1, 1, 1, 255⟩, ⟨9, 9, 9, 0⟩].map normalize_pixel ∧
    ∃ k, k < 2 ∧
      (is_identical_c ⟨2, 1, 1, 25⟩ [⟨1, 1, 1, 255⟩, ⟨9, 9, 9, 0⟩]
          [⟨2, 2, 2, 255⟩, Pixel.zero]).2 =
        ([⟨1, 1, 1, 255⟩, ⟨9, 9, 9, 0⟩].take (k + 1)).map normalize_pixel ++
          [⟨1, 1, 1, 255⟩, ⟨9, 9, 9, 0⟩].drop (k + 1) ∧
      normalize_pixel ([⟨1, 1, 1, 255⟩, ⟨9, 9, 9, 0⟩].getD k Pixel.zero) ≠
        [⟨2, 2, 2, 255⟩, Pixel.zero].getD k Pixel.zero ∧
      ∀ j, j < k → normalize_pixel ([⟨1, 1, 1, 255⟩, ⟨9, 9, 9, 0⟩].getD j Pixel.zero) =
        [⟨2, 2, 2, 255⟩, Pixel.zero].getD j Pixel.zero :=
  ⟨by decide,
   (is_identical_c_effect_on_img ⟨2, 1, 1, 25⟩ [⟨1, 1, 1, 255⟩, ⟨9, 9, 9, 0⟩]
      [⟨1, 1, 1, 255⟩, Pixel.zero] (by decide)).2.2.2.1 (by decide),
   (is_identical_c_effect_on_img ⟨2, 1, 1, 25⟩ [⟨1, 1, 1, 255⟩, ⟨9, 9, 9, 0⟩]
      [⟨2, 2, 2, 255⟩, Pixel.zero] (by decide)).2.2.2.2 (by decide)⟩

/-! ### The reference image -/

/-- With the normalisation that the specification asks of `zero_transparent`,
the reference kept for the line that opens at frame 0 of `stale_first_stream`
has its pixel of alpha 0 zeroed, and the reference kept for the line that
opens at frame 1 of `stale_second_stream`, on a frame that `is_identical_c`
found different, still has the colour `(9, 9, 9)` under alpha 0. -/
theorem main_lines_reference_with_spec_normalisation :
    last_reference (main_lines plain_options idle_externals spec_primitives s_info8
        stale_first_stream) = .ok (0, [⟨1, 2, 3, 255⟩, Pixel.zero]) ∧
    last_reference (main_lines plain_options idle_externals spec_primitives s_info8
        stale_second_stream) = .ok (1, [⟨1, 1, 1, 255⟩, ⟨9, 9, 9, 0⟩]) := by
  constructor <;> rfl

/-- C21 fails on the code, on both paths.  On `stale_first_stream` the line
opens at frame 0 with `must_zero = 1`, and the reference kept after
`zero_transparent_c` has pixel 0 zeroed and pixel 1 still `(9, 9, 9, 0)`.  On
`stale_second_stream` the line opens at frame 1, which `is_identical_c` found
different from the reference at pixel 0 (`must_zero = 0`), and the reference
kept has pixel 1 still `(9, 9, 9, 0)`. -/
theorem main_lines_reference_keeps_colour_under_alpha_zero :
    last_reference (main_lines plain_options idle_externals scalar_primitives s_info8
        stale_first_stream) = .ok (0, [Pixel.zero, ⟨9, 9, 9, 0⟩]) ∧
    last_reference (main_lines plain_options idle_externals scalar_primitives s_info8
        stale_second_stream) = .ok (1, [⟨1, 1, 1, 255⟩, ⟨9, 9, 9, 0⟩]) := by
  constructor <;> rfl

/-! ### `NumberofEvents` -/

theorem main_lines_ok_cases (o : options_t) (ext : externals) (prims : primitives)
    (s_info : stream_info_t) (avis_hnd : avis_input_t) (st : main_state) (auto_cut : Int)
    (h : main_lines o ext prims s_info avis_hnd = .ok (st, auto_cut)) :
    ∃ (k : Nat) (stf : main_state),
      process_frames o ext prims s_info avis_hnd k o.init_frame (main_init ext s_info) =
        .ok stf ∧
      ((stf.have_line = 0 ∧ st = stf ∧ auto_cut = 0) ∨
       (stf.have_line ≠ 0 ∧ auto_cut = 1 ∧ ∃ (end_ : Int) (st1 : main_state),
          close_line o stf end_ = .ok st1 ∧
          st = { st1 with end_frame := end_ - o.t_offset })) := by
  unfold main_lines at h
  simp only at h
  by_cases hc : clipped_count_frames o (get_frame_total_avis avis_hnd) < 1
  · rw [if_pos hc] at h
    simp at h
  · rw [if_neg hc] at h
    cases hp : process_frames o ext prims s_info avis_hnd
        (clipped_count_frames o (get_frame_total_avis avis_hnd) + o.init_frame
          - o.init_frame).toNat o.init_frame (main_init ext s_info) with
    | exit code => rw [hp] at h; simp [Run.bind] at h
    | hang => rw [hp] at h; simp [Run.bind] at h
    | ok stf =>
      rw [hp] at h
      simp only [Run.bind] at h
      refine ⟨_, stf, hp, ?_⟩
      unfold add_last_event at h
      by_cases hl : stf.have_line ≠ 0
      · rw [if_pos hl] at h
        cases hcl : close_line o stf (clipped_count_frames o (get_frame_total_avis avis_hnd)
            + o.init_frame - 1 + o.t_offset) with
        | exit code => rw [hcl] at h; simp [Run.bind] at h
        | hang => rw [hcl] at h; simp [Run.bind] at h
        | ok st1 =>
          rw [hcl] at h
          simp only [Run.bind, Run.ok.injEq, Prod.mk.injEq] at h
          refine Or.inr ⟨hl, h.2.symm, _, st1, hcl, ?_⟩
          rw [← h.1]
          congr 1
          ring
      · rw [if_neg hl] at h
        simp only [Run.ok.injEq, Prod.mk.injEq] at h
        exact Or.inl ⟨by simpa using hl, h.1.symm, h.2.symm⟩

theorem main_frames_ok_cases (o : options_t) (ext : externals) (prims : primitives)
    (s_info : stream_info_t) (avis_hnd : avis_input_t) (r : main_result)
    (h : main_frames o ext prims s_info avis_hnd = .ok r) :
    ∃ (st : main_state) (auto_cut : Int),
      main_lines o ext prims s_info avis_hnd = .ok (st, auto_cut) ∧
      r.events = st.events ∧ r.num_of_events = st.num_of_events ∧
      ∀ doc, r.xml = some doc →
        o.xml_output ≠ 0 ∧ doc.number_of_events = st.num_of_events ∧
        write_xml_events o (get_frame_total_avis avis_hnd) auto_cut st.events =
          .ok doc.events := by
  unfold main_frames at h
  cases hml : main_lines o ext prims s_info avis_hnd with
  | exit c => rw [hml] at h; simp [Run.bind] at h
  | hang => rw [hml] at h; simp [Run.bind] at h
  | ok sa =>
    rw [hml] at h
    simp only [Run.bind] at h
    obtain ⟨st, auto_cut⟩ := sa
    cases hx : (if o.xml_output ≠ 0 then
        write_xml o (get_frame_total_avis avis_hnd) auto_cut st else Run.ok none) with
    | exit c => rw [hx] at h; simp at h
    | hang => rw [hx] at h; simp at h
    | ok xml =>
      rw [hx] at h
      simp only [Run.ok.injEq] at h
      rw [← h]
      refine ⟨st, auto_cut, rfl, rfl, rfl, ?_⟩
      intro doc hdoc
      simp only at hdoc
      by_cases hxo : o.xml_output ≠ 0
      · rw [if_pos hxo] at hx
        unfold write_xml at hx
        by_cases hne : st.first_frame = -1 ∧ o.allow_empty = 0
        · rw [if_pos hne] at hx
          rw [← Run.ok.inj hx] at hdoc
          simp at hdoc
        · rw [if_neg hne] at hx
          simp only at hx
          cases t1 : mk_timecode ((if st.first_frame = -1 then 0 else st.first_frame)
              + o.t_offset) o.fps with
          | exit c => rw [t1] at hx; simp [Run.bind] at hx
          | hang => rw [t1] at hx; simp [Run.bind] at hx
          | ok a1 =>
            rw [t1] at hx
            simp only [Run.bind] at hx
            cases t2 : mk_timecode ((if st.first_frame = -1 then 0 else st.end_frame)
                + o.t_offset + auto_cut) o.fps with
            | exit c => rw [t2] at hx; simp [Run.bind] at hx
            | hang => rw [t2] at hx; simp [Run.bind] at hx
            | ok a2 =>
              rw [t2] at hx
              simp only [Run.bind] at hx
              cases t3 : mk_timecode 0 o.fps with
              | exit c => rw [t3] at hx; simp [Run.bind] at hx
              | hang => rw [t3] at hx; simp [Run.bind] at hx
              | ok a3 =>
                rw [t3] at hx
                simp only [Run.bind] at hx
                cases t4 : mk_timecode (get_frame_total_avis avis_hnd + o.t_offset) o.fps with
                | exit c => rw [t4] at hx; simp [Run.bind] at hx
                | hang => rw [t4] at hx; simp [Run.bind] at hx
                | ok a4 =>
                  rw [t4] at hx
                  simp only [Run.bind] at hx
                  cases t5 : write_xml_events o (get_frame_total_avis avis_hnd) auto_cut
                      st.events with
                  | exit c => rw [t5] at hx; simp at hx
                  | hang => rw [t5] at hx; simp at hx
                  | ok es =>
                    rw [t5] at hx
                    simp only [Run.ok.injEq] at hx
                    rw [← hx] at hdoc
                    simp only [Option.some.injEq] at hdoc
                    rw [← hdoc]
                    exact ⟨hxo, rfl, rfl⟩
      · rw [if_neg hxo] at hx
        rw [← Run.ok.inj hx] at hdoc
        simp at hdoc

theorem close_line_events_counted (o : options_t) (st st1 : main_state) (end_ : Int)
    (hs : o.split_at = 0) (hx : o.xml_output ≠ 0) (hP : events_counted st)
    (hl : st.have_line ≠ 0) (hcl : close_line o st end_ = .ok st1) :
    st1.num_of_events = st1.events.length := by
  obtain ⟨calls, events, e1, hev⟩ := close_line_ok o st st1 end_ hcl
  subst e1
  show st.num_of_events = ((events.length : Nat) : Int)
  unfold events_counted at hP
  rw [if_pos hl] at hP
  rcases hev with ⟨_, hadd⟩ | ⟨h0, _⟩
  · simp only [add_event_xml, if_pos hs, Run.ok.injEq] at hadd
    rw [← hadd, hP]
    simp [add_event_xml_real, event_list_insert_after]
  · exact absurd h0 hx

theorem process_frames_events_counted (o : options_t) (ext : externals) (prims : primitives)
    (s_info : stream_info_t) (avis_hnd : avis_input_t) (hs : o.split_at = 0)
    (hx : o.xml_output ≠ 0) (k : Nat) (st : main_state)
    (h : process_frames o ext prims s_info avis_hnd k o.init_frame (main_init ext s_info) =
      .ok st) : events_counted st := by
  refine process_frames_invariant o ext prims s_info avis_hnd (fun _ st => events_counted st)
    ?_ k o.init_frame (main_init ext s_info) st ?_ h
  · intro i st st' hP hstep
    rcases frame_step_cases o ext prims s_info avis_hnd st st' i hstep with e | ⟨st2, hc, hn⟩
    · subst e
      exact hP
    · have hst2 : st2.have_line = 0 ∧ st2.num_of_events = st2.events.length := by
        rcases hc with ⟨hl, e⟩ | ⟨hl, st1, hcl, e⟩
        · subst e
          unfold events_counted at hP
          rw [if_neg (by simpa using hl)] at hP
          exact ⟨hl, by simpa using hP⟩
        · subst e
          exact ⟨rfl, close_line_events_counted o st st1 _ hs hx hP hl hcl⟩
      rcases hn with ⟨mz, e⟩ | ⟨img, e⟩
      · subst e
        unfold events_counted
        show st2.num_of_events = _ + (if st2.have_line ≠ 0 then 1 else 0)
        rw [if_neg (by simpa using hst2.1)]
        simpa using hst2.2
      · subst e
        unfold events_counted
        have e1 : (start_line o ext prims s_info st2 i img).num_of_events =
            st2.num_of_events + 1 := rfl
        have e2 : (start_line o ext prims s_info st2 i img).events = st2.events := rfl
        have e3 : (start_line o ext prims s_info st2 i img).have_line = 1 := rfl
        rw [e1, e2, e3, hst2.2]
        simp
  · unfold events_counted
    simp [main_init]

/-- When events are not split (`split_at = 0`), the attribute `NumberofEvents`
of an XML file that `main` has written is the number of its `Event`
elements. -/
theorem main_frames_number_of_events_unsplit (o : options_t) (ext : externals)
    (prims : primitives) (s_info : stream_info_t) (avis_hnd : avis_input_t) (r : main_result)
    (hs : o.split_at = 0) (h : main_frames o ext prims s_info avis_hnd = .ok r) :
    ∀ doc, r.xml = some doc → doc.number_of_events = doc.events.length := by
  intro doc hdoc
  obtain ⟨st, auto_cut, hml, _, _, hxml⟩ := main_frames_ok_cases o ext prims s_info avis_hnd r h
  obtain ⟨hx, hnum, hev⟩ := hxml doc hdoc
  have hlen : st.events.length = doc.events.length :=
    List.Forall₂.length_eq (write_xml_events_graphics o _ auto_cut st.events doc.events hev)
  rw [hnum, ← hlen]
  obtain ⟨k, stf, hp, hcase⟩ := main_lines_ok_cases o ext prims s_info avis_hnd st auto_cut hml
  have hP := process_frames_events_counted o ext prims s_info avis_hnd hs hx k stf hp
  rcases hcase with ⟨hl, e, _⟩ | ⟨hl, _, end_, st1, hcl, e⟩
  · subst e
    unfold events_counted at hP
    rw [if_neg (by simpa using hl)] at hP
    simpa using hP
  · subst e
    exact close_line_events_counted o stf st1 end_ hs hx hP hl hcl

/-- C26 fails on the code: with `--split-at 1 --min-split 1` on three equal
opaque frames, the one line from frame 0 to frame 2 is split into the two
segments from 0 to 1 and from 1 to 2 (the second written with the `OutTC` of
frame 3); the header has `NumberofEvents="1"`, the counter of lines, and the
XML file has two `Event` elements. -/
theorem main_open_end_stream_split_number_of_events :
    (main_frames split_one_options idle_externals scalar_primitives s_info8
        open_end_stream).bind
        (fun r => .ok (xml_event_counts r.xml, xml_timecodes r.xml)) =
      .ok (some (1, 2),
        some [("00:00:00:00", "00:00:00:01"), ("00:00:00:01", "00:00:00:03")]) := by
  rfl

/-! ### `parse_tc` after `mk_timecode` -/

/-- What `parse_tc` returns on a string of the shape `HH:MM:SS:FF` that is not
an integer as a whole and whose four fields are integers. -/
theorem parse_tc_of_fields (long_bits : Nat) (in_ : List Char) (fps : Int)
    (hnone : whole_integer long_bits in_ = none) (hlen : in_.length = 11)
    (c2 : in_.get? 2 = some ':') (c5 : in_.get? 5 = some ':') (c8 : in_.get? 8 = some ':')
    (h m s f : Int) (hh : whole_integer long_bits (in_.take 2) = some h)
    (hm : whole_integer long_bits ((in_.drop 3).take 2) = some m)
    (hs : whole_integer long_bits ((in_.drop 6).take 2) = some s)
    (hf : whole_integer long_bits (in_.drop 9) = some f) :
    parse_tc long_bits in_ fps = .ok (f + s * fps + m * 60 * fps + h * 3600 * fps) := by
  obtain ⟨r, hp⟩ := ((parse_int_eq long_bits in_ none).2 hnone).2 rfl
  have hshape : ¬ (in_.length ≠ 2 * 4 + 3 ∨ in_.get? 2 ≠ some ':' ∨ in_.get? 5 ≠ some ':' ∨
      in_.get? 8 ≠ some ':') := by
    intro hor
    rcases hor with h | h | h | h
    · exact h hlen
    · exact h c2
    · exact h c5
    · exact h c8
  have lh : (in_.take 2).length ≤ 2 := by simp
  have lm : ((in_.drop 3).take 2).length ≤ 2 := by simp
  have ls : ((in_.drop 6).take 2).length ≤ 2 := by simp
  have lf : (in_.drop 9).length ≤ 2 := by simp [hlen]
  have e1 : (1 : Int) ≠ 0 := by decide
  simp only [parse_tc, hp, Run.bind, if_neg e1, if_neg hshape,
    (parse_int_named long_bits _ _).1 h hh, (parse_int_named long_bits _ _).1 m hm,
    (parse_int_named long_bits _ _).1 s hs, (parse_int_named long_bits _ _).1 f hf,
    whole_integer_two_chars long_bits _ h lh hh, whole_integer_two_chars long_bits _ m lm hm,
    whole_integer_two_chars long_bits _ s ls hs, whole_integer_two_chars long_bits _ f lf hf]
  congr 1
  ring

theorem scan_integer_two_digits : ∀ n : Nat, n < 100 →
    scan_integer [Nat.digitChar (n / 10), Nat.digitChar (n % 10)] = ((n : Int), 2) := by
  decide

theorem c_isdigit_digitChar : ∀ n : Nat, n < 10 → c_isdigit (Nat.digitChar n) = true := by
  decide

theorem whole_integer_two_digits (long_bits : Nat) (hb : 8 ≤ long_bits) (n : Int)
    (h0 : 0 ≤ n) (h1 : n < 100) : whole_integer long_bits (two_digits n) = some n := by
  have hs := scan_integer_two_digits n.toNat (by omega)
  rw [Int.toNat_of_nonneg h0] at hs
  have hp : (128 : Int) ≤ 2 ^ (long_bits - 1) := by
    have : (2 : Int) ^ 7 ≤ 2 ^ (long_bits - 1) :=
      pow_le_pow_right₀ (by norm_num) (by omega)
    simpa using this
  unfold whole_integer two_digits
  rw [hs]
  have c : ((n, 2) : Int × Nat).2 ≠ 0 ∧ ((n, 2) : Int × Nat).2 =
      [Nat.digitChar (n.toNat / 10), Nat.digitChar (n.toNat % 10)].length ∧
      - 2 ^ (long_bits - 1) ≤ ((n, 2) : Int × Nat).1 ∧
      ((n, 2) : Int × Nat).1 ≤ 2 ^ (long_bits - 1) - 1 := by
    refine ⟨Nat.succ_ne_zero 1, rfl, ?_, ?_⟩
    · show - 2 ^ (long_bits - 1) ≤ n
      omega
    · show n ≤ 2 ^ (long_bits - 1) - 1
      omega
  rw [if_pos c]

theorem scan_integer_stops_at_colon (a b : Char) (rest : List Char)
    (ha : c_isdigit a = true) (hb : c_isdigit b = true) :
    (scan_integer (a :: b :: ':' :: rest)).2 = 2 := by
  have hsp : c_isspace a = false := by
    simp only [c_isdigit, Bool.and_eq_true, decide_eq_true_eq] at ha
    simp only [c_isspace, Bool.or_eq_false_iff, Bool.and_eq_false_iff, decide_eq_false_iff_not]
    omega
  have hminus : a ≠ '-' := by
    intro h
    subst h
    exact absurd ha (by decide)
  have hplus : a ≠ '+' := by
    intro h
    subst h
    exact absurd ha (by decide)
  have hcolon : c_isdigit ':' = false := by decide
  have hsign : ¬ ((a :: b :: ':' :: rest).head? = some '-' ∨
      (a :: b :: ':' :: rest).head? = some '+') := by
    simp [hminus, hplus]
  have hdw : (a :: b :: ':' :: rest).dropWhile c_isspace = a :: b :: ':' :: rest := by
    simp [List.dropWhile_cons, hsp]
  have htw : (a :: b :: ':' :: rest).takeWhile c_isdigit = [a, b] := by
    simp [List.takeWhile_cons, ha, hb, hcolon]
  unfold scan_integer
  simp only [hdw, if_neg hsign, htw]
  simp

theorem whole_integer_timecode (long_bits : Nat) (h m s f : Int)
    (h0 : 0 ≤ h) (h1 : h < 100) :
    whole_integer long_bits (two_digits h ++ ':' :: two_digits m ++ ':' :: two_digits s ++
      ':' :: two_digits f) = none := by
  have hscan : (scan_integer (two_digits h ++ ':' :: two_digits m ++ ':' :: two_digits s ++
      ':' :: two_digits f)).2 = 2 := by
    have := scan_integer_stops_at_colon (Nat.digitChar (h.toNat / 10))
      (Nat.digitChar (h.toNat % 10))
      (two_digits m ++ ':' :: two_digits s ++ ':' :: two_digits f)
      (c_isdigit_digitChar _ (by omega)) (c_isdigit_digitChar _ (Nat.mod_lt _ (by decide)))
    simpa [two_digits] using this
  unfold whole_integer
  rw [hscan]
  have c : ¬ ((2 : Nat) ≠ 0 ∧ 2 = (two_digits h ++ ':' :: two_digits m ++ ':' :: two_digits s ++
      ':' :: two_digits f).length ∧
      - 2 ^ (long_bits - 1) ≤ (scan_integer (two_digits h ++ ':' :: two_digits m ++ ':' ::
        two_digits s ++ ':' :: two_digits f)).1 ∧
      (scan_integer (two_digits h ++ ':' :: two_digits m ++ ':' :: two_digits s ++
        ':' :: two_digits f)).1 ≤ 2 ^ (long_bits - 1) - 1) := by
    intro hc
    have := hc.2.1
    simp [two_digits] at this
  rw [if_neg c]

/-- C25: for a `long` of at least 8 bits, every timecode base `fps` among 24,
25, 30, 50 and 60 and every frame number with `0 ≤ frame < 100 * 3600 * fps`,
`mk_timecode` returns a timecode and `parse_tc` on it returns `frame`. -/
theorem parse_tc_mk_timecode (long_bits : Nat) (hb : 8 ≤ long_bits) (frame fps : Int)
    (hfps : fps = 24 ∨ fps = 25 ∨ fps = 30 ∨ fps = 50 ∨ fps = 60)
    (h0 : 0 ≤ frame) (hlt : frame < 100 * 3600 * fps) :
    (mk_timecode frame fps).bind (fun tc => parse_tc long_bits tc.data fps) = .ok frame := by
  have hpos : 0 < fps := by omega
  have q1 : 0 ≤ frame / fps := Int.ediv_nonneg h0 (by omega)
  have hh : frame / fps / 60 / 60 < 100 := by
    rcases hfps with h | h | h | h | h <;> subst h <;> omega
  have hh0 : 0 ≤ frame / fps / 60 / 60 := by omega
  have hff : frame % fps < 100 := by
    have := Int.emod_lt_of_pos frame hpos
    omega
  have hff0 : 0 ≤ frame % fps := Int.emod_nonneg _ (by omega)
  rw [mk_timecode_of_nonneg frame fps hfps h0 hlt]
  simp only [Run.bind]
  have hp := parse_tc_of_fields long_bits
    (two_digits (frame / fps / 60 / 60) ++ ':' :: two_digits (frame / fps / 60 % 60) ++ ':' ::
      two_digits (frame / fps % 60) ++ ':' :: two_digits (frame % fps)) fps
    (whole_integer_timecode long_bits _ _ _ _ hh0 hh)
    (by simp [two_digits]) (by simp [two_digits]) (by simp [two_digits]) (by simp [two_digits])
    (frame / fps / 60 / 60) (frame / fps / 60 % 60) (frame / fps % 60) (frame % fps)
    (by
      have := whole_integer_two_digits long_bits hb (frame / fps / 60 / 60) hh0 hh
      simpa [two_digits] using this)
    (by
      have := whole_integer_two_digits long_bits hb (frame / fps / 60 % 60) (by omega) (by omega)
      simpa [two_digits] using this)
    (by
      have := whole_integer_two_digits long_bits hb (frame / fps % 60) (by omega) (by omega)
      simpa [two_digits] using this)
    (by
      have := whole_integer_two_digits long_bits hb (frame % fps) hff0 hff
      simpa [two_digits] using this)
  rw [hp]
  congr 1
  have a1 := Int.ediv_add_emod frame fps
  have a2 : frame / fps = (frame / fps / 60 / 60 * 60 + frame / fps / 60 % 60) * 60 +
      frame / fps % 60 := by omega
  have a3 : frame % fps + frame / fps % 60 * fps + frame / fps / 60 % 60 * 60 * fps +
      frame / fps / 60 / 60 * 3600 * fps =
      fps * ((frame / fps / 60 / 60 * 60 + frame / fps / 60 % 60) * 60 + frame / fps % 60) +
        frame % fps := by ring
  rw [a3, ← a2]
  exact a1

/-- C25, at frame 86399 with timecode base 24 and a 64-bit `long`: the timecode
is `00:59:59:23`, and parsing it gives 86399 back. -/
theorem parse_tc_mk_timecode_witness :
    mk_timecode 86399 24 = .ok "00:59:59:23" ∧
    (mk_timecode 86399 24).bind (fun tc => parse_tc 64 tc.data 24) = .ok 86399 :=
  ⟨by decide,
   parse_tc_mk_timecode 64 (by decide) 86399 24 (by decide) (by decide) (by decide)⟩

/-! ### The payload that `read_sup` consumes -/

theorem run_bind_ok {α β : Type} (r : Run α) (f : α → Run β) (b : β)
    (h : r.bind f = .ok b) : ∃ a, r = .ok a ∧ f a = .ok b := by
  cases r with
  | ok a => exact ⟨a, rfl, h⟩
  | exit c => simp [Run.bind] at h
  | hang => simp [Run.bind] at h

theorem byte_at_take (l : List Byte) (n i : Nat) (h : i < n) :
    byte_at (l.take n) i = byte_at l i := by
  unfold byte_at
  rw [List.getD_eq_getElem?_getD, List.getD_eq_getElem?_getD, List.getElem?_take_of_lt h]

theorem byte_at_drop (l : List Byte) (k i : Nat) :
    byte_at (l.drop k) i = byte_at l (k + i) := by
  unfold byte_at
  rw [List.getD_eq_getElem?_getD, List.getD_eq_getElem?_getD, List.getElem?_drop]

theorem safe_seek_pos (fh fh1 : sup_file) (n : Nat) (k : Nat) (hk : k ≤ n)
    (h : safe_seek fh ((n : Int) - k) = .ok fh1) :
    fh1 = { fh with pos := fh.pos + n - k } := by
  unfold safe_seek at h
  have c : ¬ ((fh.pos : Int) + ((n : Int) - k) < 0) := by omega
  rw [if_neg c] at h
  simp only [Run.ok.injEq] at h
  rw [← h]
  congr 1
  omega

theorem read_palette_pos (fh fh1 : sup_file) (h : sup_header_t)
    (hr : read_palette fh h = .ok fh1) : fh1 = { fh with pos := fh.pos + h.packet_len } := by
  unfold read_palette at hr
  by_cases c1 : h.packet_len < 2 + 5
  · rw [if_pos c1] at hr
    simp at hr
  · rw [if_neg c1] at hr
    by_cases c2 : h.packet_len > 2 + 5 * 256
    · rw [if_pos c2] at hr
      simp at hr
    · rw [if_neg c2] at hr
      obtain ⟨p, hp, hr⟩ := run_bind_ok _ _ _ hr
      simp only at hr
      obtain ⟨pal, hpal, hr⟩ := run_bind_ok _ _ _ hr
      simp only [Run.ok.injEq] at hr
      obtain ⟨_, _, e1⟩ := safe_read_ok 2 fh p hp
      obtain ⟨_, _, e2⟩ := safe_read_ok _ p.2 pal hpal
      rw [← hr, e2, e1]
      simp only [sup_file.mk.injEq, true_and]
      omega

theorem read_odsn_pos (fh fh1 : sup_file) (h : sup_header_t)
    (hr : read_odsn fh h = .ok fh1) : fh1 = { fh with pos := fh.pos + h.packet_len } := by
  unfold read_odsn at hr
  by_cases c1 : h.packet_len < 4
  · rw [if_pos c1] at hr
    simp at hr
  · rw [if_neg c1] at hr
    obtain ⟨odsn, ho, hr⟩ := run_bind_ok _ _ _ hr
    simp only at hr
    obtain ⟨_, _, e1⟩ := safe_read_ok 4 fh odsn ho
    by_cases c2 : byte_at odsn.1 2 ≠ 0 ∨ (byte_at odsn.1 3 ≠ 0 ∧ byte_at odsn.1 3 ≠ 64)
    · rw [if_pos c2] at hr
      simp at hr
    · rw [if_neg c2] at hr
      have := safe_seek_pos odsn.2 fh1 h.packet_len 4 (by omega) hr
      rw [this, e1]
      simp only [sup_file.mk.injEq, true_and]
      omega

theorem read_odsf_pos (fh fh1 : sup_file) (h : sup_header_t)
    (hr : read_odsf fh h = .ok fh1) : fh1 = { fh with pos := fh.pos + h.packet_len } := by
  unfold read_odsf at hr
  by_cases c1 : h.packet_len < 11
  · rw [if_pos c1] at hr
    simp at hr
  · rw [if_neg c1] at hr
    obtain ⟨odsf, ho, hr⟩ := run_bind_ok _ _ _ hr
    simp only at hr
    obtain ⟨_, _, e1⟩ := safe_read_ok 11 fh odsf ho
    have hseek : ∀ fh2, safe_seek odsf.2 ((h.packet_len : Int) - 11) = .ok fh2 →
        fh2 = { fh with pos := fh.pos + h.packet_len } := by
      intro fh2 h2
      have := safe_seek_pos odsf.2 fh2 h.packet_len 11 (by omega) h2
      rw [this, e1]
      simp only [sup_file.mk.injEq, true_and]
      omega
    by_cases c2 : be32_at odsf.1 3 &&& 0x80000000 ≠ 0 ∧ be32_at odsf.1 3 &&& 0x40000000 ≠ 0
    · rw [if_pos c2] at hr
      exact hseek fh1 hr
    · rw [if_neg c2] at hr
      by_cases c3 : be32_at odsf.1 3 &&& 0x80000000 ≠ 0
      · rw [if_pos c3] at hr
        exact hseek fh1 hr
      · rw [if_neg c3] at hr
        have eb : ({ odsf.2 with pos := odsf.2.pos - 11 } : sup_file) = fh := by
          rw [e1]
          cases fh
          simp
        rw [eb] at hr
        exact read_odsn_pos fh fh1 h hr

theorem read_pcs_end_pos (fh fh1 : sup_file) (h : sup_header_t)
    (hr : read_pcs_end fh h = .ok fh1) : fh1 = { fh with pos := fh.pos + 11 } := by
  unfold read_pcs_end at hr
  obtain ⟨pcse, hp, hr⟩ := run_bind_ok _ _ _ hr
  simp only at hr
  obtain ⟨_, _, e1⟩ := safe_read_ok 11 fh pcse hp
  by_cases c1 : be32_at pcse.1 7 ≠ 0
  · rw [if_pos c1] at hr
    simp at hr
  · rw [if_neg c1] at hr
    by_cases c2 : (get_fps (byte_at pcse.1 4) 0 0).1 = 0
    · rw [if_pos c2] at hr
      simp at hr
    · rw [if_neg c2] at hr
      simp only [Run.ok.injEq] at hr
      rw [← hr, e1]

theorem read_pcs_start_objects_pos (n : Nat) : ∀ (fh fh1 : sup_file),
    read_pcs_start_objects n fh = .ok fh1 → fh1 = { fh with pos := fh.pos + 8 * n } := by
  induction n with
  | zero =>
    intro fh fh1 hr
    simp only [read_pcs_start_objects, Run.ok.injEq] at hr
    rw [← hr]
    rfl
  | succ n ih =>
    intro fh fh1 hr
    rw [read_pcs_start_objects] at hr
    obtain ⟨o, ho, hr⟩ := run_bind_ok _ _ _ hr
    simp only at hr
    obtain ⟨_, _, e1⟩ := safe_read_ok 8 fh o ho
    by_cases c1 : byte_at o.1 2 ≠ 0 ∧ byte_at o.1 2 ≠ 1
    · rw [if_pos c1] at hr
      simp at hr
    · rw [if_neg c1] at hr
      by_cases c2 : byte_at o.1 3 ≠ 0 ∧ byte_at o.1 3 ≠ 64
      · rw [if_pos c2] at hr
        simp at hr
      · rw [if_neg c2] at hr
        rw [ih o.2 fh1 hr, e1]
        simp only [sup_file.mk.injEq, true_and]
        omega

theorem read_wds_objects_pos (n : Nat) : ∀ (fh fh1 : sup_file),
    read_wds_objects n fh = .ok fh1 → fh1 = { fh with pos := fh.pos + 9 * n } := by
  induction n with
  | zero =>
    intro fh fh1 hr
    simp only [read_wds_objects, Run.ok.injEq] at hr
    rw [← hr]
    rfl
  | succ n ih =>
    intro fh fh1 hr
    rw [read_wds_objects] at hr
    obtain ⟨o, ho, hr⟩ := run_bind_ok _ _ _ hr
    simp only at hr
    obtain ⟨_, _, e1⟩ := safe_read_ok 9 fh o ho
    by_cases c1 : byte_at o.1 0 ≠ 0 ∧ byte_at o.1 0 ≠ 1
    · rw [if_pos c1] at hr
      simp at hr
    · rw [if_neg c1] at hr
      rw [ih o.2 fh1 hr, e1]
      simp only [sup_file.mk.injEq, true_and]
      omega

theorem read_pcs_start_pos (fh fh1 : sup_file) (h : sup_header_t)
    (hr : read_pcs_start fh h = .ok fh1) :
    byte_at fh.rest 10 ≤ 2 ∧ fh1 = { fh with pos := fh.pos + (11 + 8 * byte_at fh.rest 10) } := by
  unfold read_pcs_start at hr
  obtain ⟨pcss, hp, hr⟩ := run_bind_ok _ _ _ hr
  simp only at hr
  obtain ⟨e0, _, e1⟩ := safe_read_ok 11 fh pcss hp
  have eb : byte_at pcss.1 10 = byte_at fh.rest 10 := by
    rw [e0]
    exact byte_at_take _ _ _ (by decide)
  by_cases c1 : be16_at pcss.1 8 ≠ 0
  · rw [if_pos c1] at hr
    simp at hr
  · rw [if_neg c1] at hr
    by_cases c2 : (get_fps (byte_at pcss.1 4) 0 0).1 = 0
    · rw [if_pos c2] at hr
      simp at hr
    · rw [if_neg c2] at hr
      by_cases c3 : byte_at pcss.1 10 > 2
      · rw [if_pos c3] at hr
        simp at hr
      · rw [if_neg c3] at hr
        have := read_pcs_start_objects_pos _ pcss.2 fh1 hr
        rw [this, e1, eb]
        refine ⟨by omega, ?_⟩
        simp only [sup_file.mk.injEq, true_and]
        omega

theorem read_wds_pos (fh fh1 : sup_file) (h : sup_header_t)
    (hr : read_wds fh h = .ok fh1) :
    (h.packet_len = 10 ∨ h.packet_len = 19) ∧
    (byte_at fh.rest 0 = 1 ∨ byte_at fh.rest 0 = 2) ∧
    fh1 = { fh with pos := fh.pos + (1 + 9 * byte_at fh.rest 0) } := by
  unfold read_wds at hr
  by_cases c0 : h.packet_len ≠ 1 + 9 ∧ h.packet_len ≠ 1 + 2 * 9
  · rw [if_pos c0] at hr
    simp at hr
  · rw [if_neg c0] at hr
    obtain ⟨wds, hp, hr⟩ := run_bind_ok _ _ _ hr
    simp only at hr
    obtain ⟨e0, _, e1⟩ := safe_read_ok 1 fh wds hp
    have eb : byte_at wds.1 0 = byte_at fh.rest 0 := by
      rw [e0]
      exact byte_at_take _ _ _ (by decide)
    by_cases c1 : byte_at wds.1 0 ≠ 1 ∧ byte_at wds.1 0 ≠ 2
    · rw [if_pos c1] at hr
      simp at hr
    · rw [if_neg c1] at hr
      have := read_wds_objects_pos _ wds.2 fh1 hr
      rw [this, e1, eb]
      rw [eb] at c1
      refine ⟨by omega, by omega, ?_⟩
      simp only [sup_file.mk.injEq, true_and]
      omega

/-- C27, as stated, fails: `read_sup` accepts a WDS packet whose header says 19
bytes of payload and whose window count is 1, and a PCS packet whose header
says 19 bytes and whose object count is 0; it consumes 10 and 11 bytes of
payload after the 13 bytes of the header, not 19. -/
theorem read_sup_count_counterexample :
    (conv_sup_header (wds_packet_one_window.take 13)).packet_len = 19 ∧
    read_sup ⟨wds_packet_one_window, 0⟩ = .ok ⟨wds_packet_one_window, 13 + 10⟩ ∧
    (conv_sup_header (pcs_packet_no_object.take 13)).packet_len = 19 ∧
    read_sup ⟨pcs_packet_no_object, 0⟩ = .ok ⟨pcs_packet_no_object, 13 + 11⟩ := by
  refine ⟨by decide, by decide, by decide, by decide⟩

/-- C27, amended: when `read_sup` accepts a packet, the file is unchanged and
the position has moved past the 13 bytes of the header and the payload
consumed.  For a PDS, ODS, END or PCS packet of length 11 the payload consumed
is `packet_len`.  For a PCS packet of length 19 or 27 it is `11 + 8 * n` for
the object count `n ≤ 2` in byte 10 of the payload, and for a WDS packet,
whose length is 10 or 19, it is `1 + 9 * n` for the window count `n` (1 or 2)
in byte 0 of the payload, whatever `packet_len` says. -/
theorem read_sup_payload_consumed (fh fh1 : sup_file) (hr : read_sup fh = .ok fh1) :
    fh1.data = fh.data ∧
    (((conv_sup_header (fh.rest.take 13)).packet_type = 0x14 ∨
      (conv_sup_header (fh.rest.take 13)).packet_type = 0x15 ∨
      (conv_sup_header (fh.rest.take 13)).packet_type = 0x80 ∨
      ((conv_sup_header (fh.rest.take 13)).packet_type = 0x16 ∧
        (conv_sup_header (fh.rest.take 13)).packet_len = 11)) →
      fh1.pos = fh.pos + 13 + (conv_sup_header (fh.rest.take 13)).packet_len) ∧
    ((conv_sup_header (fh.rest.take 13)).packet_type = 0x16 →
      (conv_sup_header (fh.rest.take 13)).packet_len ≠ 11 →
      ((conv_sup_header (fh.rest.take 13)).packet_len = 19 ∨
        (conv_sup_header (fh.rest.take 13)).packet_len = 27) ∧
      byte_at fh.rest (13 + 10) ≤ 2 ∧
      fh1.pos = fh.pos + 13 + (11 + 8 * byte_at fh.rest (13 + 10))) ∧
    ((conv_sup_header (fh.rest.take 13)).packet_type = 0x17 →
      ((conv_sup_header (fh.rest.take 13)).packet_len = 10 ∨
        (conv_sup_header (fh.rest.take 13)).packet_len = 19) ∧
      (byte_at fh.rest 13 = 1 ∨ byte_at fh.rest 13 = 2) ∧
      fh1.pos = fh.pos + 13 + (1 + 9 * byte_at fh.rest 13)) := by
  unfold read_sup at hr
  obtain ⟨hb, hh, hr⟩ := run_bind_ok _ _ _ hr
  simp only at hr
  obtain ⟨e0, _, e1⟩ := safe_read_ok 13 fh hb hh
  rw [e0, e1] at hr
  have hrest : ∀ i, byte_at (sup_file.rest { fh with pos := fh.pos + 13 }) i =
      byte_at fh.rest (13 + i) := by
    intro i
    unfold sup_file.rest
    rw [← List.drop_drop]
    exact byte_at_drop _ _ _
  generalize conv_sup_header (fh.rest.take 13) = h at hr ⊢
  by_cases hm : h.m1 ≠ 80 ∨ h.m2 ≠ 71
  · rw [if_pos hm] at hr
    simp at hr
  rw [if_neg hm] at hr
  by_cases t14 : h.packet_type = 0x14
  · rw [if_pos t14] at hr
    have := read_palette_pos _ fh1 h hr
    rw [this]
    refine ⟨rfl, fun _ => rfl, fun h16 => by omega, fun h17 => by omega⟩
  rw [if_neg t14] at hr
  by_cases t15 : h.packet_type = 0x15
  · rw [if_pos t15] at hr
    have := read_odsf_pos _ fh1 h hr
    rw [this]
    refine ⟨rfl, fun _ => rfl, fun h16 => by omega, fun h17 => by omega⟩
  rw [if_neg t15] at hr
  by_cases t16 : h.packet_type = 0x16
  · rw [if_pos t16] at hr
    by_cases l11 : h.packet_len = 11
    · rw [if_pos l11] at hr
      have := read_pcs_end_pos _ fh1 h hr
      rw [this]
      refine ⟨rfl, fun _ => ?_, fun _ hne => absurd l11 hne, fun h17 => by omega⟩
      show fh.pos + 13 + 11 = fh.pos + 13 + h.packet_len
      rw [l11]
    · rw [if_neg l11] at hr
      by_cases l19 : h.packet_len = 19 ∨ h.packet_len = 27
      · rw [if_pos l19] at hr
        obtain ⟨hle, this⟩ := read_pcs_start_pos _ fh1 h hr
        rw [hrest] at hle this
        rw [this]
        refine ⟨rfl, fun hc => ?_, fun _ _ => ⟨l19, hle, rfl⟩, fun h17 => by omega⟩
        rcases hc with hc | hc | hc | hc
        · omega
        · omega
        · omega
        · exact absurd hc.2 l11
      · rw [if_neg l19] at hr
        simp at hr
  rw [if_neg t16] at hr
  by_cases t17 : h.packet_type = 0x17
  · rw [if_pos t17] at hr
    obtain ⟨hl, hob, this⟩ := read_wds_pos _ fh1 h hr
    rw [hrest] at hob this
    rw [this]
    refine ⟨rfl, fun hc => ?_, fun h16 => by omega, fun _ => ⟨hl, hob, rfl⟩⟩
    rcases hc with hc | hc | hc | hc
    · omega
    · omega
    · omega
    · omega
  rw [if_neg t17] at hr
  by_cases t80 : h.packet_type = 0x80
  · rw [if_pos t80] at hr
    by_cases l0 : h.packet_len = 0
    · rw [if_pos l0] at hr
      simp only [Run.ok.injEq] at hr
      rw [← hr]
      refine ⟨rfl, fun _ => ?_, fun h16 => by omega, fun h17 => by omega⟩
      show fh.pos + 13 = fh.pos + 13 + h.packet_len
      rw [l0]
    · rw [if_neg l0] at hr
      simp at hr
  · rw [if_neg t80] at hr
    simp at hr

/-- C27 amended, at a file holding a WDS packet of length 10 with one window,
where the payload consumed is the 10 bytes that the header says, and at the
WDS packet of declared length 19 with one window, where it is 10 bytes too. -/
theorem read_sup_payload_consumed_witness :
    read_sup ⟨wds_packet, 0⟩ = .ok ⟨wds_packet, 23⟩ ∧
    (⟨wds_packet, 23⟩ : sup_file).pos = 0 + 13 + (1 + 9 * byte_at wds_packet 13) ∧
    (⟨wds_packet_one_window, 23⟩ : sup_file).pos =
      0 + 13 + (1 + 9 * byte_at wds_packet_one_window 13) :=
  ⟨by decide,
   ((read_sup_payload_consumed ⟨wds_packet, 0⟩ ⟨wds_packet, 23⟩ (by decide)).2.2.2
      (by decide)).2.2,
   ((read_sup_payload_consumed ⟨wds_packet_one_window, 0⟩ ⟨wds_packet_one_window, 23⟩
      (by decide)).2.2.2 (by decide)).2.2⟩

end Avs2bdnxml
